import Mathlib

/-!
# Terrain patch quadtree (SoA/TerrainPatch.cpp)

A shallow embedding of `TerrainPatch` and of the operations `init`, `update`,
`destroy`, `hasMesh`, `isRenderable`, `isOverHorizon`, `canSubdivide`,
`requestMesh` and `calculateClosestPointAndDist`.

Conventions of the embedding:

* `f32`/`f64` values are idealised as elements of an arbitrary linearly ordered
  field `F`, and the operations on them are exact. The constants `DIST_MIN`,
  `DIST_MAX` and `MIN_SIZE` are declared `float` and compared with `f64`
  operands: they have the exact values of the single-precision literals
  `3.0f`, `3.1f` and `0.4096f`. The margin `DELTA` of `isOverHorizon`, whose
  properties are stated over exact real arithmetic, is the decimal `0.1`.
  The library functions `sqrt` and `acos` are supplied through `FloatMath`, so
  the same definitions run over `ℚ` and are stated over `ℝ` with
  `Real.sqrt` and `Real.arccos`.
* `TerrainPatchMesh*` is a handle (`MeshPtr`) into a mesh store (`World`);
  `nullptr` is `none`.
* `m_children` is `nullptr` for `TerrainPatch.leaf` and a `new TerrainPatch[4]`
  for `TerrainPatch.node`; the child at array index `i` is the `i`-th child
  argument of `node`.
* Collaborators whose code is not part of `TerrainPatch.cpp` (coordinate
  tables, closest-point queries, the dispatcher, `PATCH_MAX_LOD`) are fields of
  `Env`.
* `isOverHorizonChecked` and `updateWithin` repeat the statements of
  `isOverHorizon` and of `update` with the divisions and `acos` arguments
  checked, and with the depth of the recursion bounded.
-/

namespace SoA

/-! ## Vectors -/

/-- The type `f64v2`. -/
structure V2 (F : Type) where
  x : F
  y : F
deriving DecidableEq, Repr

/-- The types `f32v3` and `f64v3`. -/
structure V3 (F : Type) where
  x : F
  y : F
  z : F
deriving DecidableEq, Repr

/-- The type `i32v2`. -/
structure I32v2 where
  x : Int
  y : Int
deriving DecidableEq, Repr

/-- The type `i32v3`. -/
structure I32v3 where
  x : Int
  y : Int
  z : Int
deriving DecidableEq, Repr

section Vec
variable {F : Type} [LinearOrderedField F]

/-- Sum of two `f64v2`. -/
def V2.add (a b : V2 F) : V2 F := ⟨a.x + b.x, a.y + b.y⟩

/-- The zero vector. -/
def V3.zero : V3 F := ⟨0, 0, 0⟩

/-- Difference of two vectors. -/
def V3.sub (a b : V3 F) : V3 F := ⟨a.x - b.x, a.y - b.y, a.z - b.z⟩

/-- Vector times scalar. -/
def V3.scale (a : V3 F) (s : F) : V3 F := ⟨a.x * s, a.y * s, a.z * s⟩

/-- Vector divided by scalar. -/
def V3.divScalar (a : V3 F) (s : F) : V3 F := ⟨a.x / s, a.y / s, a.z / s⟩

/-- The function `glm::dot`. -/
def V3.dot (a b : V3 F) : F := a.x * b.x + a.y * b.y + a.z * b.z

/-- Component write `v[i] = a` for the component index `i` (0, 1 or 2). -/
def V3.set (v : V3 F) (i : Int) (a : F) : V3 F :=
  if i = 0 then { v with x := a }
  else if i = 1 then { v with y := a }
  else if i = 2 then { v with z := a }
  else v

end Vec

/-- The functions `sqrt` and `acos` of the floating-point library. -/
structure FloatMath (F : Type) where
  sqrt : F → F
  acos : F → F

section VecMath
variable {F : Type} [LinearOrderedField F]

/-- The function `glm::length`. -/
def FloatMath.length (m : FloatMath F) (v : V3 F) : F := m.sqrt (V3.dot v v)

/-- The function `glm::normalize`. -/
def FloatMath.normalize (m : FloatMath F) (v : V3 F) : V3 F := v.divScalar (m.length v)

end VecMath

/-! ## Meshes and the mesh store -/

/-- The two flags of a `TerrainPatchMesh` that the quadtree reads and writes. -/
structure TerrainPatchMesh where
  m_isRenderable : Bool
  m_shouldDelete : Bool
deriving DecidableEq, Repr

/-- A non-null `TerrainPatchMesh*`. -/
abbrev MeshPtr := Nat

/-- The mesh store: the mesh at every address, and the next address the
dispatcher hands out (every address below `next` has been handed out). -/
structure World where
  mesh : MeshPtr → TerrainPatchMesh
  next : Nat

/-- The statement `mesh->m_shouldDelete = true`. -/
def World.setShouldDelete (w : World) (h : MeshPtr) : World :=
  { w with mesh := Function.update w.mesh h { w.mesh h with m_shouldDelete := true } }

/-- The enumeration `WorldCubeFace`, as the integer it is cast to when indexing
the coordinate tables. -/
abbrev WorldCubeFace := Fin 6

/-! ## The patch -/

/-- The data members of a `TerrainPatch` other than `m_children`. -/
structure PatchFields (F : Type) where
  m_gridPos : V2 F
  m_cubeFace : WorldCubeFace
  m_lod : Int
  m_width : F
  m_aabbPos : V3 F
  m_aabbDims : V3 F
  m_distance : F
  m_mesh : Option MeshPtr
deriving DecidableEq, Repr

/-- A `TerrainPatch`: `leaf` when `m_children` is `nullptr`, `node` when
`m_children` points to an array of four patches. -/
inductive TerrainPatch (F : Type) where
  | leaf (d : PatchFields F) : TerrainPatch F
  | node (d : PatchFields F) (c0 c1 c2 c3 : TerrainPatch F) : TerrainPatch F
deriving DecidableEq, Repr

/-- The collaborators of `TerrainPatch.cpp` whose code lives elsewhere. -/
structure Env (F : Type) where
  /-- `sqrt` and `acos`. -/
  math : FloatMath F
  /-- The constant `PATCH_MAX_LOD` of `TerrainPatch.h`. -/
  PATCH_MAX_LOD : Int
  /-- The value of `m_sphericalTerrainData->getRadius()`. -/
  getRadius : F
  /-- The table `VoxelSpaceConversions::VOXEL_TO_WORLD`. -/
  VOXEL_TO_WORLD : WorldCubeFace → I32v3
  /-- The table `VoxelSpaceConversions::FACE_TO_WORLD_MULTS`. -/
  FACE_TO_WORLD_MULTS : WorldCubeFace → I32v2
  /-- The table `VoxelSpaceConversions::FACE_Y_MULTS`. -/
  FACE_Y_MULTS : WorldCubeFace → F
  /-- The function `getClosestPointOnAABB(pos, aabbPos, aabbDims)`. -/
  getClosestPointOnAABB : V3 F → V3 F → V3 F → V3 F
  /-- The query `mesh->getClosestPoint(cameraPos)`. -/
  meshClosestPoint : MeshPtr → V3 F → V3 F
  /-- The flags of the mesh that
  `dispatchTerrainGen(startPos, width, lod, cubeFace, isSpherical)` returns. -/
  dispatchedMesh : V3 F → F → Int → WorldCubeFace → Bool → TerrainPatchMesh
  /-- The value of `m_distance` in a default-constructed patch. -/
  defaultDistance : F

section Patch
variable {F : Type} [LinearOrderedField F]

/-- The constant `DIST_MIN = 3.0f`; the single-precision literal has the value 3. -/
def DIST_MIN : F := 3.0

/-- The constant `DIST_MAX = 3.1f`: the value of the single-precision literal,
`6501171 / 2^21` (about 3.0999999046), which is what the `f64` operands are
compared with after promotion. -/
def DIST_MAX : F := 6501171 / 2097152

/-- The constant `MIN_SIZE = 0.4096f`: the value of the single-precision literal,
`13743895 / 2^25` (about 0.40959998965), which is what the `f64` member
`m_width` is compared with after promotion. -/
def MIN_SIZE : F := 13743895 / 33554432

/-- The constant `INT_MAX`. -/
def INT_MAX : F := 2147483647

/-- The constant `INT_MIN`. -/
def INT_MIN : F := -2147483648

/-- The data members of a patch. -/
def TerrainPatch.fields : TerrainPatch F → PatchFields F
  | .leaf d => d
  | .node d _ _ _ _ => d

/-- Whether `m_children` is non-null. -/
def TerrainPatch.hasChildren : TerrainPatch F → Bool
  | .leaf _ => false
  | .node _ _ _ _ _ => true

/-- The elements of the array `m_children`, in index order (empty when
`m_children` is null). -/
def TerrainPatch.children : TerrainPatch F → List (TerrainPatch F)
  | .leaf _ => []
  | .node _ c0 c1 c2 c3 => [c0, c1, c2, c3]

/-- The element `m_children[i]`. -/
def TerrainPatch.child (p : TerrainPatch F) (i : Nat) : Option (TerrainPatch F) :=
  p.children[i]?

/-- Replaces the data members of a patch, keeping `m_children`. -/
def TerrainPatch.withFields : TerrainPatch F → PatchFields F → TerrainPatch F
  | .leaf _, d => .leaf d
  | .node _ c0 c1 c2 c3, d => .node d c0 c1 c2 c3

/-- Modelled from the spec: the default-constructed `TerrainPatch` (its
constructor and member initialisers are in `TerrainPatch.h`): no mesh handle,
no children. -/
def TerrainPatch.fresh (env : Env F) : TerrainPatch F :=
  .leaf { m_gridPos := ⟨0, 0⟩, m_cubeFace := 0, m_lod := 0, m_width := 0,
          m_aabbPos := V3.zero, m_aabbDims := V3.zero,
          m_distance := env.defaultDistance, m_mesh := none }

/-- One corner of the patch projected onto the sphere (one of the four blocks
of assignments to `corners[i]` in `init`): grid coordinates `gx`, `gz`. -/
def corner (env : Env F) (cubeFace : WorldCubeFace) (gx gz : F) : V3 F :=
  let coordMapping := env.VOXEL_TO_WORLD cubeFace
  let coordMults := env.FACE_TO_WORLD_MULTS cubeFace
  let c : V3 F := V3.zero
  let c := c.set coordMapping.x (gx * (coordMults.x : F))
  let c := c.set coordMapping.y (env.getRadius * env.FACE_Y_MULTS cubeFace)
  let c := c.set coordMapping.z (gz * (coordMults.y : F))
  (env.math.normalize c).scale env.getRadius

/-- The running minimum and maximum of one coordinate in the scan of `init`. -/
structure MinMax (F : Type) where
  min : F
  max : F
deriving DecidableEq, Repr

/-- One iteration of the scan of `init` on one coordinate:
`if (c < min) min = c; else if (c > max) max = c;`. -/
def MinMax.step (mm : MinMax F) (c : F) : MinMax F :=
  if c < mm.min then { mm with min := c }
  else if c > mm.max then { mm with max := c }
  else mm

/-- The scan of `init` on one coordinate over the corners, starting from
`min = INT_MAX`, `max = INT_MIN`. -/
def MinMax.scan (cs : List F) : MinMax F :=
  cs.foldl MinMax.step ⟨INT_MAX, INT_MIN⟩

/-- The method `TerrainPatch::init`, applied to the patch `self`. The shared
terrain data and the dispatcher are those of `env`. -/
def TerrainPatch.init (env : Env F) (self : TerrainPatch F) (gridPosition : V2 F)
    (cubeFace : WorldCubeFace) (lod : Int) (width : F) : TerrainPatch F :=
  let corners : List (V3 F) :=
    [ corner env cubeFace gridPosition.x gridPosition.y,
      corner env cubeFace gridPosition.x (gridPosition.y + width),
      corner env cubeFace (gridPosition.x + width) (gridPosition.y + width),
      corner env cubeFace (gridPosition.x + width) gridPosition.y ]
  let mx := MinMax.scan (corners.map V3.x)
  let my := MinMax.scan (corners.map V3.y)
  let mz := MinMax.scan (corners.map V3.z)
  self.withFields
    { self.fields with
      m_gridPos := gridPosition
      m_cubeFace := cubeFace
      m_lod := lod
      m_width := width
      m_aabbPos := ⟨mx.min, my.min, mz.min⟩
      m_aabbDims := ⟨mx.max - mx.min, my.max - my.min, mz.max - mz.min⟩ }

/-- The method `TerrainPatch::hasMesh`. -/
def hasMesh (w : World) (d : PatchFields F) : Bool :=
  match d.m_mesh with
  | some h => (w.mesh h).m_isRenderable
  | none => false

/-- The method `TerrainPatch::isRenderable`. -/
def isRenderable (w : World) : TerrainPatch F → Bool
  | .leaf d => if hasMesh w d then true else false
  | .node d c0 c1 c2 c3 =>
    if hasMesh w d then true
    else if !isRenderable w c0 then false
    else if !isRenderable w c1 then false
    else if !isRenderable w c2 then false
    else if !isRenderable w c3 then false
    else true

/-- The function `TerrainPatch::isOverHorizon` (the `f32` and the `f64`
overload have the same text). -/
def isOverHorizon (m : FloatMath F) (relCamPos point : V3 F) (planetRadius : F) : Bool :=
  let DELTA : F := 0.1
  let camHeight := m.length relCamPos
  let normalizedCamPos := relCamPos.divScalar camHeight
  -- Limit the camera depth
  let camHeight := if camHeight < planetRadius + 1.0 then planetRadius + 1.0 else camHeight
  let horizonAngle := m.acos (planetRadius / camHeight)
  let lodAngle := m.acos (V3.dot normalizedCamPos (m.normalize point))
  if lodAngle ≥ horizonAngle + DELTA then true else false

/-- The method `TerrainPatch::canSubdivide`. -/
def canSubdivide (env : Env F) (d : PatchFields F) : Bool :=
  decide (d.m_lod < env.PATCH_MAX_LOD) && decide (d.m_distance < d.m_width * DIST_MIN)
    && decide (d.m_width > MIN_SIZE)

/-- Modelled from the spec: `TerrainRpcDispatcher::dispatchTerrainGen` (its code
is in another file): it returns at once a handle to a mesh of its own making,
valid immediately but not necessarily ready. The handle is the next free
address; the flags of the new mesh are those of `env.dispatchedMesh`. -/
def dispatchTerrainGen (env : Env F) (w : World) (startPos : V3 F) (width : F) (lod : Int)
    (cubeFace : WorldCubeFace) (isSpherical : Bool) : MeshPtr × World :=
  (w.next,
   { mesh := Function.update w.mesh w.next
       (env.dispatchedMesh startPos width lod cubeFace isSpherical),
     next := w.next + 1 })

/-- The method `TerrainPatch::requestMesh`. -/
def requestMesh (env : Env F) (w : World) (d : PatchFields F) : World × PatchFields F :=
  let coordMults := env.FACE_TO_WORLD_MULTS d.m_cubeFace
  let startPos : V3 F :=
    ⟨d.m_gridPos.x * (coordMults.x : F),
     env.getRadius * env.FACE_Y_MULTS d.m_cubeFace,
     d.m_gridPos.y * (coordMults.y : F)⟩
  let r := dispatchTerrainGen env w startPos d.m_width d.m_lod d.m_cubeFace true
  (r.2, { d with m_mesh := some r.1 })

/-- The method `TerrainPatch::calculateClosestPointAndDist`: the closest point,
and the data members with `m_distance` assigned. -/
def calculateClosestPointAndDist (env : Env F) (cameraPos : V3 F) (w : World)
    (d : PatchFields F) : V3 F × PatchFields F :=
  let closestPoint : V3 F :=
    if hasMesh w d then
      -- If we have a mesh, we can use its accurate bounding box
      match d.m_mesh with
      | some h => env.meshClosestPoint h cameraPos
      | none => env.getClosestPointOnAABB cameraPos d.m_aabbPos d.m_aabbDims
    else env.getClosestPointOnAABB cameraPos d.m_aabbPos d.m_aabbDims
  (closestPoint, { d with m_distance := env.math.length (closestPoint.sub cameraPos) })

/-- The first statement of `destroy`: `if (m_mesh) m_mesh->m_shouldDelete = true`. -/
def markMesh (w : World) (m : Option MeshPtr) : World :=
  match m with
  | some h => w.setShouldDelete h
  | none => w

/-- The method `TerrainPatch::destroy` (which the destructor runs): the mesh
store and the patch afterwards. `delete[] m_children` runs the destructor of
the four children, last element first, and frees the array. -/
def destroy (w : World) : TerrainPatch F → World × TerrainPatch F
  | .leaf d => (markMesh w d.m_mesh, .leaf { d with m_mesh := none })
  | .node d c0 c1 c2 c3 =>
    let w := markMesh w d.m_mesh
    let w := (destroy w c3).1
    let w := (destroy w c2).1
    let w := (destroy w c1).1
    let w := (destroy w c0).1
    (w, .leaf { d with m_mesh := none })

/-- The statement `delete[] m_children` on the children `c0 .. c3`: the
destructor of each element runs, last element first. -/
def deleteChildren (w : World) (c0 c1 c2 c3 : TerrainPatch F) : World :=
  let w := (destroy w c3).1
  let w := (destroy w c2).1
  let w := (destroy w c1).1
  (destroy w c0).1

/-- The measure that bounds the recursion of `update`: a leaf can be split at
most `PATCH_MAX_LOD - m_lod` more times. -/
def TerrainPatch.rank (maxLod : Int) : TerrainPatch F → Nat
  | .leaf d => (maxLod - d.m_lod).toNat
  | .node _ c0 c1 c2 c3 => 1 + (c0.rank maxLod + c1.rank maxLod + c2.rank maxLod + c3.rank maxLod)

/-- The child that `update` initialises at array index `(z << 1) + x`. -/
def newChild (env : Env F) (d : PatchFields F) (x z : Nat) : TerrainPatch F :=
  (TerrainPatch.fresh env).init env
    (d.m_gridPos.add ⟨(d.m_width / 2.0) * (x : F), (d.m_width / 2.0) * (z : F)⟩)
    d.m_cubeFace (d.m_lod + 1) (d.m_width / 2.0)

/-- The statement `if (!m_mesh) requestMesh();`. -/
def requestIfNoMesh (env : Env F) (w : World) (d : PatchFields F) : World × PatchFields F :=
  if d.m_mesh = none then requestMesh env w d else (w, d)

/-- The loop of `update` that computes `deleteMesh`: it starts `true` and
becomes `false` at the first child that is not renderable. -/
def allChildrenRenderable (w : World) (c0 c1 c2 c3 : TerrainPatch F) : Bool :=
  if !isRenderable w c0 then false
  else if !isRenderable w c1 then false
  else if !isRenderable w c2 then false
  else if !isRenderable w c3 then false
  else true

/-- The body of `TerrainPatch::update` up to the recursion into the children
(the distance computation and the `if`/`else if` chain on `m_children`,
`canSubdivide()` and `m_mesh`). -/
def updateSelf (env : Env F) (cameraPos : V3 F) (w : World) (p : TerrainPatch F) :
    World × TerrainPatch F :=
  -- Calculate distance from camera
  let cd := calculateClosestPointAndDist env cameraPos w p.fields
  let closestPoint := cd.1
  match p with
  | .node _ c0 c1 c2 c3 =>
    let d := cd.2
    if d.m_distance > d.m_width * DIST_MAX then
      let r := requestIfNoMesh env w d
      if hasMesh r.1 r.2 then
        -- Out of range, kill children
        (deleteChildren r.1 c0 c1 c2 c3, .leaf r.2)
      else (r.1, .node r.2 c0 c1 c2 c3)
    else
      match d.m_mesh with
      | some h =>
        -- In range, but we need to remove our mesh.
        -- Check to see if all children are renderable
        let deleteMesh := allChildrenRenderable w c0 c1 c2 c3
        if deleteMesh then
          -- Children are renderable, free mesh.
          (w.setShouldDelete h, .node { d with m_mesh := none } c0 c1 c2 c3)
        else (w, .node d c0 c1 c2 c3)
      | none => (w, .node d c0 c1 c2 c3)
  | .leaf _ =>
    let d := cd.2
    if canSubdivide env d then
      -- Check if we are over horizon. If we are, don't divide.
      if !isOverHorizon env.math cameraPos closestPoint env.getRadius then
        -- Segment into 4 children
        (w, .node d (newChild env d 0 0) (newChild env d 1 0) (newChild env d 0 1)
              (newChild env d 1 1))
      else (w, .leaf d)
    else if d.m_mesh = none then
      let r := requestMesh env w d
      (r.1, .leaf r.2)
    else (w, .leaf d)

/-- The method `TerrainPatch::update`: `updateSelf`, then the recursive update
of the four children, in index order, if they exist. -/
def update (env : Env F) (cameraPos : V3 F) (w : World) (p : TerrainPatch F) :
    World × TerrainPatch F :=
  match h : updateSelf env cameraPos w p with
  | (w1, .leaf d) => (w1, .leaf d)
  | (w1, .node d c0 c1 c2 c3) =>
    -- Recursively update children if they exist
    let r0 := update env cameraPos w1 c0
    let r1 := update env cameraPos r0.1 c1
    let r2 := update env cameraPos r1.1 c2
    let r3 := update env cameraPos r2.1 c3
    (r3.1, .node d r0.2 r1.2 r2.2 r3.2)
termination_by p.rank env.PATCH_MAX_LOD
decreasing_by
  all_goals simp_wf
  all_goals
    clear * - h
    cases p with
    | leaf d0 =>
      simp only [updateSelf, TerrainPatch.fields] at h
      split_ifs at h with h1 h2 h3
      · simp only [Prod.mk.injEq, TerrainPatch.node.injEq] at h
        obtain ⟨-, -, e0, e1, e2, e3⟩ := h
        simp only [canSubdivide, Bool.and_eq_true, decide_eq_true_eq] at h1
        have hl := h1.1.1
        simp only [calculateClosestPointAndDist] at hl
        subst e0 e1 e2 e3
        simp only [newChild, TerrainPatch.init, TerrainPatch.fresh, TerrainPatch.withFields,
          TerrainPatch.rank, calculateClosestPointAndDist]
        omega
      · simp at h
      · simp at h
      · simp at h
    | node d0 a0 a1 a2 a3 =>
      have hc : (updateSelf env cameraPos w (.node d0 a0 a1 a2 a3)).2.children = [] ∨
          (updateSelf env cameraPos w (.node d0 a0 a1 a2 a3)).2.children = [a0, a1, a2, a3] := by
        simp only [updateSelf]
        split_ifs <;> (try split) <;> simp [TerrainPatch.children]
      rw [h] at hc
      simp only [TerrainPatch.children, List.cons.injEq, and_true, reduceCtorEq, false_or] at hc
      obtain ⟨rfl, rfl, rfl, rfl⟩ := hc
      simp only [TerrainPatch.rank]
      omega

/-- The loop that ends `update`: the four children, if they exist, are updated
in index order. -/
def updateChildren (env : Env F) (cameraPos : V3 F) (w : World) :
    TerrainPatch F → World × TerrainPatch F
  | .leaf d => (w, .leaf d)
  | .node d c0 c1 c2 c3 =>
    let r0 := update env cameraPos w c0
    let r1 := update env cameraPos r0.1 c1
    let r2 := update env cameraPos r1.1 c2
    let r3 := update env cameraPos r2.1 c3
    (r3.1, .node d r0.2 r1.2 r2.2 r3.2)

/-! ## Vocabulary of the properties -/

/-- The mesh handles held by the patches of a tree (the patch itself first). -/
def TerrainPatch.ptrs : TerrainPatch F → List MeshPtr
  | .leaf d => d.m_mesh.toList
  | .node d c0 c1 c2 c3 => d.m_mesh.toList ++ (c0.ptrs ++ c1.ptrs ++ c2.ptrs ++ c3.ptrs)

/-- The mesh handles held by the descendants of a patch. -/
def TerrainPatch.childPtrs : TerrainPatch F → List MeshPtr
  | .leaf _ => []
  | .node _ c0 c1 c2 c3 => c0.ptrs ++ c1.ptrs ++ c2.ptrs ++ c3.ptrs

/-- The store `w1` arises from the store `w` by handing out new meshes and by
setting deletion flags of meshes whose handle is in `S`: no mesh handed out
before changes its readiness flag, loses a deletion flag, or changes at all
unless its handle is in `S`. -/
def World.Extends (S : List MeshPtr) (w w1 : World) : Prop :=
  w.next ≤ w1.next ∧ ∀ h, h < w.next →
    (w1.mesh h).m_isRenderable = (w.mesh h).m_isRenderable ∧
    ((w.mesh h).m_shouldDelete = true → (w1.mesh h).m_shouldDelete = true) ∧
    (h ∉ S → w1.mesh h = w.mesh h)

/-- The tree owns its meshes: every handle held in the tree is one that the
dispatcher handed out, and no handle is held by two patches. -/
def TerrainPatch.Owns (w : World) (p : TerrainPatch F) : Prop :=
  p.ptrs.Nodup ∧ ∀ h ∈ p.ptrs, h < w.next

/-- The handles `new` held after a step from the store `w` to the store `w1`
come from the handles `old` held before, each kept at most as often as it was
held, and from the handles handed out during the step, each held at most
once. -/
def World.HandsOut (w w1 : World) (old new : List MeshPtr) : Prop :=
  ∀ k, (k < w.next → new.count k ≤ old.count k) ∧ (w.next ≤ k → new.count k ≤ 1) ∧
    (w1.next ≤ k → new.count k = 0)

/-- The number of mesh requests that the dispatcher received between the store
`w` and the later store `w1`. -/
def requestsIssued (w w1 : World) : Nat := w1.next - w.next

/-- The parameters that `init` gives a patch: grid position, cube face, level,
width and bounding box. -/
def PatchFields.geometry (d : PatchFields F) : V2 F × WorldCubeFace × Int × F × V3 F × V3 F :=
  (d.m_gridPos, d.m_cubeFace, d.m_lod, d.m_width, d.m_aabbPos, d.m_aabbDims)

/-- All the patches of a tree: the patch itself and its descendants. -/
def TerrainPatch.nodes : TerrainPatch F → List (TerrainPatch F)
  | .leaf d => [.leaf d]
  | .node d c0 c1 c2 c3 =>
    .node d c0 c1 c2 c3 :: (c0.nodes ++ c1.nodes ++ c2.nodes ++ c3.nodes)

/-- Every patch of the tree that has children has children exactly one level
deeper and exactly half as wide as itself. -/
def TerrainPatch.Halved : TerrainPatch F → Prop
  | .leaf _ => True
  | .node d c0 c1 c2 c3 =>
    (∀ c ∈ [c0, c1, c2, c3],
        c.fields.m_lod = d.m_lod + 1 ∧ c.fields.m_width = d.m_width / 2) ∧
      c0.Halved ∧ c1.Halved ∧ c2.Halved ∧ c3.Halved

/-- The distance that an update with this camera computes for the patch lies in
the band `width * DIST_MIN ≤ distance ≤ width * DIST_MAX`. -/
def inBand (env : Env F) (cameraPos : V3 F) (w : World) (p : TerrainPatch F) : Prop :=
  let d := (calculateClosestPointAndDist env cameraPos w p.fields).2
  d.m_width * DIST_MIN ≤ d.m_distance ∧ d.m_distance ≤ d.m_width * DIST_MAX

/-- One frame: what the other threads did to the mesh store since the previous
update, then the call `update(cameraPos)`. -/
structure Frame (F : Type) where
  env : Env F
  cameraPos : V3 F
  async : World → World

/-- A sequence of frames run on a patch. -/
def runFrames : List (Frame F) → World → TerrainPatch F → World × TerrainPatch F
  | [], w, p => (w, p)
  | f :: fs, w, p =>
    let r := update f.env f.cameraPos (f.async w) p
    runFrames fs r.1 r.2

/-- Every update of the run computes a distance in the band. -/
def allInBand : List (Frame F) → World → TerrainPatch F → Prop
  | [], _, _ => True
  | f :: fs, w, p =>
    inBand f.env f.cameraPos (f.async w) p ∧
      allInBand fs (update f.env f.cameraPos (f.async w) p).1
        (update f.env f.cameraPos (f.async w) p).2

/-- The states reachable from a freshly initialised root patch by update calls
with environments satisfying `E`, the other threads changing the mesh store
between the calls as `A` allows. -/
inductive Reachable (E : Env F → Prop) (A : World → World → Prop) :
    World → TerrainPatch F → Prop where
  | init (env : Env F) (w : World) (gridPosition : V2 F) (cubeFace : WorldCubeFace)
      (lod : Int) (width : F) : E env →
      Reachable E A w ((TerrainPatch.fresh env).init env gridPosition cubeFace lod width)
  | update (env : Env F) (cameraPos : V3 F) (w : World) (p : TerrainPatch F) : E env →
      Reachable E A w p →
      Reachable E A (update env cameraPos w p).1 (update env cameraPos w p).2
  | async (w w1 : World) (p : TerrainPatch F) : A w w1 →
      Reachable E A w p → Reachable E A w1 p

/-- The angle at the planet centre between the direction of the camera and the
direction of the point. -/
def zenithAngle (m : FloatMath F) (cameraPos point : V3 F) : F :=
  m.acos (V3.dot cameraPos point / (m.length cameraPos * m.length point))

/-- The four corners that `init` projects onto the sphere, in the order of
`corners[0]` to `corners[3]`. -/
def patchCorners (env : Env F) (cubeFace : WorldCubeFace) (gridPosition : V2 F) (width : F) :
    List (V3 F) :=
  [ corner env cubeFace gridPosition.x gridPosition.y,
    corner env cubeFace gridPosition.x (gridPosition.y + width),
    corner env cubeFace (gridPosition.x + width) (gridPosition.y + width),
    corner env cubeFace (gridPosition.x + width) gridPosition.y ]

/-- The min/max scan of `init` over the corners, and the box that `init` derives
from it: the values assigned to `m_aabbPos` and to `m_aabbDims`. -/
def aabbOfCorners (corners : List (V3 F)) : V3 F × V3 F :=
  let mx := MinMax.scan (corners.map V3.x)
  let my := MinMax.scan (corners.map V3.y)
  let mz := MinMax.scan (corners.map V3.z)
  (⟨mx.min, my.min, mz.min⟩, ⟨mx.max - mx.min, my.max - my.min, mz.max - mz.min⟩)

/-- The computation of `TerrainPatch::isOverHorizon` with its partial operations
made explicit: `none` when a division has the divisor zero or an argument of
`acos` lies outside `[-1, 1]` (where floating point produces an infinity or a
NaN), and otherwise the value that `isOverHorizon` returns. The statements are
those of `isOverHorizon`, in the same order. -/
def isOverHorizonChecked (m : FloatMath F) (relCamPos point : V3 F) (planetRadius : F) :
    Option Bool :=
  let DELTA : F := 0.1
  let camHeight := m.length relCamPos
  -- relCamPos / camHeight
  if camHeight = 0 then none else
  let normalizedCamPos := relCamPos.divScalar camHeight
  -- Limit the camera depth
  let camHeight := if camHeight < planetRadius + 1.0 then planetRadius + 1.0 else camHeight
  -- acos(planetRadius / camHeight)
  if camHeight = 0 then none else
  if planetRadius / camHeight < -1 ∨ 1 < planetRadius / camHeight then none else
  let horizonAngle := m.acos (planetRadius / camHeight)
  -- glm::normalize(point)
  if m.length point = 0 then none else
  let cosLod := V3.dot normalizedCamPos (m.normalize point)
  if cosLod < -1 ∨ 1 < cosLod then none else
  let lodAngle := m.acos cosLod
  some (if lodAngle ≥ horizonAngle + DELTA then true else false)

/-- Every patch of the tree that has children is below the level `maxLod` and
wider than `MIN_SIZE`. -/
def TerrainPatch.Limited (maxLod : Int) : TerrainPatch F → Prop
  | .leaf _ => True
  | .node d c0 c1 c2 c3 =>
    (d.m_lod < maxLod ∧ d.m_width > MIN_SIZE) ∧
      c0.Limited maxLod ∧ c1.Limited maxLod ∧ c2.Limited maxLod ∧ c3.Limited maxLod

/-- The number of levels of the tree below a patch: 0 for a patch without
children. -/
def TerrainPatch.height : TerrainPatch F → Nat
  | .leaf _ => 0
  | .node _ c0 c1 c2 c3 => 1 + max (max c0.height c1.height) (max c2.height c3.height)

/-- A bound on the number of levels below a patch after any update: a patch
without children is split at most `PATCH_MAX_LOD - m_lod` times in a row. -/
def TerrainPatch.depthBound (maxLod : Int) : TerrainPatch F → Nat
  | .leaf d => (maxLod - d.m_lod).toNat
  | .node _ c0 c1 c2 c3 =>
    1 + max (max (c0.depthBound maxLod) (c1.depthBound maxLod))
      (max (c2.depthBound maxLod) (c3.depthBound maxLod))

/-- The method `TerrainPatch::update` run with a bound on the depth of its
recursion: a call with `depth = 0` left does not run, and the calls on the
children run with one less. The result is `none` when some call would be nested
deeper than the bound allows. -/
def updateWithin (env : Env F) (cameraPos : V3 F) :
    Nat → World → TerrainPatch F → Option (World × TerrainPatch F)
  | 0, _, _ => none
  | depth + 1, w, p =>
    match updateSelf env cameraPos w p with
    | (w1, .leaf d) => some (w1, .leaf d)
    | (w1, .node d c0 c1 c2 c3) =>
      -- Recursively update children if they exist
      match updateWithin env cameraPos depth w1 c0 with
      | none => none
      | some r0 =>
        match updateWithin env cameraPos depth r0.1 c1 with
        | none => none
        | some r1 =>
          match updateWithin env cameraPos depth r1.1 c2 with
          | none => none
          | some r2 =>
            match updateWithin env cameraPos depth r2.1 c3 with
            | none => none
            | some r3 => some (r3.1, .node d r0.2 r1.2 r2.2 r3.2)

/-- No patch of the tree holds the handle of a mesh whose deletion flag is set. -/
def TerrainPatch.Unflagged (w : World) (p : TerrainPatch F) : Prop :=
  ∀ h ∈ p.ptrs, (w.mesh h).m_shouldDelete = false

/-- A step from the store `w` and the tree `c` to the store and the tree `u`
keeps the handles in order: if the tree owns its meshes and holds no flagged
handle before, the same is true afterwards, no handle is taken back, and a mesh
handed out before whose handle the tree did not hold is not changed and is not
held afterwards. -/
def World.StepsTo (w : World) (c : TerrainPatch F) (u : World × TerrainPatch F) : Prop :=
  c.Owns w → c.Unflagged w →
    u.2.Owns u.1 ∧ u.2.Unflagged u.1 ∧ w.next ≤ u.1.next ∧
      ∀ k, k < w.next → k ∉ c.ptrs → u.1.mesh k = w.mesh k ∧ k ∉ u.2.ptrs

/-- The states reachable from a freshly initialised root patch by calls of
`update` and of `destroy`, with environments satisfying `E`, the other threads
changing the mesh store between the calls as `A` allows. -/
inductive Lifetime (E : Env F → Prop) (A : World → World → Prop) :
    World → TerrainPatch F → Prop where
  | init (env : Env F) (w : World) (gridPosition : V2 F) (cubeFace : WorldCubeFace)
      (lod : Int) (width : F) : E env →
      Lifetime E A w ((TerrainPatch.fresh env).init env gridPosition cubeFace lod width)
  | update (env : Env F) (cameraPos : V3 F) (w : World) (p : TerrainPatch F) : E env →
      Lifetime E A w p →
      Lifetime E A (update env cameraPos w p).1 (update env cameraPos w p).2
  | destroy (w : World) (p : TerrainPatch F) :
      Lifetime E A w p → Lifetime E A (destroy w p).1 (destroy w p).2
  | async (w w1 : World) (p : TerrainPatch F) : A w w1 →
      Lifetime E A w p → Lifetime E A w1 p

/-- The assumption on the dispatcher: the mesh it returns for a request is not
flagged for deletion. -/
def Env.DispatchesUnflagged (env : Env F) : Prop :=
  ∀ s wd l f b, (env.dispatchedMesh s wd l f b).m_shouldDelete = false

/-- The assumption on the other threads, from the store `w` to the store `w1`:
no handle is taken back, and no deletion flag of a mesh handed out is set. -/
def World.KeepsFlags (w w1 : World) : Prop :=
  w.next ≤ w1.next ∧
    ∀ h, h < w.next → (w1.mesh h).m_shouldDelete = true → (w.mesh h).m_shouldDelete = true

/-! ## Concrete inputs -/

/-- An environment for the examples: planet radius 1, identity coordinate
tables, the closest point of a box being the clamped position, every mesh
reporting the north pole as its closest point, and a dispatcher returning
meshes that are not ready. -/
def demoEnv (m : FloatMath F) (maxLod : Int) : Env F where
  math := m
  PATCH_MAX_LOD := maxLod
  getRadius := 1
  VOXEL_TO_WORLD := fun _ => ⟨0, 1, 2⟩
  FACE_TO_WORLD_MULTS := fun _ => ⟨1, 1⟩
  FACE_Y_MULTS := fun _ => 1
  getClosestPointOnAABB := fun pos aabbPos aabbDims =>
    ⟨max aabbPos.x (min pos.x (aabbPos.x + aabbDims.x)),
     max aabbPos.y (min pos.y (aabbPos.y + aabbDims.y)),
     max aabbPos.z (min pos.z (aabbPos.z + aabbDims.z))⟩
  meshClosestPoint := fun _ _ => ⟨0, 1, 0⟩
  dispatchedMesh := fun _ _ _ _ _ => ⟨false, false⟩
  defaultDistance := 1000000000

/-- Data members of a patch of the examples: grid position `(0, 0)`, face 0,
the given level, width and mesh handle, and a box that is the single point
`boxPos`. -/
def demoFields (lod : Int) (width : F) (boxPos : V3 F) (mesh : Option MeshPtr) :
    PatchFields F :=
  { m_gridPos := ⟨0, 0⟩, m_cubeFace := 0, m_lod := lod, m_width := width,
    m_aabbPos := boxPos, m_aabbDims := V3.zero, m_distance := 0, m_mesh := mesh }

/-- A mesh store with `n` meshes handed out, the mesh at address `h` being
ready exactly when `ready h`, and no deletion flag set. -/
def demoWorld (n : Nat) (ready : MeshPtr → Bool) : World :=
  { mesh := fun h => ⟨ready h, false⟩, next := n }

end Patch

/-! ## Unfolding `update` -/

set_option linter.unusedSectionVars false
set_option linter.unusedTactic false

section Lemmas
variable {F : Type} [LinearOrderedField F]

theorem update_eq (env : Env F) (cameraPos : V3 F) (w : World) (p : TerrainPatch F) :
    update env cameraPos w p =
      updateChildren env cameraPos (updateSelf env cameraPos w p).1
        (updateSelf env cameraPos w p).2 := by
  rw [update]
  split <;> rename_i h <;> simp [h, updateChildren]

theorem updateChildren_fields (env : Env F) (cameraPos : V3 F) (w : World)
    (p : TerrainPatch F) : (updateChildren env cameraPos w p).2.fields = p.fields := by
  cases p <;> rfl

theorem updateChildren_hasChildren (env : Env F) (cameraPos : V3 F) (w : World)
    (p : TerrainPatch F) :
    (updateChildren env cameraPos w p).2.hasChildren = p.hasChildren := by
  cases p <;> rfl

theorem update_fields (env : Env F) (cameraPos : V3 F) (w : World) (p : TerrainPatch F) :
    (update env cameraPos w p).2.fields = (updateSelf env cameraPos w p).2.fields := by
  rw [update_eq, updateChildren_fields]

theorem update_hasChildren (env : Env F) (cameraPos : V3 F) (w : World)
    (p : TerrainPatch F) :
    (update env cameraPos w p).2.hasChildren = (updateSelf env cameraPos w p).2.hasChildren := by
  rw [update_eq, updateChildren_hasChildren]

theorem calc_mesh (env : Env F) (cameraPos : V3 F) (w : World) (d : PatchFields F) :
    (calculateClosestPointAndDist env cameraPos w d).2.m_mesh = d.m_mesh := rfl

theorem requestMesh_mesh (env : Env F) (w : World) (d : PatchFields F) :
    (requestMesh env w d).2.m_mesh = some w.next := rfl

theorem requestMesh_next (env : Env F) (w : World) (d : PatchFields F) :
    (requestMesh env w d).1.next = w.next + 1 := rfl

theorem requestMesh_mesh_of_ne (env : Env F) (w : World) (d : PatchFields F) (h : MeshPtr)
    (hne : h ≠ w.next) : (requestMesh env w d).1.mesh h = w.mesh h := by
  simp [requestMesh, dispatchTerrainGen, Function.update_noteq hne]

/-! ## What an update does to the mesh store -/

theorem Extends.refl (S : List MeshPtr) (w : World) : World.Extends S w w :=
  ⟨le_refl _, fun _ _ => ⟨rfl, id, fun _ => rfl⟩⟩

theorem Extends.trans {S S1 T : List MeshPtr} {w w1 w2 : World}
    (h1 : World.Extends S w w1) (h2 : World.Extends S1 w1 w2)
    (hS : ∀ h ∈ S, h ∈ T) (hS1 : ∀ h ∈ S1, h ∈ T) : World.Extends T w w2 := by
  refine ⟨le_trans h1.1 h2.1, fun h hlt => ?_⟩
  obtain ⟨a1, b1, c1⟩ := h1.2 h hlt
  obtain ⟨a2, b2, c2⟩ := h2.2 h (lt_of_lt_of_le hlt h1.1)
  refine ⟨a2.trans a1, fun hd => b2 (b1 hd), fun hn => ?_⟩
  rw [c2 (fun hm => hn (hS1 h hm)), c1 (fun hm => hn (hS h hm))]

theorem Extends.mono {S T : List MeshPtr} {w w1 : World} (h1 : World.Extends S w w1)
    (hS : ∀ h ∈ S, h ∈ T) : World.Extends T w w1 :=
  Extends.trans h1 (Extends.refl S w1) hS hS

theorem Extends.setShouldDelete (w : World) (h : MeshPtr) :
    World.Extends [h] w (w.setShouldDelete h) := by
  refine ⟨le_refl _, fun k _ => ?_⟩
  by_cases hk : k = h
  · subst hk
    simp [World.setShouldDelete]
  · simp [World.setShouldDelete, Function.update_noteq hk, hk]

theorem Extends.markMesh (w : World) (m : Option MeshPtr) :
    World.Extends m.toList w (markMesh w m) := by
  cases m with
  | none => exact Extends.refl _ _
  | some h => exact Extends.setShouldDelete w h

theorem Extends.requestMesh (env : Env F) (w : World) (d : PatchFields F) :
    World.Extends [] w (requestMesh env w d).1 := by
  refine ⟨Nat.le_succ _, fun k hk => ?_⟩
  have hne : k ≠ w.next := Nat.ne_of_lt hk
  rw [requestMesh_mesh_of_ne env w d k hne]
  exact ⟨rfl, id, fun _ => rfl⟩

theorem destroy_next (w : World) (p : TerrainPatch F) : (destroy w p).1.next = w.next := by
  induction p generalizing w with
  | leaf d => cases hm : d.m_mesh <;> simp [destroy, markMesh, hm, World.setShouldDelete]
  | node d c0 c1 c2 c3 ih0 ih1 ih2 ih3 =>
    simp only [destroy]
    rw [ih0, ih1, ih2, ih3]
    cases hm : d.m_mesh <;> simp [markMesh, World.setShouldDelete]

theorem deleteChildren_next (w : World) (c0 c1 c2 c3 : TerrainPatch F) :
    (deleteChildren w c0 c1 c2 c3).next = w.next := by
  simp only [deleteChildren, destroy_next]

theorem Extends.destroy (w : World) (p : TerrainPatch F) :
    World.Extends p.ptrs w (destroy w p).1 := by
  induction p generalizing w with
  | leaf d => exact Extends.markMesh w d.m_mesh
  | node d c0 c1 c2 c3 ih0 ih1 ih2 ih3 =>
    simp only [SoA.destroy]
    have e := Extends.markMesh w d.m_mesh
    have e3 := ih3 (SoA.markMesh w d.m_mesh)
    have e2 := ih2 (SoA.destroy (SoA.markMesh w d.m_mesh) c3).1
    have e1 := ih1 (SoA.destroy (SoA.destroy (SoA.markMesh w d.m_mesh) c3).1 c2).1
    have e0 := ih0 (SoA.destroy (SoA.destroy (SoA.destroy (SoA.markMesh w d.m_mesh) c3).1 c2).1 c1).1
    have m : ∀ {S : List MeshPtr}, (∀ h ∈ S, h ∈ (TerrainPatch.node d c0 c1 c2 c3).ptrs) →
        ∀ h ∈ S, h ∈ (TerrainPatch.node d c0 c1 c2 c3).ptrs := fun hs => hs
    have s : ∀ h ∈ (TerrainPatch.node d c0 c1 c2 c3).ptrs,
        h ∈ (TerrainPatch.node d c0 c1 c2 c3).ptrs := fun _ hh => hh
    refine Extends.trans (T := (TerrainPatch.node d c0 c1 c2 c3).ptrs)
      (Extends.trans (T := (TerrainPatch.node d c0 c1 c2 c3).ptrs)
        (Extends.trans (T := (TerrainPatch.node d c0 c1 c2 c3).ptrs)
          (Extends.trans (T := (TerrainPatch.node d c0 c1 c2 c3).ptrs) e e3 ?_ ?_) e2 s ?_) e1 s ?_)
      e0 s ?_
    all_goals
      intro h hh
      simp only [TerrainPatch.ptrs, List.mem_append]
      tauto

theorem Extends.deleteChildren (w : World) (d : PatchFields F) (c0 c1 c2 c3 : TerrainPatch F) :
    World.Extends (TerrainPatch.node d c0 c1 c2 c3).childPtrs w (deleteChildren w c0 c1 c2 c3) := by
  simp only [SoA.deleteChildren]
  have e3 := Extends.destroy w c3
  have e2 := Extends.destroy (SoA.destroy w c3).1 c2
  have e1 := Extends.destroy (SoA.destroy (SoA.destroy w c3).1 c2).1 c1
  have e0 := Extends.destroy (SoA.destroy (SoA.destroy (SoA.destroy w c3).1 c2).1 c1).1 c0
  have s : ∀ h ∈ (TerrainPatch.node d c0 c1 c2 c3).childPtrs,
      h ∈ (TerrainPatch.node d c0 c1 c2 c3).childPtrs := fun _ hh => hh
  refine Extends.trans (T := (TerrainPatch.node d c0 c1 c2 c3).childPtrs)
    (Extends.trans (T := (TerrainPatch.node d c0 c1 c2 c3).childPtrs)
      (Extends.trans (T := (TerrainPatch.node d c0 c1 c2 c3).childPtrs) e3 e2 ?_ ?_) e1 s ?_)
    e0 s ?_
  all_goals
    intro h hh
    simp only [TerrainPatch.childPtrs, List.mem_append]
    tauto

theorem newChild_ptrs (env : Env F) (d : PatchFields F) (x z : Nat) :
    (newChild env d x z).ptrs = [] := rfl

theorem ptrs_eq (p : TerrainPatch F) : p.ptrs = p.fields.m_mesh.toList ++ p.childPtrs := by
  cases p <;> simp [TerrainPatch.ptrs, TerrainPatch.childPtrs, TerrainPatch.fields]

/-! ### The cases of `updateSelf` -/

theorem updateSelf_node_far (env : Env F) (cameraPos : V3 F) (w : World) (d : PatchFields F)
    (c0 c1 c2 c3 : TerrainPatch F)
    (hfar : (calculateClosestPointAndDist env cameraPos w d).2.m_distance >
      (calculateClosestPointAndDist env cameraPos w d).2.m_width * DIST_MAX) :
    updateSelf env cameraPos w (.node d c0 c1 c2 c3) =
      (if hasMesh
          (requestIfNoMesh env w (calculateClosestPointAndDist env cameraPos w d).2).1
          (requestIfNoMesh env w (calculateClosestPointAndDist env cameraPos w d).2).2 then
        (deleteChildren
          (requestIfNoMesh env w (calculateClosestPointAndDist env cameraPos w d).2).1
          c0 c1 c2 c3,
         .leaf (requestIfNoMesh env w (calculateClosestPointAndDist env cameraPos w d).2).2)
       else
        ((requestIfNoMesh env w (calculateClosestPointAndDist env cameraPos w d).2).1,
         .node (requestIfNoMesh env w (calculateClosestPointAndDist env cameraPos w d).2).2
           c0 c1 c2 c3)) := by
  simp only [updateSelf, TerrainPatch.fields, if_pos hfar]

theorem updateSelf_node_near_some (env : Env F) (cameraPos : V3 F) (w : World)
    (d : PatchFields F) (c0 c1 c2 c3 : TerrainPatch F) (h : MeshPtr)
    (hnear : ¬ (calculateClosestPointAndDist env cameraPos w d).2.m_distance >
      (calculateClosestPointAndDist env cameraPos w d).2.m_width * DIST_MAX)
    (hm : d.m_mesh = some h) :
    updateSelf env cameraPos w (.node d c0 c1 c2 c3) =
      (if allChildrenRenderable w c0 c1 c2 c3 then
        (w.setShouldDelete h,
         .node { (calculateClosestPointAndDist env cameraPos w d).2 with m_mesh := none }
           c0 c1 c2 c3)
       else (w, .node (calculateClosestPointAndDist env cameraPos w d).2 c0 c1 c2 c3)) := by
  have hm2 : (calculateClosestPointAndDist env cameraPos w d).2.m_mesh = some h := hm
  simp only [updateSelf, TerrainPatch.fields, if_neg hnear]
  split
  · rename_i k hk
    rw [hm2] at hk
    cases hk
    rfl
  · rename_i hk
    rw [hm2] at hk
    cases hk

theorem updateSelf_node_near_none (env : Env F) (cameraPos : V3 F) (w : World)
    (d : PatchFields F) (c0 c1 c2 c3 : TerrainPatch F)
    (hnear : ¬ (calculateClosestPointAndDist env cameraPos w d).2.m_distance >
      (calculateClosestPointAndDist env cameraPos w d).2.m_width * DIST_MAX)
    (hm : d.m_mesh = none) :
    updateSelf env cameraPos w (.node d c0 c1 c2 c3) =
      (w, .node (calculateClosestPointAndDist env cameraPos w d).2 c0 c1 c2 c3) := by
  have hm2 : (calculateClosestPointAndDist env cameraPos w d).2.m_mesh = none := hm
  simp only [updateSelf, TerrainPatch.fields, if_neg hnear]
  split
  · rename_i k hk
    rw [hm2] at hk
    cases hk
  · rfl

theorem updateSelf_leaf_subdivide (env : Env F) (cameraPos : V3 F) (w : World)
    (d : PatchFields F)
    (hcan : canSubdivide env (calculateClosestPointAndDist env cameraPos w d).2 = true)
    (hvis : isOverHorizon env.math cameraPos
      (calculateClosestPointAndDist env cameraPos w d).1 env.getRadius = false) :
    updateSelf env cameraPos w (.leaf d) =
      (w, .node (calculateClosestPointAndDist env cameraPos w d).2
        (newChild env (calculateClosestPointAndDist env cameraPos w d).2 0 0)
        (newChild env (calculateClosestPointAndDist env cameraPos w d).2 1 0)
        (newChild env (calculateClosestPointAndDist env cameraPos w d).2 0 1)
        (newChild env (calculateClosestPointAndDist env cameraPos w d).2 1 1)) := by
  simp [updateSelf, TerrainPatch.fields, hcan, hvis]

theorem updateSelf_leaf_hidden (env : Env F) (cameraPos : V3 F) (w : World)
    (d : PatchFields F)
    (hcan : canSubdivide env (calculateClosestPointAndDist env cameraPos w d).2 = true)
    (hvis : isOverHorizon env.math cameraPos
      (calculateClosestPointAndDist env cameraPos w d).1 env.getRadius = true) :
    updateSelf env cameraPos w (.leaf d) =
      (w, .leaf (calculateClosestPointAndDist env cameraPos w d).2) := by
  simp [updateSelf, TerrainPatch.fields, hcan, hvis]

theorem updateSelf_leaf_request (env : Env F) (cameraPos : V3 F) (w : World)
    (d : PatchFields F)
    (hcan : canSubdivide env (calculateClosestPointAndDist env cameraPos w d).2 = false)
    (hm : d.m_mesh = none) :
    updateSelf env cameraPos w (.leaf d) =
      ((requestMesh env w (calculateClosestPointAndDist env cameraPos w d).2).1,
       .leaf (requestMesh env w (calculateClosestPointAndDist env cameraPos w d).2).2) := by
  simp [updateSelf, TerrainPatch.fields, hcan, calc_mesh, hm]

theorem updateSelf_leaf_keep (env : Env F) (cameraPos : V3 F) (w : World)
    (d : PatchFields F)
    (hcan : canSubdivide env (calculateClosestPointAndDist env cameraPos w d).2 = false)
    (hm : d.m_mesh ≠ none) :
    updateSelf env cameraPos w (.leaf d) =
      (w, .leaf (calculateClosestPointAndDist env cameraPos w d).2) := by
  simp [updateSelf, TerrainPatch.fields, hcan, calc_mesh, hm]

theorem requestIfNoMesh_geometry (env : Env F) (w : World) (d : PatchFields F) :
    (requestIfNoMesh env w d).2.geometry = d.geometry := by
  unfold requestIfNoMesh
  split_ifs <;> rfl

theorem Extends.requestIfNoMesh (env : Env F) (w : World) (d : PatchFields F) :
    World.Extends [] w (requestIfNoMesh env w d).1 := by
  unfold SoA.requestIfNoMesh
  split_ifs
  · exact Extends.requestMesh env w d
  · exact Extends.refl _ _

theorem updateSelf_geometry (env : Env F) (cameraPos : V3 F) (w : World)
    (p : TerrainPatch F) :
    (updateSelf env cameraPos w p).2.fields.geometry = p.fields.geometry := by
  cases p with
  | leaf d =>
    simp only [updateSelf]
    split_ifs <;> rfl
  | node d c0 c1 c2 c3 =>
    by_cases hfar : (calculateClosestPointAndDist env cameraPos w d).2.m_distance >
      (calculateClosestPointAndDist env cameraPos w d).2.m_width * DIST_MAX
    · rw [updateSelf_node_far env cameraPos w d c0 c1 c2 c3 hfar]
      split_ifs <;> exact requestIfNoMesh_geometry env w _
    · cases hm : d.m_mesh with
      | none =>
        rw [updateSelf_node_near_none env cameraPos w d c0 c1 c2 c3 hfar hm]
        rfl
      | some h =>
        rw [updateSelf_node_near_some env cameraPos w d c0 c1 c2 c3 h hfar hm]
        split_ifs <;> rfl

theorem update_geometry (env : Env F) (cameraPos : V3 F) (w : World) (p : TerrainPatch F) :
    (update env cameraPos w p).2.fields.geometry = p.fields.geometry := by
  rw [update_fields, updateSelf_geometry]

theorem updateSelf_childPtrs (env : Env F) (cameraPos : V3 F) (w : World)
    (p : TerrainPatch F) :
    ∀ h ∈ (updateSelf env cameraPos w p).2.childPtrs, h ∈ p.childPtrs := by
  cases p with
  | leaf d =>
    simp only [updateSelf]
    split_ifs <;> simp [TerrainPatch.childPtrs, newChild_ptrs]
  | node d c0 c1 c2 c3 =>
    by_cases hfar : (calculateClosestPointAndDist env cameraPos w d).2.m_distance >
      (calculateClosestPointAndDist env cameraPos w d).2.m_width * DIST_MAX
    · rw [updateSelf_node_far env cameraPos w d c0 c1 c2 c3 hfar]
      split_ifs <;> simp [TerrainPatch.childPtrs]
    · cases hm : d.m_mesh with
      | none =>
        rw [updateSelf_node_near_none env cameraPos w d c0 c1 c2 c3 hfar hm]
        exact fun _ hh => hh
      | some h =>
        rw [updateSelf_node_near_some env cameraPos w d c0 c1 c2 c3 h hfar hm]
        split_ifs <;> exact fun _ hh => hh

theorem Extends.updateSelf (env : Env F) (cameraPos : V3 F) (w : World)
    (p : TerrainPatch F) : World.Extends p.ptrs w (updateSelf env cameraPos w p).1 := by
  cases p with
  | leaf d =>
    simp only [SoA.updateSelf]
    split_ifs
    · exact Extends.refl _ _
    · exact Extends.refl _ _
    · exact Extends.mono (Extends.requestMesh env w _) (by simp)
    · exact Extends.refl _ _
  | node d c0 c1 c2 c3 =>
    have hsub : ∀ h ∈ (TerrainPatch.node d c0 c1 c2 c3).childPtrs,
        h ∈ (TerrainPatch.node d c0 c1 c2 c3).ptrs := by
      intro h hh
      rw [ptrs_eq]
      exact List.mem_append_right _ hh
    by_cases hfar : (calculateClosestPointAndDist env cameraPos w d).2.m_distance >
      (calculateClosestPointAndDist env cameraPos w d).2.m_width * DIST_MAX
    · rw [updateSelf_node_far env cameraPos w d c0 c1 c2 c3 hfar]
      split_ifs
      · exact Extends.trans (Extends.requestIfNoMesh env w _)
          (Extends.deleteChildren _ d c0 c1 c2 c3) (by simp) hsub
      · exact Extends.mono (Extends.requestIfNoMesh env w _) (by simp)
    · cases hm : d.m_mesh with
      | none =>
        rw [updateSelf_node_near_none env cameraPos w d c0 c1 c2 c3 hfar hm]
        exact Extends.refl _ _
      | some h =>
        rw [updateSelf_node_near_some env cameraPos w d c0 c1 c2 c3 h hfar hm]
        split_ifs
        · refine Extends.mono (Extends.setShouldDelete w h) ?_
          intro k hk
          simp only [List.mem_singleton] at hk
          subst hk
          simp [TerrainPatch.ptrs, hm]
        · exact Extends.refl _ _

theorem Extends.update (env : Env F) (cameraPos : V3 F) (w : World) (p : TerrainPatch F) :
    World.Extends p.ptrs w (update env cameraPos w p).1 := by
  induction w, p using update.induct env cameraPos with
  | case1 w p w1 d h =>
    rw [update_eq, h]
    have e := Extends.updateSelf env cameraPos w p
    rw [h] at e
    exact e
  | case2 w p w1 d c0 c1 c2 c3 h r0 r1 r2 ih0 ih1 _ ih2 _ ih3 =>
    rw [update_eq, h]
    have e := Extends.updateSelf env cameraPos w p
    have hc := updateSelf_childPtrs env cameraPos w p
    rw [h] at e hc
    simp only [TerrainPatch.childPtrs, List.mem_append] at hc
    have hsub : ∀ k ∈ p.childPtrs, k ∈ p.ptrs := by
      intro k hk
      rw [ptrs_eq]
      exact List.mem_append_right _ hk
    have s : ∀ k ∈ p.ptrs, k ∈ p.ptrs := fun _ hk => hk
    simp only [updateChildren]
    exact Extends.trans (Extends.trans (Extends.trans (Extends.trans e ih0 s
      (fun k hk => hsub k (hc k (by tauto)))) ih1 s
      (fun k hk => hsub k (hc k (by tauto)))) ih2 s
      (fun k hk => hsub k (hc k (by tauto)))) ih3 s
      (fun k hk => hsub k (hc k (by tauto)))

theorem Extends.updateChildren (env : Env F) (cameraPos : V3 F) (w : World)
    (p : TerrainPatch F) :
    World.Extends p.childPtrs w (updateChildren env cameraPos w p).1 := by
  cases p with
  | leaf d => exact Extends.refl _ _
  | node d c0 c1 c2 c3 =>
    simp only [SoA.updateChildren]
    have e0 := Extends.update env cameraPos w c0
    have e1 := Extends.update env cameraPos (SoA.update env cameraPos w c0).1 c1
    have e2 := Extends.update env cameraPos
      (SoA.update env cameraPos (SoA.update env cameraPos w c0).1 c1).1 c2
    have e3 := Extends.update env cameraPos
      (SoA.update env cameraPos
        (SoA.update env cameraPos (SoA.update env cameraPos w c0).1 c1).1 c2).1 c3
    have s : ∀ h ∈ (TerrainPatch.node d c0 c1 c2 c3).childPtrs,
        h ∈ (TerrainPatch.node d c0 c1 c2 c3).childPtrs := fun _ hh => hh
    refine Extends.trans (T := (TerrainPatch.node d c0 c1 c2 c3).childPtrs)
      (Extends.trans (T := (TerrainPatch.node d c0 c1 c2 c3).childPtrs)
        (Extends.trans (T := (TerrainPatch.node d c0 c1 c2 c3).childPtrs) e0 e1 ?_ ?_) e2 s ?_)
      e3 s ?_
    all_goals
      intro h hh
      simp only [TerrainPatch.childPtrs, List.mem_append]
      tauto

/-! ## Ownership of the mesh handles -/

theorem requestIfNoMesh_some (env : Env F) (w : World) (d : PatchFields F) (h : MeshPtr)
    (hm : d.m_mesh = some h) : requestIfNoMesh env w d = (w, d) := by
  simp [requestIfNoMesh, hm]

theorem requestIfNoMesh_none (env : Env F) (w : World) (d : PatchFields F)
    (hm : d.m_mesh = none) : requestIfNoMesh env w d = requestMesh env w d := by
  simp [requestIfNoMesh, hm]

theorem valid_iff_count (n : Nat) (l : List MeshPtr) :
    (∀ h ∈ l, h < n) ↔ ∀ k, n ≤ k → l.count k = 0 := by
  constructor
  · intro hv k hk
    rw [List.count_eq_zero]
    intro hmem
    exact absurd (hv k hmem) (not_lt.mpr hk)
  · intro hc h hmem
    by_contra hlt
    have := hc h (not_lt.mp hlt)
    rw [List.count_eq_zero] at this
    exact this hmem

theorem count_toList (m : Option MeshPtr) (k : MeshPtr) :
    m.toList.count k = if m = some k then 1 else 0 := by
  cases m with
  | none => simp
  | some h =>
    simp only [Option.toList, List.count_singleton', Option.some.injEq]

theorem count_ptrs_node (d : PatchFields F) (c0 c1 c2 c3 : TerrainPatch F) (k : MeshPtr) :
    (TerrainPatch.node d c0 c1 c2 c3).ptrs.count k =
      d.m_mesh.toList.count k +
        (c0.ptrs.count k + c1.ptrs.count k + c2.ptrs.count k + c3.ptrs.count k) := by
  simp only [TerrainPatch.ptrs, List.count_append]

theorem count_ptrs_leaf (d : PatchFields F) (k : MeshPtr) :
    (TerrainPatch.leaf d).ptrs.count k = d.m_mesh.toList.count k := rfl

theorem handsOut_updateSelf (env : Env F) (cameraPos : V3 F) (w : World) (p : TerrainPatch F)
    (hv : ∀ h ∈ p.ptrs, h < w.next) :
    World.HandsOut w (updateSelf env cameraPos w p).1 p.ptrs
      (updateSelf env cameraPos w p).2.ptrs := by
  rw [valid_iff_count] at hv
  intro k
  have hvk := hv k
  cases p with
  | leaf d =>
    rw [count_ptrs_leaf] at hvk ⊢
    by_cases hcan : canSubdivide env (calculateClosestPointAndDist env cameraPos w d).2 = true
    · cases hvis : isOverHorizon env.math cameraPos
          (calculateClosestPointAndDist env cameraPos w d).1 env.getRadius with
      | false =>
        rw [updateSelf_leaf_subdivide env cameraPos w d hcan hvis, count_ptrs_node]
        simp only [newChild_ptrs, List.count_nil, calc_mesh]
        omega
      | true =>
        rw [updateSelf_leaf_hidden env cameraPos w d hcan hvis, count_ptrs_leaf]
        simp only [calc_mesh]
        omega
    · rw [Bool.not_eq_true] at hcan
      by_cases hm : d.m_mesh = none
      · rw [updateSelf_leaf_request env cameraPos w d hcan hm, count_ptrs_leaf]
        simp only [requestMesh_mesh, requestMesh_next, count_toList, Option.some.injEq]
        split_ifs <;> omega
      · rw [updateSelf_leaf_keep env cameraPos w d hcan hm, count_ptrs_leaf]
        simp only [calc_mesh]
        omega
  | node d c0 c1 c2 c3 =>
    rw [count_ptrs_node] at hvk ⊢
    by_cases hfar : (calculateClosestPointAndDist env cameraPos w d).2.m_distance >
      (calculateClosestPointAndDist env cameraPos w d).2.m_width * DIST_MAX
    · rw [updateSelf_node_far env cameraPos w d c0 c1 c2 c3 hfar]
      by_cases hm : d.m_mesh = none
      · rw [requestIfNoMesh_none env w (calculateClosestPointAndDist env cameraPos w d).2 hm]
        split_ifs
        · simp only [count_ptrs_leaf, requestMesh_mesh, deleteChildren_next, requestMesh_next,
            count_toList, Option.some.injEq, hm, reduceCtorEq, if_false] at hvk ⊢
          split_ifs <;> omega
        · simp only [count_ptrs_node, requestMesh_mesh, requestMesh_next,
            count_toList, Option.some.injEq, hm, reduceCtorEq, if_false] at hvk ⊢
          split_ifs <;> omega
      · obtain ⟨h, hm⟩ := Option.ne_none_iff_exists'.mp hm
        rw [requestIfNoMesh_some env w (calculateClosestPointAndDist env cameraPos w d).2 h hm]
        split_ifs
        · simp only [count_ptrs_leaf, deleteChildren_next, calc_mesh]
          omega
        · simp only [count_ptrs_node, calc_mesh]
          omega
    · by_cases hm : d.m_mesh = none
      · rw [updateSelf_node_near_none env cameraPos w d c0 c1 c2 c3 hfar hm, count_ptrs_node]
        simp only [calc_mesh]
        omega
      · obtain ⟨h, hm⟩ := Option.ne_none_iff_exists'.mp hm
        rw [updateSelf_node_near_some env cameraPos w d c0 c1 c2 c3 h hfar hm]
        split_ifs
        · simp only [count_ptrs_node, World.setShouldDelete, Option.toList, List.count_nil]
          omega
        · simp only [count_ptrs_node, calc_mesh]
          omega

theorem handsOut_update (env : Env F) (cameraPos : V3 F) (w : World) (p : TerrainPatch F) :
    (∀ h ∈ p.ptrs, h < w.next) →
      World.HandsOut w (SoA.update env cameraPos w p).1 p.ptrs (SoA.update env cameraPos w p).2.ptrs := by
  induction w, p using update.induct env cameraPos with
  | case1 w p w1 d h =>
    intro hv
    have hs := handsOut_updateSelf env cameraPos w p hv
    rw [update_eq, h]
    rw [h] at hs
    exact hs
  | case2 w p w1 d c0 c1 c2 c3 h r0 r1 r2 ih0 ih1 _ ih2 _ ih3 =>
    intro hv
    have hs := handsOut_updateSelf env cameraPos w p hv
    have hle := (Extends.updateSelf env cameraPos w p).1
    rw [h] at hs hle
    have hle0 := (Extends.update env cameraPos w1 c0).1
    have hle1 := (Extends.update env cameraPos (SoA.update env cameraPos w1 c0).1 c1).1
    have hle2 := (Extends.update env cameraPos
      (SoA.update env cameraPos (SoA.update env cameraPos w1 c0).1 c1).1 c2).1
    have hle3 := (Extends.update env cameraPos
      (SoA.update env cameraPos (SoA.update env cameraPos (SoA.update env cameraPos w1 c0).1 c1).1 c2).1 c3).1
    have hv0 : ∀ h ∈ c0.ptrs, h < w1.next := by
      rw [valid_iff_count]
      intro k hk
      have := (hs k).2.2 hk
      rw [count_ptrs_node] at this
      omega
    have hv1 : ∀ h ∈ c1.ptrs, h < (SoA.update env cameraPos w1 c0).1.next := by
      rw [valid_iff_count]
      intro k hk
      have := (hs k).2.2 (le_trans hle0 hk)
      rw [count_ptrs_node] at this
      omega
    have hv2 : ∀ h ∈ c2.ptrs,
        h < (SoA.update env cameraPos (SoA.update env cameraPos w1 c0).1 c1).1.next := by
      rw [valid_iff_count]
      intro k hk
      have := (hs k).2.2 (le_trans hle0 (le_trans hle1 hk))
      rw [count_ptrs_node] at this
      omega
    have hv3 : ∀ h ∈ c3.ptrs,
        h < (SoA.update env cameraPos
          (SoA.update env cameraPos (SoA.update env cameraPos w1 c0).1 c1).1 c2).1.next := by
      rw [valid_iff_count]
      intro k hk
      have := (hs k).2.2 (le_trans hle0 (le_trans hle1 (le_trans hle2 hk)))
      rw [count_ptrs_node] at this
      omega
    have e0 := ih0 hv0
    have e1 : World.HandsOut (SoA.update env cameraPos w1 c0).1
        (SoA.update env cameraPos (SoA.update env cameraPos w1 c0).1 c1).1 c1.ptrs
        (SoA.update env cameraPos (SoA.update env cameraPos w1 c0).1 c1).2.ptrs := ih1 hv1
    have e2 : World.HandsOut (SoA.update env cameraPos (SoA.update env cameraPos w1 c0).1 c1).1
        (SoA.update env cameraPos
          (SoA.update env cameraPos (SoA.update env cameraPos w1 c0).1 c1).1 c2).1 c2.ptrs
        (SoA.update env cameraPos
          (SoA.update env cameraPos (SoA.update env cameraPos w1 c0).1 c1).1 c2).2.ptrs :=
      ih2 hv2
    have e3 : World.HandsOut
        (SoA.update env cameraPos
          (SoA.update env cameraPos (SoA.update env cameraPos w1 c0).1 c1).1 c2).1
        (SoA.update env cameraPos
          (SoA.update env cameraPos
            (SoA.update env cameraPos (SoA.update env cameraPos w1 c0).1 c1).1 c2).1 c3).1
        c3.ptrs
        (SoA.update env cameraPos
          (SoA.update env cameraPos
            (SoA.update env cameraPos (SoA.update env cameraPos w1 c0).1 c1).1 c2).1 c3).2.ptrs :=
      ih3 hv3
    rw [update_eq, h]
    simp only [updateChildren]
    intro k
    have a := hs k
    have a0 := e0 k
    have a1 := e1 k
    have a2 := e2 k
    have a3 := e3 k
    rw [count_ptrs_node] at a ⊢
    clear * - hle hle0 hle1 hle2 hle3 a a0 a1 a2 a3
    dsimp only at a hle ⊢
    generalize SoA.update env cameraPos
      (SoA.update env cameraPos
        (SoA.update env cameraPos (SoA.update env cameraPos w1 c0).1 c1).1 c2).1 c3 = u3 at *
    generalize SoA.update env cameraPos
      (SoA.update env cameraPos (SoA.update env cameraPos w1 c0).1 c1).1 c2 = u2 at *
    generalize SoA.update env cameraPos (SoA.update env cameraPos w1 c0).1 c1 = u1 at *
    generalize SoA.update env cameraPos w1 c0 = u0 at *
    obtain ⟨p1, p2, p3⟩ := a
    obtain ⟨q01, q02, q03⟩ := a0
    obtain ⟨q11, q12, q13⟩ := a1
    obtain ⟨q21, q22, q23⟩ := a2
    obtain ⟨q31, q32, q33⟩ := a3
    by_cases h0 : k < w1.next
    · have b0 := q01 h0
      have b1 := q11 (by omega)
      have b2 := q21 (by omega)
      have b3 := q31 (by omega)
      by_cases hW : k < w.next
      · have b := p1 hW
        exact ⟨fun _ => by omega, fun _ => by omega, fun _ => by omega⟩
      · have b := p2 (by omega)
        exact ⟨fun _ => by omega, fun _ => by omega, fun _ => by omega⟩
    · have b := p3 (by omega)
      have b0 := q02 (by omega)
      by_cases h1 : k < u0.1.next
      · have b1 := q11 h1
        have b2 := q21 (by omega)
        have b3 := q31 (by omega)
        exact ⟨fun _ => by omega, fun _ => by omega, fun _ => by omega⟩
      · have b0 := q03 (by omega)
        have b1 := q12 (by omega)
        by_cases h2 : k < u1.1.next
        · have b2 := q21 h2
          have b3 := q31 (by omega)
          exact ⟨fun _ => by omega, fun _ => by omega, fun _ => by omega⟩
        · have b1 := q13 (by omega)
          have b2 := q22 (by omega)
          by_cases h3 : k < u2.1.next
          · have b3 := q31 h3
            exact ⟨fun _ => by omega, fun _ => by omega, fun _ => by omega⟩
          · have b2 := q23 (by omega)
            have b3 := q32 (by omega)
            by_cases h4 : k < u3.1.next
            · exact ⟨fun _ => by omega, fun _ => by omega, fun _ => by omega⟩
            · have b3 := q33 (by omega)
              exact ⟨fun _ => by omega, fun _ => by omega, fun _ => by omega⟩

theorem owns_update (env : Env F) (cameraPos : V3 F) (w : World) (p : TerrainPatch F)
    (ho : p.Owns w) : (update env cameraPos w p).2.Owns (update env cameraPos w p).1 := by
  obtain ⟨hn, hv⟩ := ho
  have hh := handsOut_update env cameraPos w p hv
  have hle := (Extends.update env cameraPos w p).1
  rw [List.nodup_iff_count_le_one] at hn
  constructor
  · rw [List.nodup_iff_count_le_one]
    intro k
    have a := hh k
    have b := hn k
    omega
  · rw [valid_iff_count]
    intro k hk
    exact (hh k).2.2 hk

/-- In every state reachable from a freshly initialised root, the other threads
never taking back a handle that was handed out, the tree owns its meshes. -/
theorem owns_reachable (E : Env F → Prop) (A : World → World → Prop)
    (hA : ∀ w w1, A w w1 → w.next ≤ w1.next) (w : World) (p : TerrainPatch F)
    (hr : Reachable E A w p) : p.Owns w := by
  induction hr with
  | init env w gridPosition cubeFace lod width _ =>
    exact ⟨List.nodup_nil, fun h hh => absurd hh (List.not_mem_nil h)⟩
  | update env cameraPos w p _ _ ih => exact owns_update env cameraPos w p ih
  | async w w1 p ha _ ih => exact ⟨ih.1, fun h hh => lt_of_lt_of_le (ih.2 h hh) (hA w w1 ha)⟩

/-- A patch of a tree that owns its meshes holds a handle that the dispatcher
handed out and that none of its descendants holds. -/
theorem owns_node (w : World) (d : PatchFields F) (c0 c1 c2 c3 : TerrainPatch F)
    (h : MeshPtr) (ho : (TerrainPatch.node d c0 c1 c2 c3).Owns w) (hm : d.m_mesh = some h) :
    h < w.next ∧ h ∉ (TerrainPatch.node d c0 c1 c2 c3).childPtrs := by
  obtain ⟨hn, hv⟩ := ho
  rw [ptrs_eq] at hn hv
  simp only [TerrainPatch.fields, hm, Option.toList, List.singleton_append, List.nodup_cons,
    List.mem_cons, forall_eq_or_imp] at hn hv
  exact ⟨hv.1, hn.1⟩

/-- Every patch of a tree that owns its meshes owns its meshes. -/
theorem owns_nodes (w : World) (p : TerrainPatch F) (ho : p.Owns w) :
    ∀ q ∈ p.nodes, q.Owns w := by
  induction p with
  | leaf d =>
    intro q hq
    simp only [TerrainPatch.nodes, List.mem_singleton] at hq
    subst hq
    exact ho
  | node d c0 c1 c2 c3 ih0 ih1 ih2 ih3 =>
    intro q hq
    simp only [TerrainPatch.nodes, List.mem_cons, List.mem_append] at hq
    have hcount : ∀ k, (TerrainPatch.node d c0 c1 c2 c3).ptrs.count k ≤ 1 :=
      List.nodup_iff_count_le_one.mp ho.1
    have hv : ∀ h, h ∈ d.m_mesh.toList ∨
        (((h ∈ c0.ptrs ∨ h ∈ c1.ptrs) ∨ h ∈ c2.ptrs) ∨ h ∈ c3.ptrs) → h < w.next := by
      intro h hh
      exact ho.2 h (by simpa only [TerrainPatch.ptrs, List.mem_append] using hh)
    have sub : ∀ c : TerrainPatch F, (∀ k, c.ptrs.count k ≤
        (TerrainPatch.node d c0 c1 c2 c3).ptrs.count k) → (∀ h ∈ c.ptrs, h < w.next) →
        c.Owns w := by
      intro c hc hcv
      exact ⟨List.nodup_iff_count_le_one.mpr fun k => le_trans (hc k) (hcount k), hcv⟩
    rcases hq with rfl | ((hq | hq) | hq) | hq
    · exact ho
    · exact ih0 (sub c0 (fun k => by rw [count_ptrs_node]; omega)
        (fun h hh => hv h (by tauto))) q hq
    · exact ih1 (sub c1 (fun k => by rw [count_ptrs_node]; omega)
        (fun h hh => hv h (by tauto))) q hq
    · exact ih2 (sub c2 (fun k => by rw [count_ptrs_node]; omega)
        (fun h hh => hv h (by tauto))) q hq
    · exact ih3 (sub c3 (fun k => by rw [count_ptrs_node]; omega)
        (fun h hh => hv h (by tauto))) q hq

theorem allChildrenRenderable_iff (w : World) (c0 c1 c2 c3 : TerrainPatch F) :
    allChildrenRenderable w c0 c1 c2 c3 = true ↔
      ∀ c ∈ [c0, c1, c2, c3], isRenderable w c = true := by
  simp only [allChildrenRenderable, List.mem_cons, List.mem_singleton, forall_eq_or_imp,
    forall_eq, List.not_mem_nil, false_implies, implies_true, and_true]
  generalize isRenderable w c0 = b0
  generalize isRenderable w c1 = b1
  generalize isRenderable w c2 = b2
  generalize isRenderable w c3 = b3
  cases b0 <;> cases b1 <;> cases b2 <;> cases b3 <;> simp

/-! ## Subdivision -/

theorem newChild_geometry (env : Env F) (d : PatchFields F) (x z : Nat) :
    (newChild env d x z).fields.m_gridPos =
        d.m_gridPos.add ⟨(d.m_width / 2) * (x : F), (d.m_width / 2) * (z : F)⟩ ∧
      (newChild env d x z).fields.m_lod = d.m_lod + 1 ∧
      (newChild env d x z).fields.m_width = d.m_width / 2 ∧
      (newChild env d x z).fields.m_cubeFace = d.m_cubeFace := by
  simp only [newChild, TerrainPatch.init, TerrainPatch.fresh, TerrainPatch.withFields,
    TerrainPatch.fields]
  norm_num

theorem geometry_components {d e : PatchFields F} (h : d.geometry = e.geometry) :
    d.m_gridPos = e.m_gridPos ∧ d.m_cubeFace = e.m_cubeFace ∧ d.m_lod = e.m_lod ∧
      d.m_width = e.m_width ∧ d.m_aabbPos = e.m_aabbPos ∧ d.m_aabbDims = e.m_aabbDims := by
  simpa [PatchFields.geometry] using h

theorem update_newChild (env : Env F) (cameraPos : V3 F) (w : World) (d : PatchFields F)
    (x z : Nat) :
    (update env cameraPos w (newChild env d x z)).2.fields.m_gridPos =
        d.m_gridPos.add ⟨(d.m_width / 2) * (x : F), (d.m_width / 2) * (z : F)⟩ ∧
      (update env cameraPos w (newChild env d x z)).2.fields.m_lod = d.m_lod + 1 ∧
      (update env cameraPos w (newChild env d x z)).2.fields.m_width = d.m_width / 2 ∧
      (update env cameraPos w (newChild env d x z)).2.fields.m_cubeFace = d.m_cubeFace := by
  obtain ⟨g1, g2, g3, g4, -, -⟩ :=
    geometry_components (update_geometry env cameraPos w (newChild env d x z))
  obtain ⟨n1, n2, n3, n4⟩ := newChild_geometry env d x z
  exact ⟨g1.trans n1, g3.trans n2, g4.trans n3, g2.trans n4⟩

/-- C1: a patch with no children for which `canSubdivide()` holds on the distance
this update computes and which is not over the horizon has exactly 4 children
after `update`; the child at index `(z << 1) + x`, for `x, z ∈ {0, 1}`, has grid
position `gridPosition + ((width / 2) * x, (width / 2) * z)`, level `lod + 1`,
width `width / 2` and the cube face of its parent. -/
theorem update_subdivides (env : Env F) (cameraPos : V3 F) (w : World) (d : PatchFields F)
    (hcan : canSubdivide env (calculateClosestPointAndDist env cameraPos w d).2 = true)
    (hvis : isOverHorizon env.math cameraPos
      (calculateClosestPointAndDist env cameraPos w d).1 env.getRadius = false) :
    (update env cameraPos w (.leaf d)).2.children.length = 4 ∧
      ∀ x z : Nat, x < 2 → z < 2 →
        ∃ c, (update env cameraPos w (.leaf d)).2.child ((z <<< 1) + x) = some c ∧
          c.fields.m_gridPos =
            d.m_gridPos.add ⟨(d.m_width / 2) * (x : F), (d.m_width / 2) * (z : F)⟩ ∧
          c.fields.m_lod = d.m_lod + 1 ∧
          c.fields.m_width = d.m_width / 2 ∧
          c.fields.m_cubeFace = d.m_cubeFace := by
  rw [update_eq, updateSelf_leaf_subdivide env cameraPos w d hcan hvis]
  simp only [updateChildren, TerrainPatch.children, TerrainPatch.child, List.length_cons,
    List.length_nil]
  refine ⟨trivial, ?_⟩
  intro x z hx hz
  have key := fun (w1 : World) (a b : Nat) =>
    update_newChild env cameraPos w1 (calculateClosestPointAndDist env cameraPos w d).2 a b
  have hg : (calculateClosestPointAndDist env cameraPos w d).2.m_gridPos = d.m_gridPos := rfl
  have hw : (calculateClosestPointAndDist env cameraPos w d).2.m_width = d.m_width := rfl
  have hl : (calculateClosestPointAndDist env cameraPos w d).2.m_lod = d.m_lod := rfl
  have hf : (calculateClosestPointAndDist env cameraPos w d).2.m_cubeFace = d.m_cubeFace := rfl
  simp only [hg, hw, hl, hf] at key
  interval_cases x <;> interval_cases z
  · exact ⟨_, rfl, key _ 0 0⟩
  · exact ⟨_, rfl, key _ 0 1⟩
  · exact ⟨_, rfl, key _ 1 0⟩
  · exact ⟨_, rfl, key _ 1 1⟩

end Lemmas

/-! ## Exact real arithmetic and the concrete inputs -/

theorem real_length (v : V3 ℝ) :
    FloatMath.length ⟨Real.sqrt, Real.arccos⟩ v = Real.sqrt (v.x * v.x + v.y * v.y + v.z * v.z) :=
  rfl

/-- The direction cosine that `isOverHorizon` passes to `acos` is the cosine of
the angle between camera and point. -/
theorem dot_normalized (cam point : V3 ℝ) :
    V3.dot (cam.divScalar (FloatMath.length ⟨Real.sqrt, Real.arccos⟩ cam))
        (FloatMath.normalize ⟨Real.sqrt, Real.arccos⟩ point) =
      V3.dot cam point / (FloatMath.length ⟨Real.sqrt, Real.arccos⟩ cam *
        FloatMath.length ⟨Real.sqrt, Real.arccos⟩ point) := by
  simp only [V3.dot, V3.divScalar, FloatMath.normalize]
  ring

theorem isOverHorizon_real (cam point : V3 ℝ) (r : ℝ) :
    isOverHorizon ⟨Real.sqrt, Real.arccos⟩ cam point r = true ↔
      Real.arccos (r / max (FloatMath.length ⟨Real.sqrt, Real.arccos⟩ cam) (r + 1)) + 0.1 ≤
        zenithAngle ⟨Real.sqrt, Real.arccos⟩ cam point := by
  have hmax : (if FloatMath.length ⟨Real.sqrt, Real.arccos⟩ cam < r + 1.0 then r + 1.0
      else FloatMath.length ⟨Real.sqrt, Real.arccos⟩ cam) =
      max (FloatMath.length ⟨Real.sqrt, Real.arccos⟩ cam) (r + 1) := by
    norm_num
    split_ifs with h
    · exact (max_eq_right h.le).symm
    · exact (max_eq_left (not_lt.mp h)).symm
  simp only [isOverHorizon, zenithAngle, hmax, dot_normalized]
  simp


theorem real_length_scale (v : V3 ℝ) (t : ℝ) (ht : 0 ≤ t) :
    FloatMath.length ⟨Real.sqrt, Real.arccos⟩ (v.scale t) =
      t * FloatMath.length ⟨Real.sqrt, Real.arccos⟩ v := by
  simp only [real_length, V3.scale]
  rw [show v.x * t * (v.x * t) + v.y * t * (v.y * t) + v.z * t * (v.z * t) =
    (t * t) * (v.x * v.x + v.y * v.y + v.z * v.z) by ring]
  rw [Real.sqrt_mul (mul_self_nonneg t), Real.sqrt_mul_self ht]

theorem real_length_mul_self (v : V3 ℝ) :
    FloatMath.length ⟨Real.sqrt, Real.arccos⟩ v * FloatMath.length ⟨Real.sqrt, Real.arccos⟩ v =
      V3.dot v v := by
  simp only [real_length, V3.dot]
  exact Real.mul_self_sqrt
    (add_nonneg (add_nonneg (mul_self_nonneg _) (mul_self_nonneg _)) (mul_self_nonneg _))

/-- A point in the direction of the camera, seen from the planet centre, is at
zenith angle 0. -/
theorem zenithAngle_same_direction (cam : V3 ℝ) (t : ℝ) (ht : 0 < t)
    (hcam : FloatMath.length ⟨Real.sqrt, Real.arccos⟩ cam ≠ 0) :
    zenithAngle ⟨Real.sqrt, Real.arccos⟩ cam (cam.scale t) = 0 := by
  have hdot : V3.dot cam (cam.scale t) = t * V3.dot cam cam := by
    simp only [V3.dot, V3.scale]
    ring
  have hone : V3.dot cam (cam.scale t) / (FloatMath.length ⟨Real.sqrt, Real.arccos⟩ cam *
      FloatMath.length ⟨Real.sqrt, Real.arccos⟩ (cam.scale t)) = 1 := by
    rw [real_length_scale cam t ht.le, hdot, ← real_length_mul_self]
    field_simp
    ring
  simp only [zenithAngle, hone]
  exact Real.arccos_one

theorem isOverHorizon_false_of_zenith_zero (cam point : V3 ℝ) (r : ℝ)
    (hz : zenithAngle ⟨Real.sqrt, Real.arccos⟩ cam point = 0) :
    isOverHorizon ⟨Real.sqrt, Real.arccos⟩ cam point r = false := by
  rw [Bool.eq_false_iff]
  intro h
  rw [isOverHorizon_real, hz] at h
  have := Real.arccos_nonneg (r / max (FloatMath.length ⟨Real.sqrt, Real.arccos⟩ cam) (r + 1))
  norm_num at h
  linarith

/-- C10: for a planet radius `r ≥ 0` and a camera at height exactly `r + 1`,
`isOverHorizon` (over exact real arithmetic) is false for every point at zenith
angle 0, in particular for every point in the direction of the camera, and true
for every point whose zenith angle is greater than
`acos(r / cameraHeight) + 0.1`. -/
theorem isOverHorizon_culling (cam point : V3 ℝ) (r : ℝ) (hr : 0 ≤ r)
    (hcam : FloatMath.length ⟨Real.sqrt, Real.arccos⟩ cam = r + 1) :
    (zenithAngle ⟨Real.sqrt, Real.arccos⟩ cam point = 0 →
        isOverHorizon ⟨Real.sqrt, Real.arccos⟩ cam point r = false) ∧
      (∀ t : ℝ, 0 < t → isOverHorizon ⟨Real.sqrt, Real.arccos⟩ cam (cam.scale t) r = false) ∧
      (zenithAngle ⟨Real.sqrt, Real.arccos⟩ cam point >
          Real.arccos (r / FloatMath.length ⟨Real.sqrt, Real.arccos⟩ cam) + 0.1 →
        isOverHorizon ⟨Real.sqrt, Real.arccos⟩ cam point r = true) := by
  have hne : FloatMath.length ⟨Real.sqrt, Real.arccos⟩ cam ≠ 0 := by
    rw [hcam]
    linarith
  refine ⟨isOverHorizon_false_of_zenith_zero cam point r, fun t ht => ?_, fun hgt => ?_⟩
  · exact isOverHorizon_false_of_zenith_zero cam _ r (zenithAngle_same_direction cam t ht hne)
  · rw [isOverHorizon_real, hcam, max_self]
    rw [hcam] at hgt
    exact hgt.le

theorem sqrt_four : Real.sqrt 4 = 2 := by
  rw [show (4 : ℝ) = 2 * 2 by norm_num]
  exact Real.sqrt_mul_self (by norm_num)

theorem isOverHorizon_culling_witness :
    FloatMath.length ⟨Real.sqrt, Real.arccos⟩ (⟨0, 2, 0⟩ : V3 ℝ) = 1 + 1 ∧
      isOverHorizon ⟨Real.sqrt, Real.arccos⟩ ⟨0, 2, 0⟩ ⟨0, 1, 0⟩ (1 : ℝ) = false ∧
      isOverHorizon ⟨Real.sqrt, Real.arccos⟩ ⟨0, 2, 0⟩ ⟨0, -1, 0⟩ (1 : ℝ) = true := by
  have hcam : FloatMath.length ⟨Real.sqrt, Real.arccos⟩ (⟨0, 2, 0⟩ : V3 ℝ) = 1 + 1 := by
    rw [real_length]
    norm_num
    exact sqrt_four
  have hpt : FloatMath.length ⟨Real.sqrt, Real.arccos⟩ (⟨0, -1, 0⟩ : V3 ℝ) = 1 := by
    rw [real_length]
    norm_num
  have hup : zenithAngle ⟨Real.sqrt, Real.arccos⟩ (⟨0, 2, 0⟩ : V3 ℝ) ⟨0, 1, 0⟩ = 0 := by
    have hz := zenithAngle_same_direction ⟨0, 2, 0⟩ (1 / 2) (by norm_num)
      (by rw [hcam]; norm_num)
    have hp : (⟨0, 2, 0⟩ : V3 ℝ).scale (1 / 2) = ⟨0, 1, 0⟩ := by
      simp only [V3.scale, V3.mk.injEq]
      norm_num
    rw [hp] at hz
    exact hz
  have hdown : zenithAngle ⟨Real.sqrt, Real.arccos⟩ (⟨0, 2, 0⟩ : V3 ℝ) ⟨0, -1, 0⟩ >
      Real.arccos (1 / FloatMath.length ⟨Real.sqrt, Real.arccos⟩ (⟨0, 2, 0⟩ : V3 ℝ)) + 0.1 := by
    simp only [zenithAngle, hcam, hpt, V3.dot]
    have hz : ((0 : ℝ) * 0 + 2 * -1 + 0 * 0) / ((1 + 1) * 1) = -1 := by norm_num
    rw [hz, Real.arccos_neg_one]
    have h1 : Real.arccos (1 / 2) ≤ Real.pi / 2 :=
      Real.arccos_le_pi_div_two.mpr (by norm_num)
    have h2 := Real.pi_gt_three
    norm_num
    linarith
  exact ⟨hcam,
    (isOverHorizon_culling ⟨0, 2, 0⟩ ⟨0, 1, 0⟩ 1 (by norm_num) hcam).1 hup,
    (isOverHorizon_culling ⟨0, 2, 0⟩ ⟨0, -1, 0⟩ 1 (by norm_num) hcam).2.2 hdown⟩

/-- In the example environment a camera on the polar axis at height `y ≥ 1` sees
a patch whose box is the north pole at distance `y - 1`. -/
theorem demo_calc (M : Int) (w : World) (y : ℝ) (hy : 1 ≤ y) (d : PatchFields ℝ)
    (hpos : d.m_aabbPos = ⟨0, 1, 0⟩) (hdims : d.m_aabbDims = V3.zero) :
    calculateClosestPointAndDist (demoEnv ⟨Real.sqrt, Real.arccos⟩ M) ⟨0, y, 0⟩ w d =
      (⟨0, 1, 0⟩, { d with m_distance := y - 1 }) := by
  have hlen : FloatMath.length ⟨Real.sqrt, Real.arccos⟩ ((⟨0, 1, 0⟩ : V3 ℝ).sub ⟨0, y, 0⟩) =
      y - 1 := by
    simp only [real_length, V3.sub]
    rw [show (0 - 0) * (0 - 0) + (1 - y) * (1 - y) + (0 - 0) * (0 - 0) = (y - 1) * (y - 1) by ring]
    exact Real.sqrt_mul_self (by linarith)
  have hbox : (demoEnv ⟨Real.sqrt, Real.arccos⟩ M).getClosestPointOnAABB ⟨0, y, 0⟩ ⟨0, 1, 0⟩
      V3.zero = ⟨0, 1, 0⟩ := by
    simp only [demoEnv, V3.zero, add_zero, min_self, max_self, V3.mk.injEq, true_and, and_true]
    rw [min_eq_right hy, max_self]
  have hmath : (demoEnv ⟨Real.sqrt, Real.arccos⟩ M).math = ⟨Real.sqrt, Real.arccos⟩ := rfl
  have hmesh : ∀ h : MeshPtr, (demoEnv ⟨Real.sqrt, Real.arccos⟩ M).meshClosestPoint h ⟨0, y, 0⟩ =
      ⟨0, 1, 0⟩ := fun _ => rfl
  simp only [calculateClosestPointAndDist, hpos, hdims]
  split_ifs
  · cases hm : d.m_mesh with
    | none => simp only [hbox, hmath, hlen]
    | some h => simp only [hmesh, hmath, hlen]
  · simp only [hbox, hmath, hlen]

theorem demo_visible (y r : ℝ) (hy : 0 < y) :
    isOverHorizon ⟨Real.sqrt, Real.arccos⟩ ⟨0, y, 0⟩ ⟨0, 1, 0⟩ r = false := by
  have hlen : FloatMath.length ⟨Real.sqrt, Real.arccos⟩ (⟨0, y, 0⟩ : V3 ℝ) = y := by
    simp only [real_length]
    rw [show (0 : ℝ) * 0 + y * y + 0 * 0 = y * y by ring]
    exact Real.sqrt_mul_self hy.le
  have hz := zenithAngle_same_direction ⟨0, y, 0⟩ (1 / y) (by positivity)
    (by rw [hlen]; exact hy.ne')
  have hp : (⟨0, y, 0⟩ : V3 ℝ).scale (1 / y) = ⟨0, 1, 0⟩ := by
    simp only [V3.scale, V3.mk.injEq]
    refine ⟨by ring, ?_, by ring⟩
    field_simp
  rw [hp] at hz
  exact isOverHorizon_false_of_zenith_zero _ _ r hz

theorem update_subdivides_witness :
    (calculateClosestPointAndDist (demoEnv ⟨Real.sqrt, Real.arccos⟩ 10) ⟨0, 3.5, 0⟩
        (demoWorld 0 fun _ => false) (demoFields 0 1 ⟨0, 1, 0⟩ none)).2.m_distance = 2.5 ∧
      (update (demoEnv ⟨Real.sqrt, Real.arccos⟩ 10) ⟨0, 3.5, 0⟩ (demoWorld 0 fun _ => false)
        (.leaf (demoFields 0 1 ⟨0, 1, 0⟩ none))).2.children.length = 4 ∧
      ∀ x z : Nat, x < 2 → z < 2 →
        ∃ c, (update (demoEnv ⟨Real.sqrt, Real.arccos⟩ 10) ⟨0, 3.5, 0⟩
            (demoWorld 0 fun _ => false)
            (.leaf (demoFields 0 1 ⟨0, 1, 0⟩ none))).2.child ((z <<< 1) + x) = some c ∧
          c.fields.m_gridPos = (⟨0, 0⟩ : V2 ℝ).add ⟨(1 / 2) * (x : ℝ), (1 / 2) * (z : ℝ)⟩ ∧
          c.fields.m_lod = 0 + 1 ∧
          c.fields.m_width = 1 / 2 ∧
          c.fields.m_cubeFace = 0 := by
  have hc := demo_calc 10 (demoWorld 0 fun _ => false) 3.5 (by norm_num)
    (demoFields 0 1 ⟨0, 1, 0⟩ none) rfl rfl
  refine ⟨by rw [hc]; norm_num, ?_⟩
  exact update_subdivides (demoEnv ⟨Real.sqrt, Real.arccos⟩ 10) ⟨0, 3.5, 0⟩
    (demoWorld 0 fun _ => false) (demoFields 0 1 ⟨0, 1, 0⟩ none)
    (by
      rw [hc]
      simp only [canSubdivide, demoEnv, demoFields, DIST_MIN, MIN_SIZE]
      norm_num)
    (by
      rw [hc]
      exact demo_visible 3.5 1 (by norm_num))


/-! ## Merging and the hand-over of the mesh -/

section Merge
variable {F : Type} [LinearOrderedField F]

/-- C2 (merge safety): a patch that holds a mesh handle and has children of which
at least one is not renderable still holds the same handle after `update`, and
the deletion flag of that mesh is as it was before the update. For the flag, the
handle is one the dispatcher handed out and no descendant holds it too, as is
so in every tree that owns its meshes (`owns_node`, `owns_reachable`). -/
theorem update_keeps_mesh (env : Env F) (cameraPos : V3 F) (w : World) (d : PatchFields F)
    (c0 c1 c2 c3 : TerrainPatch F) (h : MeshPtr)
    (hm : d.m_mesh = some h)
    (hnr : ∃ c ∈ [c0, c1, c2, c3], isRenderable w c = false) :
    (update env cameraPos w (.node d c0 c1 c2 c3)).2.fields.m_mesh = some h ∧
      (h < w.next → h ∉ (TerrainPatch.node d c0 c1 c2 c3).childPtrs →
        ((update env cameraPos w (.node d c0 c1 c2 c3)).1.mesh h).m_shouldDelete =
          (w.mesh h).m_shouldDelete) := by
  have hall : allChildrenRenderable w c0 c1 c2 c3 = false := by
    rw [Bool.eq_false_iff, Ne, allChildrenRenderable_iff]
    intro hall
    obtain ⟨c, hc, hcr⟩ := hnr
    rw [hall c hc] at hcr
    cases hcr
  have hm2 : (calculateClosestPointAndDist env cameraPos w d).2.m_mesh = some h := hm
  have hkeep : ∀ d1 : PatchFields F, d1.m_mesh = some h →
      (updateChildren env cameraPos w (.node d1 c0 c1 c2 c3)).2.fields.m_mesh = some h ∧
      (h < w.next → h ∉ (TerrainPatch.node d c0 c1 c2 c3).childPtrs →
        ((updateChildren env cameraPos w (.node d1 c0 c1 c2 c3)).1.mesh h).m_shouldDelete =
          (w.mesh h).m_shouldDelete) := by
    intro d1 hd1
    refine ⟨by rw [updateChildren_fields]; exact hd1, fun hvalid hown => ?_⟩
    have e := Extends.updateChildren env cameraPos w (.node d1 c0 c1 c2 c3)
    rw [(e.2 h hvalid).2.2 hown]
  rw [update_eq]
  by_cases hfar : (calculateClosestPointAndDist env cameraPos w d).2.m_distance >
      (calculateClosestPointAndDist env cameraPos w d).2.m_width * DIST_MAX
  · rw [updateSelf_node_far env cameraPos w d c0 c1 c2 c3 hfar,
      requestIfNoMesh_some env w _ h hm2]
    split_ifs
    · refine ⟨hm2, fun hvalid hown => ?_⟩
      have e := Extends.deleteChildren w d c0 c1 c2 c3
      simp only [updateChildren]
      rw [(e.2 h hvalid).2.2 hown]
    · exact hkeep _ hm2
  · rw [updateSelf_node_near_some env cameraPos w d c0 c1 c2 c3 h hfar hm, hall]
    exact hkeep _ hm2

end Merge


theorem update_keeps_mesh_witness :
    isRenderable (demoWorld 5 fun h => decide (h ≠ 4))
        (TerrainPatch.leaf (demoFields 1 (0.5 : ℝ) ⟨0, 1, 0⟩ (some 1))) = true ∧
      isRenderable (demoWorld 5 fun h => decide (h ≠ 4))
        (TerrainPatch.leaf (demoFields 1 (0.5 : ℝ) ⟨0, 1, 0⟩ (some 2))) = true ∧
      isRenderable (demoWorld 5 fun h => decide (h ≠ 4))
        (TerrainPatch.leaf (demoFields 1 (0.5 : ℝ) ⟨0, 1, 0⟩ (some 3))) = true ∧
      isRenderable (demoWorld 5 fun h => decide (h ≠ 4))
        (TerrainPatch.leaf (demoFields 1 (0.5 : ℝ) ⟨0, 1, 0⟩ (some 4))) = false ∧
      (update (demoEnv ⟨Real.sqrt, Real.arccos⟩ 10) ⟨0, 3.5, 0⟩
          (demoWorld 5 fun h => decide (h ≠ 4))
          (.node (demoFields 0 1 ⟨0, 1, 0⟩ (some 0))
            (.leaf (demoFields 1 0.5 ⟨0, 1, 0⟩ (some 1)))
            (.leaf (demoFields 1 0.5 ⟨0, 1, 0⟩ (some 2)))
            (.leaf (demoFields 1 0.5 ⟨0, 1, 0⟩ (some 3)))
            (.leaf (demoFields 1 0.5 ⟨0, 1, 0⟩ (some 4))))).2.fields.m_mesh = some 0 ∧
      ((update (demoEnv ⟨Real.sqrt, Real.arccos⟩ 10) ⟨0, 3.5, 0⟩
          (demoWorld 5 fun h => decide (h ≠ 4))
          (.node (demoFields 0 1 ⟨0, 1, 0⟩ (some 0))
            (.leaf (demoFields 1 0.5 ⟨0, 1, 0⟩ (some 1)))
            (.leaf (demoFields 1 0.5 ⟨0, 1, 0⟩ (some 2)))
            (.leaf (demoFields 1 0.5 ⟨0, 1, 0⟩ (some 3)))
            (.leaf (demoFields 1 0.5 ⟨0, 1, 0⟩ (some 4))))).1.mesh 0).m_shouldDelete = false := by
  refine ⟨by simp [isRenderable, hasMesh, demoFields, demoWorld],
    by simp [isRenderable, hasMesh, demoFields, demoWorld],
    by simp [isRenderable, hasMesh, demoFields, demoWorld],
    by simp [isRenderable, hasMesh, demoFields, demoWorld], ?_⟩
  have key := update_keeps_mesh (demoEnv ⟨Real.sqrt, Real.arccos⟩ 10) ⟨0, 3.5, 0⟩
    (demoWorld 5 fun h => decide (h ≠ 4)) (demoFields 0 1 ⟨0, 1, 0⟩ (some 0))
    (.leaf (demoFields 1 0.5 ⟨0, 1, 0⟩ (some 1)))
    (.leaf (demoFields 1 0.5 ⟨0, 1, 0⟩ (some 2)))
    (.leaf (demoFields 1 0.5 ⟨0, 1, 0⟩ (some 3)))
    (.leaf (demoFields 1 0.5 ⟨0, 1, 0⟩ (some 4))) 0 rfl
    ⟨.leaf (demoFields 1 0.5 ⟨0, 1, 0⟩ (some 4)), by simp,
      by simp [isRenderable, hasMesh, demoFields, demoWorld]⟩
  exact ⟨key.1, key.2 (by simp [demoWorld])
    (by simp [TerrainPatch.childPtrs, TerrainPatch.ptrs, demoFields])⟩


section Merge2
variable {F : Type} [LinearOrderedField F]

theorem requestIfNoMesh_next (env : Env F) (w : World) (d : PatchFields F) :
    (requestIfNoMesh env w d).1.next = if d.m_mesh = none then w.next + 1 else w.next := by
  unfold requestIfNoMesh
  split_ifs <;> rfl

theorem requestIfNoMesh_mesh (env : Env F) (w : World) (d : PatchFields F) :
    (requestIfNoMesh env w d).2.m_mesh = some (d.m_mesh.getD w.next) := by
  unfold requestIfNoMesh
  cases hm : d.m_mesh with
  | none => simp [requestMesh_mesh]
  | some h => simp [hm]

/-- C3: for a patch with children whose distance computed by this update exceeds
`width * DIST_MAX`, with `r` the state after the statement
`if (!m_mesh) requestMesh()`: the patch issues a mesh request iff it holds no
mesh handle; the children are deallocated iff the handle held after that
statement is ready, and are kept (and updated) otherwise; in both cases the
patch still holds that handle `held` after the update, and the deletion flag of
that mesh is as it was after the statement. For the flag, the handles of the
tree are ones the dispatcher handed out and no descendant holds the handle of
the patch, as is so in every tree that owns its meshes (`owns_node`,
`owns_reachable`). -/
theorem update_far (env : Env F) (cameraPos : V3 F) (w : World) (d : PatchFields F)
    (c0 c1 c2 c3 : TerrainPatch F) (r : World × PatchFields F)
    (hr : r = requestIfNoMesh env w (calculateClosestPointAndDist env cameraPos w d).2)
    (hfar : (calculateClosestPointAndDist env cameraPos w d).2.m_distance >
      d.m_width * DIST_MAX) :
    (requestsIssued w (updateSelf env cameraPos w (.node d c0 c1 c2 c3)).1 =
        if d.m_mesh = none then 1 else 0) ∧
      ((update env cameraPos w (.node d c0 c1 c2 c3)).2.hasChildren = false ↔
        hasMesh r.1 r.2 = true) ∧
      (hasMesh r.1 r.2 = true →
        update env cameraPos w (.node d c0 c1 c2 c3) =
          (deleteChildren r.1 c0 c1 c2 c3, .leaf r.2)) ∧
      (hasMesh r.1 r.2 = false →
        update env cameraPos w (.node d c0 c1 c2 c3) =
          updateChildren env cameraPos r.1 (.node r.2 c0 c1 c2 c3)) ∧
      ∃ held, r.2.m_mesh = some held ∧
        (update env cameraPos w (.node d c0 c1 c2 c3)).2.fields.m_mesh = some held ∧
        ((∀ k ∈ (TerrainPatch.node d c0 c1 c2 c3).ptrs, k < w.next) →
          (∀ k, d.m_mesh = some k → k ∉ (TerrainPatch.node d c0 c1 c2 c3).childPtrs) →
          ((update env cameraPos w (.node d c0 c1 c2 c3)).1.mesh held).m_shouldDelete =
            (r.1.mesh held).m_shouldDelete) := by
  have hself := updateSelf_node_far env cameraPos w d c0 c1 c2 c3 hfar
  rw [← hr] at hself
  have hnext : r.1.next = if d.m_mesh = none then w.next + 1 else w.next := by
    rw [hr, requestIfNoMesh_next]
    rfl
  have hheld : r.2.m_mesh = some (d.m_mesh.getD w.next) := by
    rw [hr, requestIfNoMesh_mesh]
    rfl
  have hupd : update env cameraPos w (.node d c0 c1 c2 c3) =
      if hasMesh r.1 r.2 then (deleteChildren r.1 c0 c1 c2 c3, .leaf r.2)
      else updateChildren env cameraPos r.1 (.node r.2 c0 c1 c2 c3) := by
    rw [update_eq, hself]
    split_ifs <;> rfl
  refine ⟨?_, ?_, ?_, ?_, d.m_mesh.getD w.next, hheld, ?_, ?_⟩
  · rw [hself]
    unfold requestsIssued
    split_ifs <;> simp_all [deleteChildren_next]
  · rw [hupd]
    cases hasMesh r.1 r.2 <;> simp [TerrainPatch.hasChildren, updateChildren]
  · intro hready
    rw [hupd, if_pos hready]
  · intro hnot
    rw [hupd, if_neg (by simp [hnot])]
  · rw [hupd]
    split_ifs
    · exact hheld
    · rw [updateChildren_fields]
      exact hheld
  · intro hvalid hown
    have hlt : d.m_mesh.getD w.next < r.1.next := by
      rw [hnext]
      cases hm : d.m_mesh with
      | none => simp
      | some k =>
        simp only [Option.getD_some, reduceCtorEq, if_false]
        exact hvalid k (by simp [TerrainPatch.ptrs, hm])
    have hnot : d.m_mesh.getD w.next ∉ (TerrainPatch.node d c0 c1 c2 c3).childPtrs := by
      cases hm : d.m_mesh with
      | none =>
        intro hin
        have := hvalid w.next (by rw [ptrs_eq]; exact List.mem_append_right _ hin)
        exact lt_irrefl _ this
      | some k => exact hown k hm
    rw [hupd]
    split_ifs
    · exact congrArg _ (((Extends.deleteChildren r.1 d c0 c1 c2 c3).2 _ hlt).2.2 hnot)
    · have hnot2 : d.m_mesh.getD w.next ∉ (TerrainPatch.node r.2 c0 c1 c2 c3).childPtrs := hnot
      exact congrArg _
        (((Extends.updateChildren env cameraPos r.1 (.node r.2 c0 c1 c2 c3)).2 _ hlt).2.2 hnot2)

end Merge2


theorem update_far_witness :
    (calculateClosestPointAndDist (demoEnv ⟨Real.sqrt, Real.arccos⟩ 10) ⟨0, 4.2, 0⟩
        (demoWorld 1 fun _ => true) (demoFields 0 1 ⟨0, 1, 0⟩ (some 0))).2.m_distance = 3.2 ∧
      (update (demoEnv ⟨Real.sqrt, Real.arccos⟩ 10) ⟨0, 4.2, 0⟩ (demoWorld 1 fun _ => true)
          (.node (demoFields 0 1 ⟨0, 1, 0⟩ (some 0))
            (.leaf (demoFields 1 0.5 ⟨0, 1, 0⟩ none)) (.leaf (demoFields 1 0.5 ⟨0, 1, 0⟩ none))
            (.leaf (demoFields 1 0.5 ⟨0, 1, 0⟩ none))
            (.leaf (demoFields 1 0.5 ⟨0, 1, 0⟩ none)))).2.hasChildren = false ∧
      (update (demoEnv ⟨Real.sqrt, Real.arccos⟩ 10) ⟨0, 4.2, 0⟩ (demoWorld 1 fun _ => true)
          (.node (demoFields 0 1 ⟨0, 1, 0⟩ (some 0))
            (.leaf (demoFields 1 0.5 ⟨0, 1, 0⟩ none)) (.leaf (demoFields 1 0.5 ⟨0, 1, 0⟩ none))
            (.leaf (demoFields 1 0.5 ⟨0, 1, 0⟩ none))
            (.leaf (demoFields 1 0.5 ⟨0, 1, 0⟩ none)))).2.fields.m_mesh = some 0 ∧
      ((update (demoEnv ⟨Real.sqrt, Real.arccos⟩ 10) ⟨0, 4.2, 0⟩ (demoWorld 1 fun _ => true)
          (.node (demoFields 0 1 ⟨0, 1, 0⟩ (some 0))
            (.leaf (demoFields 1 0.5 ⟨0, 1, 0⟩ none)) (.leaf (demoFields 1 0.5 ⟨0, 1, 0⟩ none))
            (.leaf (demoFields 1 0.5 ⟨0, 1, 0⟩ none))
            (.leaf (demoFields 1 0.5 ⟨0, 1, 0⟩ none)))).1.mesh 0).m_shouldDelete = false := by
  have hc := demo_calc 10 (demoWorld 1 fun _ => true) 4.2 (by norm_num)
    (demoFields 0 1 ⟨0, 1, 0⟩ (some 0)) rfl rfl
  have hreq : requestIfNoMesh (demoEnv ⟨Real.sqrt, Real.arccos⟩ 10) (demoWorld 1 fun _ => true)
      (calculateClosestPointAndDist (demoEnv ⟨Real.sqrt, Real.arccos⟩ 10) ⟨0, 4.2, 0⟩
        (demoWorld 1 fun _ => true) (demoFields 0 1 ⟨0, 1, 0⟩ (some 0))).2 =
      (demoWorld 1 fun _ => true,
        (calculateClosestPointAndDist (demoEnv ⟨Real.sqrt, Real.arccos⟩ 10) ⟨0, 4.2, 0⟩
          (demoWorld 1 fun _ => true) (demoFields 0 1 ⟨0, 1, 0⟩ (some 0))).2) :=
    requestIfNoMesh_some _ _ _ 0 rfl
  obtain ⟨-, hfree, -, -, held, hheld, hkept, hflag⟩ :=
    update_far (demoEnv ⟨Real.sqrt, Real.arccos⟩ 10) ⟨0, 4.2, 0⟩ (demoWorld 1 fun _ => true)
      (demoFields 0 1 ⟨0, 1, 0⟩ (some 0))
      (.leaf (demoFields 1 0.5 ⟨0, 1, 0⟩ none)) (.leaf (demoFields 1 0.5 ⟨0, 1, 0⟩ none))
      (.leaf (demoFields 1 0.5 ⟨0, 1, 0⟩ none)) (.leaf (demoFields 1 0.5 ⟨0, 1, 0⟩ none))
      _ rfl
      (by
        rw [hc]
        simp only [demoFields, DIST_MAX]
        norm_num)
  rw [hreq] at hfree hheld hflag
  have h0 : held = 0 := by
    have : some held = some 0 := hheld.symm.trans rfl
    exact Option.some.inj this
  subst h0
  refine ⟨by rw [hc]; norm_num, hfree.mpr rfl, hkept, ?_⟩
  exact hflag (by simp [TerrainPatch.ptrs, demoFields, demoWorld])
    (by simp [TerrainPatch.childPtrs, TerrainPatch.ptrs, demoFields])


section HandOver
variable {F : Type} [LinearOrderedField F]

/-- C4: for a patch with children that holds a mesh handle `h` and whose computed
distance is at most `width * DIST_MAX`, if all four children are renderable when
`update` checks them, then the patch holds no mesh handle afterwards and keeps
its 4 children (which are then updated), and the deletion flag of the mesh `h` is
set: at once by the patch, and still at the end of the update when `h` is a
handle that the dispatcher handed out (as in every tree that owns its meshes,
`owns_reachable`). -/
theorem update_hands_over (env : Env F) (cameraPos : V3 F) (w : World) (d : PatchFields F)
    (c0 c1 c2 c3 : TerrainPatch F) (h : MeshPtr)
    (hm : d.m_mesh = some h)
    (hnear : (calculateClosestPointAndDist env cameraPos w d).2.m_distance ≤
      d.m_width * DIST_MAX)
    (hall : ∀ c ∈ [c0, c1, c2, c3], isRenderable w c = true) :
    update env cameraPos w (.node d c0 c1 c2 c3) =
        updateChildren env cameraPos (w.setShouldDelete h)
          (.node { (calculateClosestPointAndDist env cameraPos w d).2 with m_mesh := none }
            c0 c1 c2 c3) ∧
      (update env cameraPos w (.node d c0 c1 c2 c3)).2.fields.m_mesh = none ∧
      (update env cameraPos w (.node d c0 c1 c2 c3)).2.children.length = 4 ∧
      ((updateSelf env cameraPos w (.node d c0 c1 c2 c3)).1.mesh h).m_shouldDelete = true ∧
      (h < w.next →
        ((update env cameraPos w (.node d c0 c1 c2 c3)).1.mesh h).m_shouldDelete = true) := by
  have hnear2 : ¬ (calculateClosestPointAndDist env cameraPos w d).2.m_distance >
      (calculateClosestPointAndDist env cameraPos w d).2.m_width * DIST_MAX := not_lt.mpr hnear
  have hself := updateSelf_node_near_some env cameraPos w d c0 c1 c2 c3 h hnear2 hm
  rw [(allChildrenRenderable_iff w c0 c1 c2 c3).mpr hall, if_pos rfl] at hself
  have hupd : update env cameraPos w (.node d c0 c1 c2 c3) =
      updateChildren env cameraPos (w.setShouldDelete h)
        (.node { (calculateClosestPointAndDist env cameraPos w d).2 with m_mesh := none }
          c0 c1 c2 c3) := by
    rw [update_eq, hself]
  have hset : ((w.setShouldDelete h).mesh h).m_shouldDelete = true := by
    simp [World.setShouldDelete]
  refine ⟨hupd, ?_, ?_, ?_, ?_⟩
  · rw [hupd, updateChildren_fields]
    rfl
  · rw [hupd]
    rfl
  · rw [hself]
    exact hset
  · intro hvalid
    rw [hupd]
    exact ((Extends.updateChildren env cameraPos (w.setShouldDelete h) _).2 h hvalid).2.1 hset

end HandOver

theorem update_hands_over_witness :
    (update (demoEnv ⟨Real.sqrt, Real.arccos⟩ 10) ⟨0, 3.5, 0⟩ (demoWorld 5 fun _ => true)
          (.node (demoFields 0 1 ⟨0, 1, 0⟩ (some 0))
            (.leaf (demoFields 1 0.5 ⟨0, 1, 0⟩ (some 1)))
            (.leaf (demoFields 1 0.5 ⟨0, 1, 0⟩ (some 2)))
            (.leaf (demoFields 1 0.5 ⟨0, 1, 0⟩ (some 3)))
            (.leaf (demoFields 1 0.5 ⟨0, 1, 0⟩ (some 4))))).2.fields.m_mesh = none ∧
      (update (demoEnv ⟨Real.sqrt, Real.arccos⟩ 10) ⟨0, 3.5, 0⟩ (demoWorld 5 fun _ => true)
          (.node (demoFields 0 1 ⟨0, 1, 0⟩ (some 0))
            (.leaf (demoFields 1 0.5 ⟨0, 1, 0⟩ (some 1)))
            (.leaf (demoFields 1 0.5 ⟨0, 1, 0⟩ (some 2)))
            (.leaf (demoFields 1 0.5 ⟨0, 1, 0⟩ (some 3)))
            (.leaf (demoFields 1 0.5 ⟨0, 1, 0⟩ (some 4))))).2.children.length = 4 ∧
      ((update (demoEnv ⟨Real.sqrt, Real.arccos⟩ 10) ⟨0, 3.5, 0⟩ (demoWorld 5 fun _ => true)
          (.node (demoFields 0 1 ⟨0, 1, 0⟩ (some 0))
            (.leaf (demoFields 1 0.5 ⟨0, 1, 0⟩ (some 1)))
            (.leaf (demoFields 1 0.5 ⟨0, 1, 0⟩ (some 2)))
            (.leaf (demoFields 1 0.5 ⟨0, 1, 0⟩ (some 3)))
            (.leaf (demoFields 1 0.5 ⟨0, 1, 0⟩ (some 4))))).1.mesh 0).m_shouldDelete = true := by
  have hc := demo_calc 10 (demoWorld 5 fun _ => true) 3.5 (by norm_num)
    (demoFields 0 1 ⟨0, 1, 0⟩ (some 0)) rfl rfl
  obtain ⟨-, hnone, hfour, -, hflag⟩ :=
    update_hands_over (demoEnv ⟨Real.sqrt, Real.arccos⟩ 10) ⟨0, 3.5, 0⟩
      (demoWorld 5 fun _ => true)
      (demoFields 0 1 ⟨0, 1, 0⟩ (some 0))
      (.leaf (demoFields 1 0.5 ⟨0, 1, 0⟩ (some 1)))
      (.leaf (demoFields 1 0.5 ⟨0, 1, 0⟩ (some 2)))
      (.leaf (demoFields 1 0.5 ⟨0, 1, 0⟩ (some 3)))
      (.leaf (demoFields 1 0.5 ⟨0, 1, 0⟩ (some 4))) 0 rfl
      (by
        rw [hc]
        simp only [demoFields, DIST_MAX]
        norm_num)
      (by simp [isRenderable, hasMesh, demoFields, demoWorld])
  exact ⟨hnone, hfour, hflag (by simp [demoWorld])⟩


/-! ## Hysteresis -/

section Hysteresis
variable {F : Type} [LinearOrderedField F]

theorem canSubdivide_false_of_dist (env : Env F) (d : PatchFields F)
    (h : d.m_width * DIST_MIN ≤ d.m_distance) : canSubdivide env d = false := by
  simp only [canSubdivide, Bool.and_eq_false_imp, Bool.and_eq_true, decide_eq_true_eq,
    decide_eq_false_iff_not, not_lt]
  intro hh
  exact absurd hh.2 (not_lt.mpr h)

/-- One update with the computed distance in the band leaves a leaf a leaf and a
subdivided patch subdivided. -/
theorem update_inBand (env : Env F) (cameraPos : V3 F) (w : World) (p : TerrainPatch F)
    (hband : inBand env cameraPos w p) :
    (update env cameraPos w p).2.hasChildren = p.hasChildren := by
  rw [update_hasChildren]
  obtain ⟨hlo, hhi⟩ := hband
  cases p with
  | leaf d =>
    have hcan := canSubdivide_false_of_dist env _ hlo
    by_cases hm : d.m_mesh = none
    · rw [updateSelf_leaf_request env cameraPos w d hcan hm]
      rfl
    · rw [updateSelf_leaf_keep env cameraPos w d hcan hm]
      rfl
  | node d c0 c1 c2 c3 =>
    have hnear : ¬ (calculateClosestPointAndDist env cameraPos w d).2.m_distance >
        (calculateClosestPointAndDist env cameraPos w d).2.m_width * DIST_MAX :=
      not_lt.mpr hhi
    cases hm : d.m_mesh with
    | none =>
      rw [updateSelf_node_near_none env cameraPos w d c0 c1 c2 c3 hnear hm]
      rfl
    | some h =>
      rw [updateSelf_node_near_some env cameraPos w d c0 c1 c2 c3 h hnear hm]
      split_ifs <;> rfl

/-- C5 (no-flicker hysteresis): over a sequence of updates, each of which
computes a distance `d` with `width * DIST_MIN ≤ d ≤ width * DIST_MAX`, the
other threads doing anything to the mesh store in between, the patch has
children after every update of the sequence exactly when it had children at the
start: a subdivided patch keeps its children and a leaf stays a leaf. A single
update is the sequence of length one. -/
theorem no_flicker (fs : List (Frame F)) (w : World) (p : TerrainPatch F)
    (hband : allInBand fs w p) :
    ∀ n : Nat, (runFrames (fs.take n) w p).2.hasChildren = p.hasChildren := by
  induction fs generalizing w p with
  | nil =>
    intro n
    simp [runFrames]
  | cons f fs ih =>
    intro n
    cases n with
    | zero => simp [runFrames]
    | succ n =>
      obtain ⟨h1, h2⟩ := hband
      simp only [List.take_succ_cons, runFrames]
      rw [ih _ _ h2 n]
      exact update_inBand f.env f.cameraPos (f.async w) p h1

end Hysteresis

theorem no_flicker_witness :
    allInBand
        [⟨demoEnv ⟨Real.sqrt, Real.arccos⟩ 10, ⟨0, 4.05, 0⟩, id⟩,
         ⟨demoEnv ⟨Real.sqrt, Real.arccos⟩ 10, ⟨0, 4.09, 0⟩, id⟩]
        (demoWorld 0 fun _ => false)
        (TerrainPatch.leaf (demoFields 0 (1 : ℝ) ⟨0, 1, 0⟩ none)) ∧
      ∀ n : Nat,
        (runFrames
          (List.take n
            [⟨demoEnv ⟨Real.sqrt, Real.arccos⟩ 10, ⟨0, 4.05, 0⟩, id⟩,
             ⟨demoEnv ⟨Real.sqrt, Real.arccos⟩ 10, ⟨0, 4.09, 0⟩, id⟩])
          (demoWorld 0 fun _ => false)
          (TerrainPatch.leaf (demoFields 0 (1 : ℝ) ⟨0, 1, 0⟩ none))).2.hasChildren = false := by
  have band : ∀ (w : World) (y : ℝ) (p : TerrainPatch ℝ), 4 ≤ y → y ≤ 4.09 →
      p.fields.geometry = (demoFields (0 : Int) (1 : ℝ) ⟨0, 1, 0⟩ none).geometry →
      inBand (demoEnv ⟨Real.sqrt, Real.arccos⟩ 10) ⟨0, y, 0⟩ w p := by
    intro w y p h1 h2 hg
    obtain ⟨-, -, -, hw, hpos, hdims⟩ := geometry_components hg
    simp only [inBand]
    rw [demo_calc 10 w y (by linarith) p.fields hpos hdims]
    simp only [hw, demoFields, DIST_MIN, DIST_MAX]
    constructor <;> norm_num <;> linarith
  have hband : allInBand
      [⟨demoEnv ⟨Real.sqrt, Real.arccos⟩ 10, ⟨0, 4.05, 0⟩, id⟩,
       ⟨demoEnv ⟨Real.sqrt, Real.arccos⟩ 10, ⟨0, 4.09, 0⟩, id⟩]
      (demoWorld 0 fun _ => false)
      (TerrainPatch.leaf (demoFields 0 (1 : ℝ) ⟨0, 1, 0⟩ none)) :=
    ⟨band _ 4.05 _ (by norm_num) (by norm_num) rfl,
      band _ 4.09 _ (by norm_num) (by norm_num) (update_geometry _ _ _ _), trivial⟩
  exact ⟨hband, no_flicker _ _ _ hband⟩

/-! ## Eligibility and renderability -/

section Queries
variable {F : Type} [LinearOrderedField F]

/-- C6 (amended): `canSubdivide()` is true iff `lod < PATCH_MAX_LOD`,
`distance < width * DIST_MIN` and `width > MIN_SIZE`, where `DIST_MIN` is 3 and
`MIN_SIZE` is the value of the single-precision literal `0.4096f`, which is
`13743895 / 33554432`, below 0.4096 and above 0.4095999; hence for a patch with
`width ≤ MIN_SIZE` it is false whatever the distance and the level, and `update`
leaves such a patch without children. -/
theorem canSubdivide_iff (env : Env F) (d : PatchFields F) :
    (canSubdivide env d = true ↔
        d.m_lod < env.PATCH_MAX_LOD ∧ d.m_distance < d.m_width * DIST_MIN ∧
          d.m_width > MIN_SIZE) ∧
      ((DIST_MIN : F) = 3 ∧ (MIN_SIZE : F) = 13743895 / 33554432 ∧
        (0.4095999 : F) < MIN_SIZE ∧ (MIN_SIZE : F) < 0.4096) ∧
      (d.m_width ≤ MIN_SIZE → canSubdivide env d = false) ∧
      (d.m_width ≤ MIN_SIZE → ∀ (cameraPos : V3 F) (w : World),
        (update env cameraPos w (.leaf d)).2.hasChildren = false) := by
  have hiff : canSubdivide env d = true ↔
      d.m_lod < env.PATCH_MAX_LOD ∧ d.m_distance < d.m_width * DIST_MIN ∧
        d.m_width > MIN_SIZE := by
    simp only [canSubdivide, Bool.and_eq_true, decide_eq_true_eq, and_assoc]
  have hsmall : ∀ e : PatchFields F, e.m_width ≤ MIN_SIZE → canSubdivide env e = false := by
    intro e he
    simp only [canSubdivide, Bool.and_eq_false_imp, Bool.and_eq_true,
      decide_eq_true_eq, decide_eq_false_iff_not, not_lt]
    intro _
    exact he
  refine ⟨hiff, ⟨?_, rfl, ?_, ?_⟩, hsmall d, fun hw cameraPos w => ?_⟩
  · simp only [DIST_MIN]
    norm_num
  · simp only [MIN_SIZE]
    norm_num
  · simp only [MIN_SIZE]
    norm_num
  have hcan := hsmall (calculateClosestPointAndDist env cameraPos w d).2 hw
  rw [update_hasChildren]
  by_cases hm : d.m_mesh = none
  · rw [updateSelf_leaf_request env cameraPos w d hcan hm]
    rfl
  · rw [updateSelf_leaf_keep env cameraPos w d hcan hm]
    rfl

/-- C6, counterexample: a patch at level 0 of width 0.40959999, which is not
above 0.4096, at distance 0 with `PATCH_MAX_LOD = 10`. The width is above the
single-precision constant `0.4096f` that the code compares it with, so
`canSubdivide()` is true. -/
theorem canSubdivide_below_decimal :
    (demoFields 0 (0.40959999 : ℝ) ⟨0, 1, 0⟩ none).m_lod <
        (demoEnv ⟨Real.sqrt, Real.arccos⟩ 10 : Env ℝ).PATCH_MAX_LOD ∧
      (demoFields 0 (0.40959999 : ℝ) ⟨0, 1, 0⟩ none).m_distance <
        (demoFields 0 (0.40959999 : ℝ) ⟨0, 1, 0⟩ none).m_width * 3.0 ∧
      ¬ ((demoFields 0 (0.40959999 : ℝ) ⟨0, 1, 0⟩ none).m_width > 0.4096) ∧
      canSubdivide (demoEnv ⟨Real.sqrt, Real.arccos⟩ 10)
        (demoFields 0 (0.40959999 : ℝ) ⟨0, 1, 0⟩ none) = true := by
  refine ⟨by decide, ?_, ?_, ?_⟩
  · simp only [demoFields]
    norm_num
  · simp only [demoFields]
    norm_num
  · simp only [canSubdivide, demoEnv, demoFields, DIST_MIN, MIN_SIZE]
    norm_num

/-- C7: `isRenderable()` is true if the patch holds a ready mesh; otherwise, if
the patch has children (which are 4), it is true exactly when all of them are
renderable; otherwise it is false. `hasMesh()` is true iff a mesh handle is held
and the readiness flag of that mesh is set. -/
theorem isRenderable_spec (w : World) (p : TerrainPatch F) :
    (hasMesh w p.fields = true → isRenderable w p = true) ∧
      (hasMesh w p.fields = false → p.hasChildren = true →
        (p.children.length = 4 ∧
          (isRenderable w p = true ↔ ∀ c ∈ p.children, isRenderable w c = true))) ∧
      (hasMesh w p.fields = false → p.hasChildren = false → isRenderable w p = false) ∧
      (hasMesh w p.fields = true ↔
        ∃ h, p.fields.m_mesh = some h ∧ (w.mesh h).m_isRenderable = true) := by
  refine ⟨?_, ?_, ?_, ?_⟩
  · intro hm
    cases p with
    | leaf d => simp only [isRenderable, TerrainPatch.fields] at hm ⊢; simp [hm]
    | node d c0 c1 c2 c3 => simp only [isRenderable, TerrainPatch.fields] at hm ⊢; simp [hm]
  · intro hm hc
    cases p with
    | leaf d => cases hc
    | node d c0 c1 c2 c3 =>
      refine ⟨rfl, ?_⟩
      simp only [TerrainPatch.fields] at hm
      simp only [isRenderable, hm, TerrainPatch.children, List.mem_cons, List.mem_singleton,
        forall_eq_or_imp, forall_eq, List.not_mem_nil, false_implies, implies_true, and_true]
      generalize isRenderable w c0 = b0
      generalize isRenderable w c1 = b1
      generalize isRenderable w c2 = b2
      generalize isRenderable w c3 = b3
      cases b0 <;> cases b1 <;> cases b2 <;> cases b3 <;> simp
  · intro hm hc
    cases p with
    | leaf d => simp only [isRenderable, TerrainPatch.fields] at hm ⊢; simp [hm]
    | node d c0 c1 c2 c3 => cases hc
  · simp only [hasMesh]
    cases hm : p.fields.m_mesh with
    | none => simp
    | some h => simp

end Queries

theorem canSubdivide_iff_witness :
    (0.3 : ℝ) ≤ MIN_SIZE ∧
      canSubdivide (demoEnv ⟨Real.sqrt, Real.arccos⟩ 10)
        (demoFields 0 (0.3 : ℝ) ⟨0, 1, 0⟩ none) = false ∧
      ∀ (cameraPos : V3 ℝ) (w : World),
        (update (demoEnv ⟨Real.sqrt, Real.arccos⟩ 10) cameraPos w
          (.leaf (demoFields 0 (0.3 : ℝ) ⟨0, 1, 0⟩ none))).2.hasChildren = false :=
  ⟨by simp only [MIN_SIZE]; norm_num,
    (canSubdivide_iff (demoEnv ⟨Real.sqrt, Real.arccos⟩ 10)
      (demoFields 0 (0.3 : ℝ) ⟨0, 1, 0⟩ none)).2.2.1
        (by simp only [demoFields, MIN_SIZE]; norm_num),
    (canSubdivide_iff (demoEnv ⟨Real.sqrt, Real.arccos⟩ 10)
      (demoFields 0 (0.3 : ℝ) ⟨0, 1, 0⟩ none)).2.2.2
        (by simp only [demoFields, MIN_SIZE]; norm_num)⟩

theorem isRenderable_spec_witness :
    hasMesh (demoWorld 5 fun h => decide (h ≠ 0)) (demoFields 0 (1 : ℝ) ⟨0, 1, 0⟩ (some 0)) =
        false ∧
      isRenderable (demoWorld 5 fun h => decide (h ≠ 0))
        (.node (demoFields 0 (1 : ℝ) ⟨0, 1, 0⟩ (some 0))
          (.leaf (demoFields 1 0.5 ⟨0, 1, 0⟩ (some 1)))
          (.leaf (demoFields 1 0.5 ⟨0, 1, 0⟩ (some 2)))
          (.leaf (demoFields 1 0.5 ⟨0, 1, 0⟩ (some 3)))
          (.leaf (demoFields 1 0.5 ⟨0, 1, 0⟩ (some 4)))) = true := by
  have hm : hasMesh (demoWorld 5 fun h => decide (h ≠ 0))
      (demoFields 0 (1 : ℝ) ⟨0, 1, 0⟩ (some 0)) = false := by
    simp [hasMesh, demoFields, demoWorld]
  refine ⟨hm, ?_⟩
  refine (((isRenderable_spec (demoWorld 5 fun h => decide (h ≠ 0))
    (.node (demoFields 0 (1 : ℝ) ⟨0, 1, 0⟩ (some 0))
      (.leaf (demoFields 1 0.5 ⟨0, 1, 0⟩ (some 1)))
      (.leaf (demoFields 1 0.5 ⟨0, 1, 0⟩ (some 2)))
      (.leaf (demoFields 1 0.5 ⟨0, 1, 0⟩ (some 3)))
      (.leaf (demoFields 1 0.5 ⟨0, 1, 0⟩ (some 4))))).2.1 hm rfl).2).mpr ?_
  simp [TerrainPatch.children, isRenderable, hasMesh, demoFields, demoWorld]


/-! ## A leaf without a mesh -/

section LeafNoMesh
variable {F : Type} [LinearOrderedField F]

/-- A leaf that is eligible to subdivide but lies over the horizon is left as it
is by `update`, apart from `m_distance`: no children, no request. -/
theorem update_leaf_hidden (env : Env F) (cameraPos : V3 F) (w : World) (d : PatchFields F)
    (hcan : canSubdivide env (calculateClosestPointAndDist env cameraPos w d).2 = true)
    (hvis : isOverHorizon env.math cameraPos
      (calculateClosestPointAndDist env cameraPos w d).1 env.getRadius = true) :
    update env cameraPos w (.leaf d) =
      (w, .leaf (calculateClosestPointAndDist env cameraPos w d).2) := by
  rw [update_eq, updateSelf_leaf_hidden env cameraPos w d hcan hvis]
  rfl

/-- C8, amended: a patch with no children and no mesh handle is subdivided by one
update exactly when it is eligible to subdivide and not over the horizon; when
it is not eligible to subdivide, the update issues one mesh request and the patch
holds the returned handle afterwards; when it is eligible to subdivide but over
the horizon, the update leaves it a leaf without a mesh handle and issues no
request. -/
theorem update_leaf_no_mesh (env : Env F) (cameraPos : V3 F) (w : World) (d : PatchFields F)
    (hm : d.m_mesh = none) :
    ((update env cameraPos w (.leaf d)).2.hasChildren = true ↔
        (canSubdivide env (calculateClosestPointAndDist env cameraPos w d).2 = true ∧
          isOverHorizon env.math cameraPos
            (calculateClosestPointAndDist env cameraPos w d).1 env.getRadius = false)) ∧
      (canSubdivide env (calculateClosestPointAndDist env cameraPos w d).2 = false →
        (update env cameraPos w (.leaf d)).2.hasChildren = false ∧
          (update env cameraPos w (.leaf d)).2.fields.m_mesh = some w.next ∧
          requestsIssued w (update env cameraPos w (.leaf d)).1 = 1) ∧
      (canSubdivide env (calculateClosestPointAndDist env cameraPos w d).2 = true →
        isOverHorizon env.math cameraPos
            (calculateClosestPointAndDist env cameraPos w d).1 env.getRadius = true →
        (update env cameraPos w (.leaf d)).2.hasChildren = false ∧
          (update env cameraPos w (.leaf d)).2.fields.m_mesh = none ∧
          requestsIssued w (update env cameraPos w (.leaf d)).1 = 0) := by
  have hreq : canSubdivide env (calculateClosestPointAndDist env cameraPos w d).2 = false →
      update env cameraPos w (.leaf d) =
        ((requestMesh env w (calculateClosestPointAndDist env cameraPos w d).2).1,
          .leaf (requestMesh env w (calculateClosestPointAndDist env cameraPos w d).2).2) := by
    intro hcan
    rw [update_eq, updateSelf_leaf_request env cameraPos w d hcan hm]
    rfl
  refine ⟨?_, ?_, ?_⟩
  · cases hcan : canSubdivide env (calculateClosestPointAndDist env cameraPos w d).2 with
    | false =>
      rw [hreq hcan]
      simp [TerrainPatch.hasChildren]
    | true =>
      cases hvis : isOverHorizon env.math cameraPos
          (calculateClosestPointAndDist env cameraPos w d).1 env.getRadius with
      | false =>
        rw [update_hasChildren, updateSelf_leaf_subdivide env cameraPos w d hcan hvis]
        simp [TerrainPatch.hasChildren]
      | true =>
        rw [update_leaf_hidden env cameraPos w d hcan hvis]
        simp [TerrainPatch.hasChildren]
  · intro hcan
    rw [hreq hcan]
    refine ⟨rfl, rfl, ?_⟩
    simp [requestsIssued, requestMesh_next]
  · intro hcan hvis
    rw [update_leaf_hidden env cameraPos w d hcan hvis]
    refine ⟨rfl, hm, ?_⟩
    simp [requestsIssued]

end LeafNoMesh

/-- The example of a leaf on the far side of the planet: camera at `(0, 1.5, 0)`,
box at the south pole `(0, -1, 0)`; the distance is `2.5`. -/
theorem demo_calc_south (w : World) :
    calculateClosestPointAndDist (demoEnv ⟨Real.sqrt, Real.arccos⟩ 10) ⟨0, 1.5, 0⟩ w
        (demoFields 0 1 ⟨0, -1, 0⟩ none) =
      (⟨0, -1, 0⟩, { demoFields 0 1 ⟨0, -1, 0⟩ none with m_distance := 2.5 }) := by
  have hlen : FloatMath.length ⟨Real.sqrt, Real.arccos⟩
      ((⟨0, -1, 0⟩ : V3 ℝ).sub ⟨0, 1.5, 0⟩) = 2.5 := by
    simp only [real_length, V3.sub]
    norm_num
    have h25 : Real.sqrt 25 = 5 := by
      rw [show (25 : ℝ) = 5 * 5 by norm_num]
      exact Real.sqrt_mul_self (by norm_num)
    rw [h25, sqrt_four]
  have hbox : (demoEnv ⟨Real.sqrt, Real.arccos⟩ 10).getClosestPointOnAABB ⟨0, 1.5, 0⟩
      ⟨0, -1, 0⟩ V3.zero = ⟨0, -1, 0⟩ := by
    simp only [demoEnv, V3.zero, add_zero, min_self, max_self, V3.mk.injEq, true_and, and_true]
    norm_num
  have hmath : (demoEnv ⟨Real.sqrt, Real.arccos⟩ 10).math = ⟨Real.sqrt, Real.arccos⟩ := rfl
  simp only [calculateClosestPointAndDist, demoFields, hasMesh, Bool.false_eq_true, if_false,
    hbox, hmath, hlen]

theorem demo_hidden :
    isOverHorizon ⟨Real.sqrt, Real.arccos⟩ ⟨0, 1.5, 0⟩ ⟨0, -1, 0⟩ (1 : ℝ) = true := by
  have hcam : FloatMath.length ⟨Real.sqrt, Real.arccos⟩ (⟨0, 1.5, 0⟩ : V3 ℝ) = 3 / 2 := by
    simp only [real_length]
    norm_num
    rw [sqrt_four]
    have h9 : Real.sqrt 9 = 3 := by
      rw [show (9 : ℝ) = 3 * 3 by norm_num]
      exact Real.sqrt_mul_self (by norm_num)
    rw [h9]
  have hpt : FloatMath.length ⟨Real.sqrt, Real.arccos⟩ (⟨0, -1, 0⟩ : V3 ℝ) = 1 := by
    simp only [real_length]
    norm_num
  rw [isOverHorizon_real]
  simp only [zenithAngle, hcam, hpt, V3.dot]
  have hmax : max (3 / 2 : ℝ) (1 + 1) = 2 := by norm_num
  rw [hmax]
  have hz : ((0 : ℝ) * 0 + 1.5 * -1 + 0 * 0) / (3 / 2 * 1) = -1 := by norm_num
  rw [hz, Real.arccos_neg_one]
  have h1 : Real.arccos (1 / 2) ≤ Real.pi / 2 := Real.arccos_le_pi_div_two.mpr (by norm_num)
  have h2 := Real.pi_gt_three
  norm_num
  linarith

theorem update_leaf_no_mesh_counterexample :
    (demoFields 0 (1 : ℝ) ⟨0, -1, 0⟩ none).m_mesh = none ∧
      canSubdivide (demoEnv ⟨Real.sqrt, Real.arccos⟩ 10)
        (calculateClosestPointAndDist (demoEnv ⟨Real.sqrt, Real.arccos⟩ 10) ⟨0, 1.5, 0⟩
          (demoWorld 0 fun _ => false) (demoFields 0 1 ⟨0, -1, 0⟩ none)).2 = true ∧
      isOverHorizon ⟨Real.sqrt, Real.arccos⟩ ⟨0, 1.5, 0⟩
        (calculateClosestPointAndDist (demoEnv ⟨Real.sqrt, Real.arccos⟩ 10) ⟨0, 1.5, 0⟩
          (demoWorld 0 fun _ => false) (demoFields 0 1 ⟨0, -1, 0⟩ none)).1 1 = true ∧
      (update (demoEnv ⟨Real.sqrt, Real.arccos⟩ 10) ⟨0, 1.5, 0⟩ (demoWorld 0 fun _ => false)
        (.leaf (demoFields 0 1 ⟨0, -1, 0⟩ none))).2.hasChildren = false ∧
      (update (demoEnv ⟨Real.sqrt, Real.arccos⟩ 10) ⟨0, 1.5, 0⟩ (demoWorld 0 fun _ => false)
        (.leaf (demoFields 0 1 ⟨0, -1, 0⟩ none))).2.fields.m_mesh = none ∧
      requestsIssued (demoWorld 0 fun _ => false)
        (update (demoEnv ⟨Real.sqrt, Real.arccos⟩ 10) ⟨0, 1.5, 0⟩ (demoWorld 0 fun _ => false)
          (.leaf (demoFields 0 1 ⟨0, -1, 0⟩ none))).1 = 0 := by
  have hc := demo_calc_south (demoWorld 0 fun _ => false)
  have hcan : canSubdivide (demoEnv ⟨Real.sqrt, Real.arccos⟩ 10)
      (calculateClosestPointAndDist (demoEnv ⟨Real.sqrt, Real.arccos⟩ 10) ⟨0, 1.5, 0⟩
        (demoWorld 0 fun _ => false) (demoFields 0 1 ⟨0, -1, 0⟩ none)).2 = true := by
    rw [hc]
    simp only [canSubdivide, demoEnv, demoFields, DIST_MIN, MIN_SIZE]
    norm_num
  have hvis : isOverHorizon (demoEnv ⟨Real.sqrt, Real.arccos⟩ 10).math ⟨0, 1.5, 0⟩
      (calculateClosestPointAndDist (demoEnv ⟨Real.sqrt, Real.arccos⟩ 10) ⟨0, 1.5, 0⟩
        (demoWorld 0 fun _ => false) (demoFields 0 1 ⟨0, -1, 0⟩ none)).1
      (demoEnv ⟨Real.sqrt, Real.arccos⟩ 10).getRadius = true := by
    rw [hc]
    exact demo_hidden
  rw [update_leaf_hidden _ _ _ _ hcan hvis]
  exact ⟨rfl, hcan, hvis, rfl, rfl, by simp [requestsIssued]⟩

theorem update_leaf_no_mesh_witness :
    (update (demoEnv ⟨Real.sqrt, Real.arccos⟩ 10) ⟨0, 3.5, 0⟩ (demoWorld 0 fun _ => false)
        (.leaf (demoFields 0 (0.3 : ℝ) ⟨0, 1, 0⟩ none))).2.hasChildren = false ∧
      (update (demoEnv ⟨Real.sqrt, Real.arccos⟩ 10) ⟨0, 3.5, 0⟩ (demoWorld 0 fun _ => false)
        (.leaf (demoFields 0 (0.3 : ℝ) ⟨0, 1, 0⟩ none))).2.fields.m_mesh = some 0 ∧
      requestsIssued (demoWorld 0 fun _ => false)
        (update (demoEnv ⟨Real.sqrt, Real.arccos⟩ 10) ⟨0, 3.5, 0⟩ (demoWorld 0 fun _ => false)
          (.leaf (demoFields 0 (0.3 : ℝ) ⟨0, 1, 0⟩ none))).1 = 1 :=
  (update_leaf_no_mesh (demoEnv ⟨Real.sqrt, Real.arccos⟩ 10) ⟨0, 3.5, 0⟩
    (demoWorld 0 fun _ => false) (demoFields 0 (0.3 : ℝ) ⟨0, 1, 0⟩ none) rfl).2.1
    (by
      simp only [canSubdivide, calculateClosestPointAndDist, demoFields, MIN_SIZE,
        Bool.and_eq_false_imp, Bool.and_eq_true, decide_eq_true_eq, decide_eq_false_iff_not]
      intro _
      norm_num)


/-! ## The shape of the tree -/

section Shape
variable {F : Type} [LinearOrderedField F]

theorem halved_nodes (p : TerrainPatch F) (hp : p.Halved) :
    ∀ q ∈ p.nodes,
      (q.hasChildren = true → q.children.length = 4) ∧
        ∀ c ∈ q.children,
          c.fields.m_lod = q.fields.m_lod + 1 ∧ c.fields.m_width = q.fields.m_width / 2 := by
  induction p with
  | leaf d =>
    intro q hq
    simp only [TerrainPatch.nodes, List.mem_singleton] at hq
    subst hq
    simp [TerrainPatch.hasChildren, TerrainPatch.children]
  | node d c0 c1 c2 c3 ih0 ih1 ih2 ih3 =>
    obtain ⟨hc, h0, h1, h2, h3⟩ := hp
    intro q hq
    simp only [TerrainPatch.nodes, List.mem_cons, List.mem_append] at hq
    rcases hq with rfl | ((hq | hq) | hq) | hq
    · exact ⟨fun _ => rfl, hc⟩
    · exact ih0 h0 q hq
    · exact ih1 h1 q hq
    · exact ih2 h2 q hq
    · exact ih3 h3 q hq

theorem halved_congr {d e : PatchFields F} {c0 c1 c2 c3 : TerrainPatch F}
    (hg : e.geometry = d.geometry) (hp : (TerrainPatch.node d c0 c1 c2 c3).Halved) :
    (TerrainPatch.node e c0 c1 c2 c3).Halved := by
  obtain ⟨-, -, hl, hw, -, -⟩ := geometry_components hg
  obtain ⟨hc, h0, h1, h2, h3⟩ := hp
  refine ⟨fun c hcm => ?_, h0, h1, h2, h3⟩
  rw [hl, hw]
  exact hc c hcm

theorem updateSelf_halved (env : Env F) (cameraPos : V3 F) (w : World) (p : TerrainPatch F)
    (hp : p.Halved) : (updateSelf env cameraPos w p).2.Halved := by
  cases p with
  | leaf d =>
    simp only [updateSelf]
    split_ifs
    · refine ⟨fun c hc => ?_, trivial, trivial, trivial, trivial⟩
      simp only [List.mem_cons, List.mem_singleton, List.not_mem_nil, or_false] at hc
      rcases hc with rfl | rfl | rfl | rfl
      all_goals
        exact ⟨(newChild_geometry env _ _ _).2.1, (newChild_geometry env _ _ _).2.2.1⟩
    all_goals trivial
  | node d c0 c1 c2 c3 =>
    have hg := updateSelf_geometry env cameraPos w (.node d c0 c1 c2 c3)
    by_cases hfar : (calculateClosestPointAndDist env cameraPos w d).2.m_distance >
      (calculateClosestPointAndDist env cameraPos w d).2.m_width * DIST_MAX
    · rw [updateSelf_node_far env cameraPos w d c0 c1 c2 c3 hfar] at hg ⊢
      split_ifs with hr
      · trivial
      · rw [if_neg hr] at hg
        exact halved_congr hg hp
    · cases hm : d.m_mesh with
      | none =>
        rw [updateSelf_node_near_none env cameraPos w d c0 c1 c2 c3 hfar hm]
        exact halved_congr rfl hp
      | some h =>
        rw [updateSelf_node_near_some env cameraPos w d c0 c1 c2 c3 h hfar hm]
        split_ifs
        · exact halved_congr rfl hp
        · exact halved_congr rfl hp

theorem update_halved (env : Env F) (cameraPos : V3 F) (w : World) (p : TerrainPatch F) :
    p.Halved → (update env cameraPos w p).2.Halved := by
  induction w, p using update.induct env cameraPos with
  | case1 w p w1 d h =>
    intro _
    rw [update_eq, h]
    trivial
  | case2 w p w1 d c0 c1 c2 c3 h r0 r1 r2 ih0 ih1 _ ih2 _ ih3 =>
    intro hp
    have hs := updateSelf_halved env cameraPos w p hp
    rw [h] at hs
    obtain ⟨hc, h0, h1, h2, h3⟩ := hs
    rw [update_eq, h]
    simp only [updateChildren]
    refine ⟨fun c hcm => ?_, ih0 h0, ih1 h1, ih2 h2, ih3 h3⟩
    simp only [List.mem_cons, List.mem_singleton, List.not_mem_nil, or_false] at hcm
    have key : ∀ (w2 : World) (c1 : TerrainPatch F),
        c1.fields.m_lod = d.m_lod + 1 ∧ c1.fields.m_width = d.m_width / 2 →
        (update env cameraPos w2 c1).2.fields.m_lod = d.m_lod + 1 ∧
          (update env cameraPos w2 c1).2.fields.m_width = d.m_width / 2 := by
      intro w2 c1 hc1
      obtain ⟨-, -, hl, hw, -, -⟩ := geometry_components (update_geometry env cameraPos w2 c1)
      rw [hl, hw]
      exact hc1
    rcases hcm with rfl | rfl | rfl | rfl
    · exact key _ _ (hc c0 (by simp))
    · exact key _ _ (hc c1 (by simp))
    · exact key _ _ (hc c2 (by simp))
    · exact key _ _ (hc c3 (by simp))

theorem reachable_halved (E : Env F → Prop) (A : World → World → Prop) (w : World)
    (p : TerrainPatch F) (hr : Reachable E A w p) : p.Halved := by
  induction hr with
  | init env w gridPosition cubeFace lod width _ => trivial
  | update env cameraPos w p _ _ ih => exact update_halved env cameraPos w p ih
  | async w w1 p _ _ ih => exact ih

/-- C9 (subdivision monotonicity): in every tree reachable from a freshly
initialised root patch by update calls, whatever the environments and whatever
the other threads do to the mesh store in between, every patch that has children
has exactly 4, and every child has the level of its parent plus one and half the
width of its parent. -/
theorem reachable_children (E : Env F → Prop) (A : World → World → Prop) (w : World)
    (p : TerrainPatch F) (hr : Reachable E A w p) :
    ∀ q ∈ p.nodes,
      (q.hasChildren = true → q.children.length = 4) ∧
        ∀ c ∈ q.children,
          c.fields.m_lod = q.fields.m_lod + 1 ∧ c.fields.m_width = q.fields.m_width / 2 :=
  halved_nodes p (reachable_halved E A w p hr)

end Shape


theorem reachable_children_witness :
    Reachable (fun _ => True) (fun _ _ => True)
        (update (demoEnv ⟨Real.sqrt, Real.arccos⟩ 10) ⟨0, 2, 0⟩ (demoWorld 0 fun _ => false)
          ((TerrainPatch.fresh (demoEnv ⟨Real.sqrt, Real.arccos⟩ 10)).init
            (demoEnv ⟨Real.sqrt, Real.arccos⟩ 10) ⟨0, 0⟩ 0 0 1)).1
        (update (demoEnv ⟨Real.sqrt, Real.arccos⟩ 10) ⟨0, 2, 0⟩ (demoWorld 0 fun _ => false)
          ((TerrainPatch.fresh (demoEnv ⟨Real.sqrt, Real.arccos⟩ 10)).init
            (demoEnv ⟨Real.sqrt, Real.arccos⟩ 10) ⟨0, 0⟩ 0 0 1)).2 ∧
      ∀ q ∈ (update (demoEnv ⟨Real.sqrt, Real.arccos⟩ 10) ⟨0, 2, 0⟩
          (demoWorld 0 fun _ => false)
          ((TerrainPatch.fresh (demoEnv ⟨Real.sqrt, Real.arccos⟩ 10)).init
            (demoEnv ⟨Real.sqrt, Real.arccos⟩ 10) ⟨0, 0⟩ 0 0 1)).2.nodes,
        (q.hasChildren = true → q.children.length = 4) ∧
          ∀ c ∈ q.children,
            c.fields.m_lod = q.fields.m_lod + 1 ∧ c.fields.m_width = q.fields.m_width / 2 :=
  ⟨Reachable.update _ _ _ _ trivial
      (Reachable.init (demoEnv ⟨Real.sqrt, Real.arccos⟩ 10) (demoWorld 0 fun _ => false)
        ⟨0, 0⟩ 0 0 1 trivial),
    reachable_children (fun _ => True) (fun _ _ => True) _ _
      (Reachable.update _ _ _ _ trivial
        (Reachable.init (demoEnv ⟨Real.sqrt, Real.arccos⟩ 10) (demoWorld 0 fun _ => false)
          ⟨0, 0⟩ 0 0 1 trivial))⟩

/-! ## The bounding box of `init` -/

section Box
variable {F : Type} [LinearOrderedField F]

/-- The box that `init` stores is the box of the scan over its four corners. -/
theorem init_aabb (env : Env F) (self : TerrainPatch F) (gridPosition : V2 F)
    (cubeFace : WorldCubeFace) (lod : Int) (width : F) :
    ((self.init env gridPosition cubeFace lod width).fields.m_aabbPos,
        (self.init env gridPosition cubeFace lod width).fields.m_aabbDims) =
      aabbOfCorners (patchCorners env cubeFace gridPosition width) := by
  cases self <;> rfl

end Box

/-- The scan on one axis when the first corner is the largest, the next two are
each smaller than the one before and the last is not below the third: the
minimum is the third value and the maximum is the last one, not the first. -/
theorem scan_descending (a b c d : ℝ) (ha : a < INT_MAX) (hab : b < a) (hbc : c < b)
    (hcd : c ≤ d) (hd : INT_MIN < d) :
    MinMax.scan [a, b, c, d] = ⟨c, d⟩ := by
  simp only [MinMax.scan, List.foldl_cons, List.foldl_nil, MinMax.step, if_pos ha, if_pos hab,
    if_pos hbc, if_neg (not_lt.mpr hcd)]
  rw [if_pos hd]

theorem demo_corner (M : Int) (gx gz : ℝ) :
    corner (demoEnv ⟨Real.sqrt, Real.arccos⟩ M) 0 gx gz =
      ⟨gx / Real.sqrt (gx * gx + 1 + gz * gz), 1 / Real.sqrt (gx * gx + 1 + gz * gz),
        gz / Real.sqrt (gx * gx + 1 + gz * gz)⟩ := by
  simp [corner, demoEnv, V3.set, V3.zero, FloatMath.normalize, FloatMath.length, V3.divScalar,
    V3.scale, V3.dot]

/-- C13, the failing input: top face with the identity coordinate tables, radius
1, grid position `(0, 0)`, width 1. Corner 0 is projected to `(0, 1, 0)`, and the
top of the box that `init` stores, `aabbPos.y + aabbDims.y`, is `1 / √2`, which
is below that corner. -/
theorem init_box_misses_corner :
    (patchCorners (demoEnv ⟨Real.sqrt, Real.arccos⟩ 10) 0 ⟨0, 0⟩ (1 : ℝ)).head? =
        some ⟨0, 1, 0⟩ ∧
      ((TerrainPatch.fresh (demoEnv ⟨Real.sqrt, Real.arccos⟩ 10)).init
            (demoEnv ⟨Real.sqrt, Real.arccos⟩ 10) ⟨0, 0⟩ 0 0 1).fields.m_aabbPos.y +
          ((TerrainPatch.fresh (demoEnv ⟨Real.sqrt, Real.arccos⟩ 10)).init
            (demoEnv ⟨Real.sqrt, Real.arccos⟩ 10) ⟨0, 0⟩ 0 0 1).fields.m_aabbDims.y =
        1 / Real.sqrt 2 ∧
      1 / Real.sqrt 2 < (1 : ℝ) := by
  have h2 : (1 : ℝ) < Real.sqrt 2 := by
    rw [show (1 : ℝ) = Real.sqrt 1 by simp]
    exact Real.sqrt_lt_sqrt (by norm_num) (by norm_num)
  have h23 : Real.sqrt 2 < Real.sqrt 3 := Real.sqrt_lt_sqrt (by norm_num) (by norm_num)
  have hlt : 1 / Real.sqrt 2 < (1 : ℝ) := by
    rw [div_lt_one (by linarith)]
    exact h2
  have hys : (patchCorners (demoEnv ⟨Real.sqrt, Real.arccos⟩ 10) 0 ⟨0, 0⟩ (1 : ℝ)).map V3.y =
      [1, 1 / Real.sqrt 2, 1 / Real.sqrt 3, 1 / Real.sqrt 2] := by
    simp only [patchCorners, demo_corner, List.map_cons, List.map_nil]
    norm_num
  have hscan := scan_descending 1 (1 / Real.sqrt 2) (1 / Real.sqrt 3) (1 / Real.sqrt 2)
    (by norm_num [INT_MAX]) hlt
    (by
      apply one_div_lt_one_div_of_lt (by linarith) h23)
    (by
      apply one_div_le_one_div_of_le (by linarith) h23.le)
    (by
      have : (0 : ℝ) < 1 / Real.sqrt 2 := by positivity
      have hm : (INT_MIN : ℝ) < 0 := by norm_num [INT_MIN]
      linarith)
  refine ⟨?_, ?_, hlt⟩
  · simp only [patchCorners, demo_corner, List.head?_cons]
    norm_num
  · have hb := init_aabb (demoEnv ⟨Real.sqrt, Real.arccos⟩ 10)
      (TerrainPatch.fresh (demoEnv ⟨Real.sqrt, Real.arccos⟩ 10)) ⟨0, 0⟩ 0 0 (1 : ℝ)
    have hp := congrArg (fun b => b.1.y + b.2.y) hb
    simp only [aabbOfCorners, hys, hscan] at hp
    rw [hp]
    ring

/-! ## The horizon test at the boundary and below the surface -/

section Horizon

/-- Where the checked computation produces a value, it is the value of
`isOverHorizon`. -/
theorem isOverHorizonChecked_eq_some {F : Type} [LinearOrderedField F] (m : FloatMath F)
    (cam point : V3 F) (r : F) (b : Bool) (h : isOverHorizonChecked m cam point r = some b) :
    isOverHorizon m cam point r = b := by
  simp only [isOverHorizonChecked] at h
  simp only [isOverHorizon]
  by_cases hc : m.length cam < r + 1.0
  · simp only [if_pos hc] at h ⊢
    split_ifs at h ⊢ <;> simp_all
  · simp only [if_neg hc] at h ⊢
    split_ifs at h ⊢ <;> simp_all

theorem real_length_nonneg (v : V3 ℝ) : 0 ≤ FloatMath.length ⟨Real.sqrt, Real.arccos⟩ v :=
  Real.sqrt_nonneg _

theorem real_length_pos (v : V3 ℝ) (hv : v ≠ ⟨0, 0, 0⟩) :
    0 < FloatMath.length ⟨Real.sqrt, Real.arccos⟩ v := by
  rw [real_length]
  apply Real.sqrt_pos.mpr
  rcases v with ⟨x, y, z⟩
  have h : x ≠ 0 ∨ y ≠ 0 ∨ z ≠ 0 := by
    by_contra hc
    push_neg at hc
    obtain ⟨rfl, rfl, rfl⟩ := hc
    exact hv rfl
  dsimp only
  rcases h with h | h | h
  · nlinarith [mul_self_pos.mpr h, mul_self_nonneg y, mul_self_nonneg z]
  · nlinarith [mul_self_pos.mpr h, mul_self_nonneg x, mul_self_nonneg z]
  · nlinarith [mul_self_pos.mpr h, mul_self_nonneg y, mul_self_nonneg x]

/-- The inequality of Cauchy and Schwarz for `glm::dot`. -/
theorem dot_mul_self_le (a b : V3 ℝ) :
    V3.dot a b * V3.dot a b ≤ V3.dot a a * V3.dot b b := by
  simp only [V3.dot]
  nlinarith [sq_nonneg (a.x * b.y - a.y * b.x), sq_nonneg (a.x * b.z - a.z * b.x),
    sq_nonneg (a.y * b.z - a.z * b.y)]

theorem abs_dot_le (a b : V3 ℝ) :
    |V3.dot a b| ≤ FloatMath.length ⟨Real.sqrt, Real.arccos⟩ a *
      FloatMath.length ⟨Real.sqrt, Real.arccos⟩ b := by
  have h := dot_mul_self_le a b
  rw [← real_length_mul_self a, ← real_length_mul_self b] at h
  have hn := mul_nonneg (real_length_nonneg a) (real_length_nonneg b)
  apply abs_le_of_sq_le_sq _ hn
  nlinarith

/-- The argument that `isOverHorizon` passes to the second `acos` lies in
`[-1, 1]` when neither vector is zero. -/
theorem dot_normalized_mem (cam point : V3 ℝ) (hcam : cam ≠ ⟨0, 0, 0⟩)
    (hpoint : point ≠ ⟨0, 0, 0⟩) :
    -1 ≤ V3.dot (FloatMath.normalize ⟨Real.sqrt, Real.arccos⟩ cam)
        (FloatMath.normalize ⟨Real.sqrt, Real.arccos⟩ point) ∧
      V3.dot (FloatMath.normalize ⟨Real.sqrt, Real.arccos⟩ cam)
        (FloatMath.normalize ⟨Real.sqrt, Real.arccos⟩ point) ≤ 1 := by
  have hp := mul_pos (real_length_pos cam hcam) (real_length_pos point hpoint)
  have h := abs_le.mp (abs_dot_le cam point)
  rw [show FloatMath.normalize ⟨Real.sqrt, Real.arccos⟩ cam =
    cam.divScalar (FloatMath.length ⟨Real.sqrt, Real.arccos⟩ cam) from rfl, dot_normalized]
  constructor
  · rw [le_div_iff₀ hp]
    linarith
  · rw [div_le_one hp]
    exact h.2

/-- The value of `isOverHorizon` over exact real arithmetic, in the terms of
its own statements. -/
theorem isOverHorizon_ge (cam point : V3 ℝ) (r : ℝ) :
    isOverHorizon ⟨Real.sqrt, Real.arccos⟩ cam point r = true ↔
      Real.arccos (V3.dot (FloatMath.normalize ⟨Real.sqrt, Real.arccos⟩ cam)
          (FloatMath.normalize ⟨Real.sqrt, Real.arccos⟩ point)) ≥
        Real.arccos (r / max (FloatMath.length ⟨Real.sqrt, Real.arccos⟩ cam) (r + 1)) + 0.1 := by
  rw [isOverHorizon_real, zenithAngle,
    show FloatMath.normalize ⟨Real.sqrt, Real.arccos⟩ cam =
      cam.divScalar (FloatMath.length ⟨Real.sqrt, Real.arccos⟩ cam) from rfl, dot_normalized]

end Horizon

section HorizonClaims

/-- For a camera and a point away from the planet centre and a radius that is not
negative, no division of `isOverHorizon` has the divisor zero and both arguments
of `acos` lie in `[-1, 1]`. -/
theorem isOverHorizonChecked_real (cam point : V3 ℝ) (r : ℝ) (hcam : cam ≠ ⟨0, 0, 0⟩)
    (hpoint : point ≠ ⟨0, 0, 0⟩) (hr : 0 ≤ r) :
    isOverHorizonChecked ⟨Real.sqrt, Real.arccos⟩ cam point r =
      some (isOverHorizon ⟨Real.sqrt, Real.arccos⟩ cam point r) := by
  have hc := real_length_pos cam hcam
  have hp := real_length_pos point hpoint
  have hd := dot_normalized_mem cam point hcam hpoint
  rw [show FloatMath.normalize ⟨Real.sqrt, Real.arccos⟩ cam =
    cam.divScalar (FloatMath.length ⟨Real.sqrt, Real.arccos⟩ cam) from rfl] at hd
  have hclamp : ∀ x : ℝ, x = (if FloatMath.length ⟨Real.sqrt, Real.arccos⟩ cam < r + 1.0
      then r + 1.0 else FloatMath.length ⟨Real.sqrt, Real.arccos⟩ cam) →
      x ≠ 0 ∧ ¬ (r / x < -1 ∨ 1 < r / x) := by
    intro x hx
    have hx1 : r + 1 ≤ x := by
      rw [hx]
      split_ifs with h
      · norm_num
      · norm_num at h
        exact h
    have hx0 : 0 < x := by linarith
    refine ⟨hx0.ne', ?_⟩
    push_neg
    constructor
    · have : 0 ≤ r / x := div_nonneg hr hx0.le
      linarith
    · rw [div_le_one hx0]
      linarith
  have h1 := hclamp _ rfl
  simp only [isOverHorizonChecked, isOverHorizon, if_neg hc.ne', if_neg hp.ne', if_neg h1.1,
    if_neg h1.2, if_neg (not_or.mpr ⟨not_lt.mpr hd.1, not_lt.mpr hd.2⟩)]

theorem boundary_angle_mem :
    0 ≤ Real.arccos (1 / 2) + 0.1 ∧ Real.arccos (1 / 2) + 0.1 ≤ Real.pi := by
  have h1 := Real.arccos_nonneg (1 / 2)
  have h2 : Real.arccos (1 / 2) ≤ Real.pi / 2 := Real.arccos_le_pi_div_two.mpr (by norm_num)
  have h3 := Real.pi_gt_three
  constructor
  · linarith
  · norm_num
    linarith

/-- The two angles that `isOverHorizon` compares, for the camera `(0, 2, 0)`
above a planet of radius 1 and the unit vector at angle `t` from the camera
direction. -/
theorem boundary_angles (t : ℝ) (h0 : 0 ≤ t) (hpi : t ≤ Real.pi) :
    Real.arccos (V3.dot (FloatMath.normalize ⟨Real.sqrt, Real.arccos⟩ (⟨0, 2, 0⟩ : V3 ℝ))
        (FloatMath.normalize ⟨Real.sqrt, Real.arccos⟩ ⟨Real.sin t, Real.cos t, 0⟩)) = t ∧
      Real.arccos (1 / max (FloatMath.length ⟨Real.sqrt, Real.arccos⟩ (⟨0, 2, 0⟩ : V3 ℝ)) (1 + 1)) =
        Real.arccos (1 / 2) := by
  have hl : FloatMath.length ⟨Real.sqrt, Real.arccos⟩ (⟨0, 2, 0⟩ : V3 ℝ) = 2 := by
    rw [real_length]
    norm_num
    exact sqrt_four
  have hp : FloatMath.length ⟨Real.sqrt, Real.arccos⟩ (⟨Real.sin t, Real.cos t, 0⟩ : V3 ℝ) = 1 := by
    rw [real_length]
    have : Real.sin t * Real.sin t + Real.cos t * Real.cos t + 0 * 0 = 1 := by
      have := Real.sin_sq_add_cos_sq t
      nlinarith
    rw [this, Real.sqrt_one]
  constructor
  · simp only [FloatMath.normalize, hl, hp, V3.divScalar, V3.dot]
    norm_num
    exact Real.arccos_cos h0 hpi
  · rw [hl]
    norm_num

/-- C11 (amended): for every non-zero camera position, non-zero point and radius
that is not negative, `isOverHorizon` (over exact real arithmetic, one text for
the single- and the double-precision variant) evaluates without a division by
zero and with both `acos` arguments in `[-1, 1]`, and it returns true if and only
if the angle `acos(dot(normalize(cameraPos), normalize(point)))` is greater than
or equal to the horizon angle `acos(radius / max(cameraHeight, radius + 1))` plus
`DELTA = 0.1`. -/
theorem isOverHorizon_iff (cam point : V3 ℝ) (r : ℝ) (hcam : cam ≠ ⟨0, 0, 0⟩)
    (hpoint : point ≠ ⟨0, 0, 0⟩) (hr : 0 ≤ r) :
    isOverHorizonChecked ⟨Real.sqrt, Real.arccos⟩ cam point r =
        some (isOverHorizon ⟨Real.sqrt, Real.arccos⟩ cam point r) ∧
      (isOverHorizon ⟨Real.sqrt, Real.arccos⟩ cam point r = true ↔
        Real.arccos (V3.dot (FloatMath.normalize ⟨Real.sqrt, Real.arccos⟩ cam)
            (FloatMath.normalize ⟨Real.sqrt, Real.arccos⟩ point)) ≥
          Real.arccos (r / max (FloatMath.length ⟨Real.sqrt, Real.arccos⟩ cam) (r + 1)) + 0.1) :=
  ⟨isOverHorizonChecked_real cam point r hcam hpoint hr, isOverHorizon_ge cam point r⟩

theorem isOverHorizon_iff_witness :
    ((⟨0, 2, 0⟩ : V3 ℝ) ≠ ⟨0, 0, 0⟩ ∧ (⟨0, -1, 0⟩ : V3 ℝ) ≠ ⟨0, 0, 0⟩ ∧ (0 : ℝ) ≤ 1) ∧
      isOverHorizonChecked ⟨Real.sqrt, Real.arccos⟩ ⟨0, 2, 0⟩ ⟨0, -1, 0⟩ (1 : ℝ) =
        some (isOverHorizon ⟨Real.sqrt, Real.arccos⟩ ⟨0, 2, 0⟩ ⟨0, -1, 0⟩ (1 : ℝ)) ∧
      (isOverHorizon ⟨Real.sqrt, Real.arccos⟩ ⟨0, 2, 0⟩ ⟨0, -1, 0⟩ (1 : ℝ) = true ↔
        Real.arccos (V3.dot (FloatMath.normalize ⟨Real.sqrt, Real.arccos⟩ (⟨0, 2, 0⟩ : V3 ℝ))
            (FloatMath.normalize ⟨Real.sqrt, Real.arccos⟩ ⟨0, -1, 0⟩)) ≥
          Real.arccos (1 / max (FloatMath.length ⟨Real.sqrt, Real.arccos⟩ (⟨0, 2, 0⟩ : V3 ℝ))
            (1 + 1)) + 0.1) := by
  have h1 : (⟨0, 2, 0⟩ : V3 ℝ) ≠ ⟨0, 0, 0⟩ := by
    intro h
    have := congrArg V3.y h
    norm_num at this
  have h2 : (⟨0, -1, 0⟩ : V3 ℝ) ≠ ⟨0, 0, 0⟩ := by
    intro h
    have := congrArg V3.y h
    norm_num at this
  exact ⟨⟨h1, h2, by norm_num⟩, isOverHorizon_iff ⟨0, 2, 0⟩ ⟨0, -1, 0⟩ 1 h1 h2 (by norm_num)⟩

/-- C11, counterexample: the camera at `(0, 2, 0)` above a planet of radius 1 and
the unit vector at angle `acos(1/2) + 0.1` from the camera direction. The angle
of the point equals the horizon angle plus `DELTA`, it does not exceed it, and
`isOverHorizon` returns true. -/
theorem isOverHorizon_boundary :
    isOverHorizon ⟨Real.sqrt, Real.arccos⟩ ⟨0, 2, 0⟩
        ⟨Real.sin (Real.arccos (1 / 2) + 0.1), Real.cos (Real.arccos (1 / 2) + 0.1), 0⟩
        (1 : ℝ) = true ∧
      ¬ (Real.arccos (V3.dot (FloatMath.normalize ⟨Real.sqrt, Real.arccos⟩ (⟨0, 2, 0⟩ : V3 ℝ))
          (FloatMath.normalize ⟨Real.sqrt, Real.arccos⟩
            ⟨Real.sin (Real.arccos (1 / 2) + 0.1), Real.cos (Real.arccos (1 / 2) + 0.1), 0⟩)) >
        Real.arccos (1 / max (FloatMath.length ⟨Real.sqrt, Real.arccos⟩ (⟨0, 2, 0⟩ : V3 ℝ))
          (1 + 1)) + 0.1) := by
  have h := boundary_angles _ boundary_angle_mem.1 boundary_angle_mem.2
  refine ⟨?_, ?_⟩
  · rw [isOverHorizon_ge, h.1, h.2]
  · rw [h.1, h.2]
    exact lt_irrefl _

theorem ne_zero_of_length_ne_zero (v : V3 ℝ)
    (h : FloatMath.length ⟨Real.sqrt, Real.arccos⟩ v ≠ 0) : v ≠ ⟨0, 0, 0⟩ := by
  rintro rfl
  apply h
  rw [real_length]
  norm_num

/-- C12 (amended): over exact real arithmetic, for every planet radius that is
not negative, every non-zero surface point and every camera position whose
height is not zero and is at or below the planet radius, `isOverHorizon` clamps
the camera height to `radius + 1` and evaluates with no division by zero and
with both `acos` arguments inside `[-1, 1]`, using the horizon angle
`acos(radius / (radius + 1))`. -/
theorem isOverHorizon_below_surface (cam point : V3 ℝ) (r : ℝ) (hr : 0 ≤ r)
    (hpoint : point ≠ ⟨0, 0, 0⟩)
    (hcam : FloatMath.length ⟨Real.sqrt, Real.arccos⟩ cam ≠ 0)
    (hlow : FloatMath.length ⟨Real.sqrt, Real.arccos⟩ cam ≤ r) :
    (∃ b, isOverHorizonChecked ⟨Real.sqrt, Real.arccos⟩ cam point r = some b ∧
        (b = true ↔
          Real.arccos (V3.dot (FloatMath.normalize ⟨Real.sqrt, Real.arccos⟩ cam)
              (FloatMath.normalize ⟨Real.sqrt, Real.arccos⟩ point)) ≥
            Real.arccos (r / (r + 1)) + 0.1)) ∧
      (if FloatMath.length ⟨Real.sqrt, Real.arccos⟩ cam < r + 1.0 then r + 1.0
        else FloatMath.length ⟨Real.sqrt, Real.arccos⟩ cam) = r + 1 ∧
      (-1 ≤ r / (r + 1) ∧ r / (r + 1) ≤ 1) ∧
      (-1 ≤ V3.dot (FloatMath.normalize ⟨Real.sqrt, Real.arccos⟩ cam)
          (FloatMath.normalize ⟨Real.sqrt, Real.arccos⟩ point) ∧
        V3.dot (FloatMath.normalize ⟨Real.sqrt, Real.arccos⟩ cam)
          (FloatMath.normalize ⟨Real.sqrt, Real.arccos⟩ point) ≤ 1) := by
  have hcam0 := ne_zero_of_length_ne_zero cam hcam
  have hmax : max (FloatMath.length ⟨Real.sqrt, Real.arccos⟩ cam) (r + 1) = r + 1 :=
    max_eq_right (by linarith)
  have hpos : 0 < r + 1 := by linarith
  refine ⟨⟨_, isOverHorizonChecked_real cam point r hcam0 hpoint hr, ?_⟩, ?_, ⟨?_, ?_⟩,
    dot_normalized_mem cam point hcam0 hpoint⟩
  · rw [isOverHorizon_ge, hmax]
  · rw [if_pos (by norm_num; linarith)]
    norm_num
  · have : 0 ≤ r / (r + 1) := div_nonneg hr hpos.le
    linarith
  · rw [div_le_one hpos]
    linarith

theorem isOverHorizon_below_surface_witness :
    ((0 : ℝ) ≤ 2 ∧ (⟨0, 1, 0⟩ : V3 ℝ) ≠ ⟨0, 0, 0⟩ ∧
        FloatMath.length ⟨Real.sqrt, Real.arccos⟩ (⟨0, 2, 0⟩ : V3 ℝ) ≠ 0 ∧
        FloatMath.length ⟨Real.sqrt, Real.arccos⟩ (⟨0, 2, 0⟩ : V3 ℝ) ≤ 2) ∧
      (∃ b, isOverHorizonChecked ⟨Real.sqrt, Real.arccos⟩ ⟨0, 2, 0⟩ ⟨0, 1, 0⟩ (2 : ℝ) = some b ∧
        (b = true ↔
          Real.arccos (V3.dot (FloatMath.normalize ⟨Real.sqrt, Real.arccos⟩ (⟨0, 2, 0⟩ : V3 ℝ))
              (FloatMath.normalize ⟨Real.sqrt, Real.arccos⟩ ⟨0, 1, 0⟩)) ≥
            Real.arccos (2 / (2 + 1)) + 0.1)) := by
  have h1 : (⟨0, 1, 0⟩ : V3 ℝ) ≠ ⟨0, 0, 0⟩ := by
    intro h
    have := congrArg V3.y h
    norm_num at this
  have hl : FloatMath.length ⟨Real.sqrt, Real.arccos⟩ (⟨0, 2, 0⟩ : V3 ℝ) = 2 := by
    rw [real_length]
    norm_num
    exact sqrt_four
  have h2 : FloatMath.length ⟨Real.sqrt, Real.arccos⟩ (⟨0, 2, 0⟩ : V3 ℝ) ≠ 0 := by
    rw [hl]
    norm_num
  exact ⟨⟨by norm_num, h1, h2, hl.le⟩,
    (isOverHorizon_below_surface ⟨0, 2, 0⟩ ⟨0, 1, 0⟩ 2 (by norm_num) h1 h2 hl.le).1⟩

/-- C12, counterexample: the camera at the planet centre (height 0, below the
radius 1). The camera position is divided by its height before the height is
clamped, so the first division of `isOverHorizon` has the divisor zero, in exact
arithmetic as in floating point. -/
theorem isOverHorizon_at_centre :
    FloatMath.length ⟨Real.sqrt, Real.arccos⟩ (⟨0, 0, 0⟩ : V3 ℝ) = 0 ∧
      (⟨0, 1, 0⟩ : V3 ℝ) ≠ ⟨0, 0, 0⟩ ∧
      isOverHorizonChecked ⟨Real.sqrt, Real.arccos⟩ ⟨0, 0, 0⟩ ⟨0, 1, 0⟩ (1 : ℝ) = none := by
  have hl : FloatMath.length ⟨Real.sqrt, Real.arccos⟩ (⟨0, 0, 0⟩ : V3 ℝ) = 0 := by
    rw [real_length]
    norm_num
  refine ⟨hl, ?_, ?_⟩
  · intro h
    have := congrArg V3.y h
    norm_num at this
  · simp only [isOverHorizonChecked, hl, if_true]

end HorizonClaims

/-! ## Renderability of subdivided patches -/

section Propagation
variable {F : Type} [LinearOrderedField F]

theorem isRenderable_of_hasMesh (w : World) (p : TerrainPatch F)
    (hm : hasMesh w p.fields = true) : isRenderable w p = true := by
  cases p with
  | leaf d => simp only [isRenderable, TerrainPatch.fields] at hm ⊢; simp [hm]
  | node d c0 c1 c2 c3 => simp only [isRenderable, TerrainPatch.fields] at hm ⊢; simp [hm]

theorem isRenderable_node (w : World) (d : PatchFields F) (c0 c1 c2 c3 : TerrainPatch F) :
    isRenderable w (.node d c0 c1 c2 c3) =
      (hasMesh w d || allChildrenRenderable w c0 c1 c2 c3) := by
  simp only [isRenderable, allChildrenRenderable]
  cases hasMesh w d <;> simp

/-- C18 (amended): for every subdivided patch, `isRenderable()` is true if and
only if the patch holds a ready mesh or all 4 of its children are (recursively)
renderable, so for a subdivided patch without a ready mesh it is true if and only
if all 4 children are renderable; and every patch holding a ready mesh is
renderable whatever the state of its children. -/
theorem isRenderable_propagation (w : World) (p : TerrainPatch F) :
    (p.hasChildren = true →
        (isRenderable w p = true ↔
          hasMesh w p.fields = true ∨ ∀ c ∈ p.children, isRenderable w c = true)) ∧
      (p.hasChildren = true → hasMesh w p.fields = false →
        (isRenderable w p = true ↔ ∀ c ∈ p.children, isRenderable w c = true)) ∧
      (hasMesh w p.fields = true → isRenderable w p = true) := by
  have key : p.hasChildren = true →
      (isRenderable w p = true ↔
        hasMesh w p.fields = true ∨ ∀ c ∈ p.children, isRenderable w c = true) := by
    intro hc
    cases p with
    | leaf d => cases hc
    | node d c0 c1 c2 c3 =>
      rw [isRenderable_node, Bool.or_eq_true, allChildrenRenderable_iff]
      rfl
  refine ⟨key, fun hc hm => ?_, isRenderable_of_hasMesh w p⟩
  rw [key hc, hm]
  simp

theorem isRenderable_propagation_witness :
    (TerrainPatch.node (demoFields 0 (1 : ℚ) ⟨0, 1, 0⟩ none)
        (.leaf (demoFields 1 0.5 ⟨0, 1, 0⟩ (some 0)))
        (.leaf (demoFields 1 0.5 ⟨0, 1, 0⟩ (some 1)))
        (.leaf (demoFields 1 0.5 ⟨0, 1, 0⟩ (some 2)))
        (.leaf (demoFields 1 0.5 ⟨0, 1, 0⟩ none))).hasChildren = true ∧
      hasMesh (demoWorld 3 fun _ => true) (TerrainPatch.node (demoFields 0 (1 : ℚ) ⟨0, 1, 0⟩ none)
        (.leaf (demoFields 1 0.5 ⟨0, 1, 0⟩ (some 0)))
        (.leaf (demoFields 1 0.5 ⟨0, 1, 0⟩ (some 1)))
        (.leaf (demoFields 1 0.5 ⟨0, 1, 0⟩ (some 2)))
        (.leaf (demoFields 1 0.5 ⟨0, 1, 0⟩ none))).fields = false ∧
      (isRenderable (demoWorld 3 fun _ => true)
          (TerrainPatch.node (demoFields 0 (1 : ℚ) ⟨0, 1, 0⟩ none)
            (.leaf (demoFields 1 0.5 ⟨0, 1, 0⟩ (some 0)))
            (.leaf (demoFields 1 0.5 ⟨0, 1, 0⟩ (some 1)))
            (.leaf (demoFields 1 0.5 ⟨0, 1, 0⟩ (some 2)))
            (.leaf (demoFields 1 0.5 ⟨0, 1, 0⟩ none))) = true ↔
        ∀ c ∈ (TerrainPatch.node (demoFields 0 (1 : ℚ) ⟨0, 1, 0⟩ none)
            (.leaf (demoFields 1 0.5 ⟨0, 1, 0⟩ (some 0)))
            (.leaf (demoFields 1 0.5 ⟨0, 1, 0⟩ (some 1)))
            (.leaf (demoFields 1 0.5 ⟨0, 1, 0⟩ (some 2)))
            (.leaf (demoFields 1 0.5 ⟨0, 1, 0⟩ none))).children,
          isRenderable (demoWorld 3 fun _ => true) c = true) :=
  ⟨rfl, rfl, (isRenderable_propagation _ _).2.1 rfl rfl⟩

/-- C18, counterexample: a subdivided patch that holds a ready mesh and whose 4
children hold no mesh (the state right after a leaf with a ready mesh has been
subdivided). The patch is renderable and none of its children is. -/
theorem isRenderable_with_unready_children :
    (TerrainPatch.node (demoFields 0 (1 : ℚ) ⟨0, 1, 0⟩ (some 0))
        (.leaf (demoFields 1 0.5 ⟨0, 1, 0⟩ none))
        (.leaf (demoFields 1 0.5 ⟨0, 1, 0⟩ none))
        (.leaf (demoFields 1 0.5 ⟨0, 1, 0⟩ none))
        (.leaf (demoFields 1 0.5 ⟨0, 1, 0⟩ none))).hasChildren = true ∧
      isRenderable (demoWorld 1 fun _ => true)
        (TerrainPatch.node (demoFields 0 (1 : ℚ) ⟨0, 1, 0⟩ (some 0))
          (.leaf (demoFields 1 0.5 ⟨0, 1, 0⟩ none))
          (.leaf (demoFields 1 0.5 ⟨0, 1, 0⟩ none))
          (.leaf (demoFields 1 0.5 ⟨0, 1, 0⟩ none))
          (.leaf (demoFields 1 0.5 ⟨0, 1, 0⟩ none))) = true ∧
      ¬ (∀ c ∈ (TerrainPatch.node (demoFields 0 (1 : ℚ) ⟨0, 1, 0⟩ (some 0))
          (.leaf (demoFields 1 0.5 ⟨0, 1, 0⟩ none))
          (.leaf (demoFields 1 0.5 ⟨0, 1, 0⟩ none))
          (.leaf (demoFields 1 0.5 ⟨0, 1, 0⟩ none))
          (.leaf (demoFields 1 0.5 ⟨0, 1, 0⟩ none))).children,
        isRenderable (demoWorld 1 fun _ => true) c = true) := by
  refine ⟨rfl, rfl, ?_⟩
  intro h
  have := h (.leaf (demoFields 1 0.5 ⟨0, 1, 0⟩ none)) (by simp [TerrainPatch.children])
  simp [isRenderable, hasMesh, demoFields] at this

end Propagation

/-! ## Destruction -/

section Destroy
variable {F : Type} [LinearOrderedField F]

theorem markMesh_mesh (w : World) (m : Option MeshPtr) (h : MeshPtr) :
    (markMesh w m).mesh h =
      if h ∈ m.toList then { w.mesh h with m_shouldDelete := true } else w.mesh h := by
  cases m with
  | none => simp [markMesh]
  | some k =>
    by_cases hk : h = k
    · subst hk
      simp [markMesh, World.setShouldDelete]
    · simp [markMesh, World.setShouldDelete, Function.update_noteq hk, hk]

/-- The mesh store after `destroy`: the deletion flag is set on the meshes whose
handle is held in the tree, and nothing else changes. -/
theorem destroy_mesh (w : World) (p : TerrainPatch F) (h : MeshPtr) :
    (destroy w p).1.mesh h =
      if h ∈ p.ptrs then { w.mesh h with m_shouldDelete := true } else w.mesh h := by
  induction p generalizing w with
  | leaf d => exact markMesh_mesh w d.m_mesh h
  | node d c0 c1 c2 c3 ih0 ih1 ih2 ih3 =>
    simp only [destroy, ih0, ih1, ih2, ih3, markMesh_mesh, TerrainPatch.ptrs, List.mem_append]
    by_cases h0 : h ∈ c0.ptrs <;> by_cases h1 : h ∈ c1.ptrs <;> by_cases h2 : h ∈ c2.ptrs <;>
      by_cases h3 : h ∈ c3.ptrs <;> by_cases hd : h ∈ d.m_mesh.toList <;>
      simp [h0, h1, h2, h3, hd]

theorem destroy_snd (w : World) (p : TerrainPatch F) :
    (destroy w p).2 = .leaf { p.fields with m_mesh := none } := by
  cases p <;> rfl

/-- C14: `destroy()` leaves the patch with no mesh handle and no children (its
other data members are unchanged), sets the deletion flag on the mesh the patch
held and on every mesh held by a descendant, changes no other mesh and nothing
else of a flagged mesh, and is idempotent: a second call changes neither the
patch nor the mesh store. -/
theorem destroy_spec (w : World) (p : TerrainPatch F) :
    ((destroy w p).2.fields.m_mesh = none ∧ (destroy w p).2.hasChildren = false ∧
        (destroy w p).2.fields = { p.fields with m_mesh := none }) ∧
      (∀ h ∈ p.ptrs, ((destroy w p).1.mesh h).m_shouldDelete = true ∧
        ((destroy w p).1.mesh h).m_isRenderable = (w.mesh h).m_isRenderable) ∧
      (∀ h, h ∉ p.ptrs → (destroy w p).1.mesh h = w.mesh h) ∧
      (destroy w p).1.next = w.next ∧
      destroy (destroy w p).1 (destroy w p).2 = ((destroy w p).1, (destroy w p).2) := by
  refine ⟨?_, fun h hh => ?_, fun h hh => ?_, destroy_next w p, ?_⟩
  · rw [destroy_snd]
    exact ⟨rfl, rfl, rfl⟩
  · rw [destroy_mesh, if_pos hh]
    exact ⟨rfl, rfl⟩
  · rw [destroy_mesh, if_neg hh]
  · rw [destroy_snd]
    rfl

theorem destroy_spec_witness :
    (2 : MeshPtr) ∈ (TerrainPatch.node (demoFields 0 (1 : ℚ) ⟨0, 1, 0⟩ (some 0))
        (.leaf (demoFields 1 0.5 ⟨0, 1, 0⟩ (some 1)))
        (.leaf (demoFields 1 0.5 ⟨0, 1, 0⟩ (some 2)))
        (.leaf (demoFields 1 0.5 ⟨0, 1, 0⟩ none))
        (.leaf (demoFields 1 0.5 ⟨0, 1, 0⟩ (some 3)))).ptrs ∧
      ((destroy (demoWorld 4 fun _ => true)
        (TerrainPatch.node (demoFields 0 (1 : ℚ) ⟨0, 1, 0⟩ (some 0))
          (.leaf (demoFields 1 0.5 ⟨0, 1, 0⟩ (some 1)))
          (.leaf (demoFields 1 0.5 ⟨0, 1, 0⟩ (some 2)))
          (.leaf (demoFields 1 0.5 ⟨0, 1, 0⟩ none))
          (.leaf (demoFields 1 0.5 ⟨0, 1, 0⟩ (some 3))))).1.mesh 2).m_shouldDelete = true ∧
      ((demoWorld 4 fun _ => true).mesh 2).m_shouldDelete = false :=
  ⟨by simp [TerrainPatch.ptrs, demoFields],
    ((destroy_spec (demoWorld 4 fun _ => true)
      (TerrainPatch.node (demoFields 0 (1 : ℚ) ⟨0, 1, 0⟩ (some 0))
        (.leaf (demoFields 1 0.5 ⟨0, 1, 0⟩ (some 1)))
        (.leaf (demoFields 1 0.5 ⟨0, 1, 0⟩ (some 2)))
        (.leaf (demoFields 1 0.5 ⟨0, 1, 0⟩ none))
        (.leaf (demoFields 1 0.5 ⟨0, 1, 0⟩ (some 3))))).2.1 2
      (by simp [TerrainPatch.ptrs, demoFields])).1, rfl⟩

end Destroy

/-! ## Depth and size bound -/

section Bound
variable {F : Type} [LinearOrderedField F]

theorem limited_congr {M : Int} {d e : PatchFields F} {c0 c1 c2 c3 : TerrainPatch F}
    (hg : e.geometry = d.geometry) (hp : (TerrainPatch.node d c0 c1 c2 c3).Limited M) :
    (TerrainPatch.node e c0 c1 c2 c3).Limited M := by
  obtain ⟨-, -, hl, hw, -, -⟩ := geometry_components hg
  obtain ⟨hc, h0, h1, h2, h3⟩ := hp
  refine ⟨?_, h0, h1, h2, h3⟩
  rw [hl, hw]
  exact hc

theorem updateSelf_limited (env : Env F) (cameraPos : V3 F) (w : World) (p : TerrainPatch F)
    (hp : p.Limited env.PATCH_MAX_LOD) :
    (updateSelf env cameraPos w p).2.Limited env.PATCH_MAX_LOD := by
  cases p with
  | leaf d =>
    simp only [updateSelf]
    split_ifs with hcan
    · simp only [canSubdivide, Bool.and_eq_true, decide_eq_true_eq] at hcan
      exact ⟨⟨hcan.1.1, hcan.2⟩, trivial, trivial, trivial, trivial⟩
    all_goals trivial
  | node d c0 c1 c2 c3 =>
    have hg := updateSelf_geometry env cameraPos w (.node d c0 c1 c2 c3)
    by_cases hfar : (calculateClosestPointAndDist env cameraPos w d).2.m_distance >
      (calculateClosestPointAndDist env cameraPos w d).2.m_width * DIST_MAX
    · rw [updateSelf_node_far env cameraPos w d c0 c1 c2 c3 hfar] at hg ⊢
      split_ifs with hr
      · trivial
      · rw [if_neg hr] at hg
        exact limited_congr hg hp
    · cases hm : d.m_mesh with
      | none =>
        rw [updateSelf_node_near_none env cameraPos w d c0 c1 c2 c3 hfar hm]
        exact limited_congr rfl hp
      | some h =>
        rw [updateSelf_node_near_some env cameraPos w d c0 c1 c2 c3 h hfar hm]
        split_ifs
        · exact limited_congr rfl hp
        · exact limited_congr rfl hp

theorem update_limited (env : Env F) (cameraPos : V3 F) (w : World) (p : TerrainPatch F) :
    p.Limited env.PATCH_MAX_LOD → (update env cameraPos w p).2.Limited env.PATCH_MAX_LOD := by
  induction w, p using update.induct env cameraPos with
  | case1 w p w1 d h =>
    intro _
    rw [update_eq, h]
    trivial
  | case2 w p w1 d c0 c1 c2 c3 h r0 r1 r2 ih0 ih1 _ ih2 _ ih3 =>
    intro hp
    have hs := updateSelf_limited env cameraPos w p hp
    rw [h] at hs
    obtain ⟨hc, h0, h1, h2, h3⟩ := hs
    rw [update_eq, h]
    simp only [updateChildren]
    exact ⟨hc, ih0 h0, ih1 h1, ih2 h2, ih3 h3⟩

theorem reachable_limited (M : Int) (A : World → World → Prop) (w : World)
    (p : TerrainPatch F) (hr : Reachable (fun env => env.PATCH_MAX_LOD = M) A w p) :
    p.Limited M := by
  induction hr with
  | init env w gridPosition cubeFace lod width _ => trivial
  | update env cameraPos w p he _ ih =>
    have he1 : env.PATCH_MAX_LOD = M := he
    subst he1
    exact update_limited env cameraPos w p ih
  | async w w1 p _ _ ih => exact ih

/-- In a tree whose subdivided patches are below the level `M` and wider than
`MIN_SIZE`, and whose children are one level deeper and half as wide as their
parent, every patch is at level `M` at most when the root is, and every child is
wider than `MIN_SIZE / 2`. -/
theorem limited_nodes (M : Int) (p : TerrainPatch F) (hl : p.Limited M) (hh : p.Halved)
    (hroot : p.fields.m_lod ≤ M) :
    ∀ q ∈ p.nodes,
      q.fields.m_lod ≤ M ∧
        (q.hasChildren = true → q.fields.m_lod < M ∧ q.fields.m_width > MIN_SIZE) ∧
        ∀ c ∈ q.children, c.fields.m_width > MIN_SIZE / 2 := by
  induction p with
  | leaf d =>
    intro q hq
    simp only [TerrainPatch.nodes, List.mem_singleton] at hq
    subst hq
    refine ⟨hroot, fun hc => ?_, fun c hc => ?_⟩
    · simp [TerrainPatch.hasChildren] at hc
    · simp [TerrainPatch.children] at hc
  | node d c0 c1 c2 c3 ih0 ih1 ih2 ih3 =>
    obtain ⟨⟨hlod, hwid⟩, l0, l1, l2, l3⟩ := hl
    obtain ⟨hc, h0, h1, h2, h3⟩ := hh
    have hchild : ∀ c ∈ [c0, c1, c2, c3], c.fields.m_lod ≤ M := by
      intro c hcm
      rw [(hc c hcm).1]
      omega
    intro q hq
    simp only [TerrainPatch.nodes, List.mem_cons, List.mem_append] at hq
    rcases hq with rfl | ((hq | hq) | hq) | hq
    · refine ⟨hroot, fun _ => ⟨hlod, hwid⟩, fun c hcm => ?_⟩
      rw [(hc c hcm).2]
      exact div_lt_div_of_pos_right hwid (by norm_num)
    · exact ih0 l0 h0 (hchild c0 (by simp)) q hq
    · exact ih1 l1 h1 (hchild c1 (by simp)) q hq
    · exact ih2 l2 h2 (hchild c2 (by simp)) q hq
    · exact ih3 l3 h3 (hchild c3 (by simp)) q hq

/-- C17 (depth and size bound): in every tree reachable from a freshly
initialised root patch by update calls with the maximum level `M`, whatever the
other threads do to the mesh store in between, if the level of the root (which
no update changes) is `M` at most then every patch of the tree has a level of `M`
at most, every patch that has children has a level below `M` and a width above
`MIN_SIZE`, and every child is wider than `MIN_SIZE / 2`. -/
theorem reachable_bounded (M : Int) (A : World → World → Prop) (w : World)
    (p : TerrainPatch F) (hr : Reachable (fun env => env.PATCH_MAX_LOD = M) A w p)
    (hroot : p.fields.m_lod ≤ M) :
    ∀ q ∈ p.nodes,
      q.fields.m_lod ≤ M ∧
        (q.hasChildren = true → q.fields.m_lod < M ∧ q.fields.m_width > MIN_SIZE) ∧
        ∀ c ∈ q.children, c.fields.m_width > MIN_SIZE / 2 :=
  limited_nodes M p (reachable_limited M A w p hr)
    (reachable_halved (fun env => env.PATCH_MAX_LOD = M) A w p hr) hroot

end Bound

theorem reachable_bounded_witness :
    (Reachable (fun env => env.PATCH_MAX_LOD = 10) (fun _ _ => True)
        (update (demoEnv ⟨Real.sqrt, Real.arccos⟩ 10) ⟨0, 2, 0⟩ (demoWorld 0 fun _ => false)
          ((TerrainPatch.fresh (demoEnv ⟨Real.sqrt, Real.arccos⟩ 10)).init
            (demoEnv ⟨Real.sqrt, Real.arccos⟩ 10) ⟨0, 0⟩ 0 0 1)).1
        (update (demoEnv ⟨Real.sqrt, Real.arccos⟩ 10) ⟨0, 2, 0⟩ (demoWorld 0 fun _ => false)
          ((TerrainPatch.fresh (demoEnv ⟨Real.sqrt, Real.arccos⟩ 10)).init
            (demoEnv ⟨Real.sqrt, Real.arccos⟩ 10) ⟨0, 0⟩ 0 0 1)).2 ∧
      (update (demoEnv ⟨Real.sqrt, Real.arccos⟩ 10) ⟨0, 2, 0⟩ (demoWorld 0 fun _ => false)
          ((TerrainPatch.fresh (demoEnv ⟨Real.sqrt, Real.arccos⟩ 10)).init
            (demoEnv ⟨Real.sqrt, Real.arccos⟩ 10) ⟨0, 0⟩ 0 0 1)).2.fields.m_lod ≤ 10) ∧
      ∀ q ∈ (update (demoEnv ⟨Real.sqrt, Real.arccos⟩ 10) ⟨0, 2, 0⟩
          (demoWorld 0 fun _ => false)
          ((TerrainPatch.fresh (demoEnv ⟨Real.sqrt, Real.arccos⟩ 10)).init
            (demoEnv ⟨Real.sqrt, Real.arccos⟩ 10) ⟨0, 0⟩ 0 0 1)).2.nodes,
        q.fields.m_lod ≤ 10 ∧
          (q.hasChildren = true → q.fields.m_lod < 10 ∧ q.fields.m_width > MIN_SIZE) ∧
          ∀ c ∈ q.children, c.fields.m_width > MIN_SIZE / 2 := by
  have hr : Reachable (fun env => env.PATCH_MAX_LOD = 10) (fun _ _ => True)
      (update (demoEnv ⟨Real.sqrt, Real.arccos⟩ 10) ⟨0, 2, 0⟩ (demoWorld 0 fun _ => false)
        ((TerrainPatch.fresh (demoEnv ⟨Real.sqrt, Real.arccos⟩ 10)).init
          (demoEnv ⟨Real.sqrt, Real.arccos⟩ 10) ⟨0, 0⟩ 0 0 1)).1
      (update (demoEnv ⟨Real.sqrt, Real.arccos⟩ 10) ⟨0, 2, 0⟩ (demoWorld 0 fun _ => false)
        ((TerrainPatch.fresh (demoEnv ⟨Real.sqrt, Real.arccos⟩ 10)).init
          (demoEnv ⟨Real.sqrt, Real.arccos⟩ 10) ⟨0, 0⟩ 0 0 1)).2 :=
    Reachable.update _ _ _ _ rfl
      (Reachable.init (demoEnv ⟨Real.sqrt, Real.arccos⟩ 10) (demoWorld 0 fun _ => false)
        ⟨0, 0⟩ 0 0 1 rfl)
  have hroot : (update (demoEnv ⟨Real.sqrt, Real.arccos⟩ 10) ⟨0, 2, 0⟩
      (demoWorld 0 fun _ => false)
      ((TerrainPatch.fresh (demoEnv ⟨Real.sqrt, Real.arccos⟩ 10)).init
        (demoEnv ⟨Real.sqrt, Real.arccos⟩ 10) ⟨0, 0⟩ 0 0 1)).2.fields.m_lod ≤ 10 := by
    obtain ⟨-, -, hl, -, -, -⟩ := geometry_components
      (update_geometry (demoEnv ⟨Real.sqrt, Real.arccos⟩ 10) ⟨0, 2, 0⟩
        (demoWorld 0 fun _ => false)
        ((TerrainPatch.fresh (demoEnv ⟨Real.sqrt, Real.arccos⟩ 10)).init
          (demoEnv ⟨Real.sqrt, Real.arccos⟩ 10) ⟨0, 0⟩ 0 0 1))
    rw [hl]
    decide
  exact ⟨⟨hr, hroot⟩, reachable_bounded 10 (fun _ _ => True) _ _ hr hroot⟩

/-! ## Termination and recursion depth of `update` -/

section Depth
variable {F : Type} [LinearOrderedField F]

/-- The children that `update` recurses into are either the children that the
patch had, or four new patches without children one level deeper than a patch
below the maximum level. -/
theorem updateSelf_children (env : Env F) (cameraPos : V3 F) (w : World) (p : TerrainPatch F) :
    (updateSelf env cameraPos w p).2.children = [] ∨
      (updateSelf env cameraPos w p).2.children = p.children ∨
      (p.hasChildren = false ∧ p.fields.m_lod < env.PATCH_MAX_LOD ∧
        ∀ c ∈ (updateSelf env cameraPos w p).2.children,
          ∃ e, c = .leaf e ∧ e.m_lod = p.fields.m_lod + 1) := by
  cases p with
  | leaf d =>
    simp only [updateSelf]
    split_ifs with hcan
    · right
      right
      simp only [canSubdivide, Bool.and_eq_true, decide_eq_true_eq] at hcan
      refine ⟨rfl, hcan.1.1, fun c hc => ?_⟩
      simp only [TerrainPatch.children, List.mem_cons, List.mem_singleton, List.not_mem_nil,
        or_false] at hc
      rcases hc with rfl | rfl | rfl | rfl
      all_goals exact ⟨_, rfl, rfl⟩
    all_goals exact Or.inl rfl
  | node d c0 c1 c2 c3 =>
    by_cases hfar : (calculateClosestPointAndDist env cameraPos w d).2.m_distance >
      (calculateClosestPointAndDist env cameraPos w d).2.m_width * DIST_MAX
    · rw [updateSelf_node_far env cameraPos w d c0 c1 c2 c3 hfar]
      split_ifs with hr
      · exact Or.inl rfl
      · exact Or.inr (Or.inl rfl)
    · cases hm : d.m_mesh with
      | none =>
        rw [updateSelf_node_near_none env cameraPos w d c0 c1 c2 c3 hfar hm]
        exact Or.inr (Or.inl rfl)
      | some h =>
        rw [updateSelf_node_near_some env cameraPos w d c0 c1 c2 c3 h hfar hm]
        split_ifs
        · exact Or.inr (Or.inl rfl)
        · exact Or.inr (Or.inl rfl)

theorem depthBound_child (M : Int) (p c : TerrainPatch F) (hc : c ∈ p.children) :
    c.depthBound M < p.depthBound M := by
  cases p with
  | leaf d => simp [TerrainPatch.children] at hc
  | node d c0 c1 c2 c3 =>
    simp only [TerrainPatch.children, List.mem_cons, List.mem_singleton, List.not_mem_nil,
      or_false] at hc
    simp only [TerrainPatch.depthBound]
    rcases hc with rfl | rfl | rfl | rfl <;> omega

theorem updateSelf_depthBound (env : Env F) (cameraPos : V3 F) (w : World)
    (p : TerrainPatch F) :
    ∀ c ∈ (updateSelf env cameraPos w p).2.children,
      c.depthBound env.PATCH_MAX_LOD < p.depthBound env.PATCH_MAX_LOD := by
  intro c hc
  rcases updateSelf_children env cameraPos w p with h | h | ⟨hl, hlod, h⟩
  · rw [h] at hc
    simp at hc
  · rw [h] at hc
    exact depthBound_child _ p c hc
  · obtain ⟨e, rfl, he⟩ := h c hc
    cases p with
    | leaf d =>
      simp only [TerrainPatch.fields] at he hlod
      simp only [TerrainPatch.depthBound, he]
      omega
    | node d c0 c1 c2 c3 => simp [TerrainPatch.hasChildren] at hl

/-- With a bound above `depthBound`, the bounded run of `update` is the run of
`update`. -/
theorem updateWithin_eq (env : Env F) (cameraPos : V3 F) (n : Nat) :
    ∀ (w : World) (p : TerrainPatch F), p.depthBound env.PATCH_MAX_LOD < n →
      updateWithin env cameraPos n w p = some (update env cameraPos w p) := by
  induction n with
  | zero => intro w p h; omega
  | succ n ih =>
    intro w p h
    have hd := updateSelf_depthBound env cameraPos w p
    rw [update_eq]
    simp only [updateWithin]
    rcases hs : updateSelf env cameraPos w p with ⟨w1, q⟩
    rw [hs] at hd
    cases q with
    | leaf d => rfl
    | node d c0 c1 c2 c3 =>
      simp only [TerrainPatch.children, List.mem_cons, List.mem_singleton, List.not_mem_nil,
        or_false, forall_eq_or_imp, forall_eq] at hd
      obtain ⟨h0, h1, h2, h3⟩ := hd
      simp only [updateChildren]
      rw [ih w1 c0 (by omega)]
      simp only
      rw [ih _ c1 (by omega)]
      simp only
      rw [ih _ c2 (by omega)]
      simp only
      rw [ih _ c3 (by omega)]

theorem depthBound_le (M : Int) (p : TerrainPatch F) (hp : p.Halved) :
    p.depthBound M ≤ p.height + (M - p.fields.m_lod).toNat := by
  induction p with
  | leaf d => simp [TerrainPatch.depthBound, TerrainPatch.height, TerrainPatch.fields]
  | node d c0 c1 c2 c3 ih0 ih1 ih2 ih3 =>
    obtain ⟨hc, h0, h1, h2, h3⟩ := hp
    have e0 := (hc c0 (by simp)).1
    have e1 := (hc c1 (by simp)).1
    have e2 := (hc c2 (by simp)).1
    have e3 := (hc c3 (by simp)).1
    have i0 := ih0 h0
    have i1 := ih1 h1
    have i2 := ih2 h2
    have i3 := ih3 h3
    rw [e0] at i0
    rw [e1] at i1
    rw [e2] at i2
    rw [e3] at i3
    simp only [TerrainPatch.depthBound, TerrainPatch.height, TerrainPatch.fields]
    omega

theorem mem_nodes_self (p : TerrainPatch F) : p ∈ p.nodes := by
  cases p <;> simp [TerrainPatch.nodes]

theorem mem_nodes_of_child (p c q : TerrainPatch F) (hc : c ∈ p.children) (hq : q ∈ c.nodes) :
    q ∈ p.nodes := by
  cases p with
  | leaf d => simp [TerrainPatch.children] at hc
  | node d c0 c1 c2 c3 =>
    simp only [TerrainPatch.children, List.mem_cons, List.mem_singleton, List.not_mem_nil,
      or_false] at hc
    simp only [TerrainPatch.nodes, List.mem_cons, List.mem_append]
    rcases hc with rfl | rfl | rfl | rfl <;> tauto

/-- Every patch of the tree after an update is at the maximum level at most, or
is at the level of a patch of the tree before. -/
theorem update_lod (env : Env F) (cameraPos : V3 F) (w : World) (p : TerrainPatch F) :
    ∀ q ∈ (update env cameraPos w p).2.nodes,
      q.fields.m_lod ≤ env.PATCH_MAX_LOD ∨
        ∃ q0 ∈ p.nodes, q.fields.m_lod = q0.fields.m_lod := by
  induction w, p using update.induct env cameraPos with
  | case1 w p w1 d h =>
    intro q hq
    have hg := updateSelf_geometry env cameraPos w p
    rw [update_eq, h] at hq
    rw [h] at hg
    simp only [updateChildren, TerrainPatch.nodes, List.mem_singleton] at hq
    subst hq
    exact Or.inr ⟨p, mem_nodes_self p, (geometry_components hg).2.2.1⟩
  | case2 w p w1 d c0 c1 c2 c3 h r0 r1 r2 ih0 ih1 _ ih2 _ ih3 =>
    intro q hq
    have hg := updateSelf_geometry env cameraPos w p
    have hch := updateSelf_children env cameraPos w p
    rw [h] at hg hch
    rw [update_eq, h] at hq
    simp only [updateChildren, TerrainPatch.nodes, List.mem_cons, List.mem_append] at hq
    have key : ∀ c ∈ [c0, c1, c2, c3], ∀ q0 ∈ c.nodes,
        q0.fields.m_lod ≤ env.PATCH_MAX_LOD ∨
          ∃ q1 ∈ p.nodes, q0.fields.m_lod = q1.fields.m_lod := by
      intro c hc q0 hq0
      rcases hch with hch | hch | ⟨-, hlod, hch⟩
      · simp [TerrainPatch.children] at hch
      · have hch1 : [c0, c1, c2, c3] = p.children := hch
        rw [hch1] at hc
        exact Or.inr ⟨q0, mem_nodes_of_child p c q0 hc hq0, rfl⟩
      · obtain ⟨e, rfl, he⟩ := hch c hc
        simp only [TerrainPatch.nodes, List.mem_singleton] at hq0
        subst hq0
        left
        show e.m_lod ≤ env.PATCH_MAX_LOD
        rw [he]
        omega
    have lift : ∀ c ∈ [c0, c1, c2, c3],
        (q.fields.m_lod ≤ env.PATCH_MAX_LOD ∨ ∃ q0 ∈ c.nodes, q.fields.m_lod = q0.fields.m_lod) →
        q.fields.m_lod ≤ env.PATCH_MAX_LOD ∨
          ∃ q1 ∈ p.nodes, q.fields.m_lod = q1.fields.m_lod := by
      intro c hc hq
      rcases hq with hq | ⟨q0, hq0, e⟩
      · exact Or.inl hq
      · rw [e]
        exact key c hc q0 hq0
    rcases hq with rfl | ((hq | hq) | hq) | hq
    · exact Or.inr ⟨p, mem_nodes_self p, (geometry_components hg).2.2.1⟩
    · exact lift c0 (by simp) (ih0 q hq)
    · exact lift c1 (by simp) (ih1 q hq)
    · exact lift c2 (by simp) (ih2 q hq)
    · exact lift c3 (by simp) (ih3 q hq)

/-- C19: `update` returns a result on every tree, for every camera position and
every mesh store, the children created during the call being updated within the
same call: some bound on the depth of the recursion is enough. Every patch
created by the call is at level `PATCH_MAX_LOD` at most. On a tree whose children
are one level below their parent, calls nested `PATCH_MAX_LOD - lod` deep beyond
the height of the tree are enough. -/
theorem update_terminates (env : Env F) (cameraPos : V3 F) (w : World) (p : TerrainPatch F) :
    (∃ n, updateWithin env cameraPos n w p = some (update env cameraPos w p)) ∧
      (∀ q ∈ (update env cameraPos w p).2.nodes,
        q.fields.m_lod ≤ env.PATCH_MAX_LOD ∨
          ∃ q0 ∈ p.nodes, q.fields.m_lod = q0.fields.m_lod) ∧
      (p.Halved → ∀ n, p.height + (env.PATCH_MAX_LOD - p.fields.m_lod).toNat < n →
        updateWithin env cameraPos n w p = some (update env cameraPos w p)) := by
  refine ⟨⟨_, updateWithin_eq env cameraPos _ w p (Nat.lt_succ_self _)⟩,
    update_lod env cameraPos w p, fun hp n hn => ?_⟩
  exact updateWithin_eq env cameraPos n w p
    (lt_of_le_of_lt (depthBound_le env.PATCH_MAX_LOD p hp) hn)

end Depth

theorem update_terminates_witness :
    ((TerrainPatch.fresh (demoEnv ⟨Real.sqrt, Real.arccos⟩ 10)).init
          (demoEnv ⟨Real.sqrt, Real.arccos⟩ 10) ⟨0, 0⟩ 0 0 1).Halved ∧
      updateWithin (demoEnv ⟨Real.sqrt, Real.arccos⟩ 10) ⟨0, 2, 0⟩ 11
          (demoWorld 0 fun _ => false)
          ((TerrainPatch.fresh (demoEnv ⟨Real.sqrt, Real.arccos⟩ 10)).init
            (demoEnv ⟨Real.sqrt, Real.arccos⟩ 10) ⟨0, 0⟩ 0 0 1) =
        some (update (demoEnv ⟨Real.sqrt, Real.arccos⟩ 10) ⟨0, 2, 0⟩
          (demoWorld 0 fun _ => false)
          ((TerrainPatch.fresh (demoEnv ⟨Real.sqrt, Real.arccos⟩ 10)).init
            (demoEnv ⟨Real.sqrt, Real.arccos⟩ 10) ⟨0, 0⟩ 0 0 1)) :=
  ⟨trivial,
    (update_terminates (demoEnv ⟨Real.sqrt, Real.arccos⟩ 10) ⟨0, 2, 0⟩
      (demoWorld 0 fun _ => false)
      ((TerrainPatch.fresh (demoEnv ⟨Real.sqrt, Real.arccos⟩ 10)).init
        (demoEnv ⟨Real.sqrt, Real.arccos⟩ 10) ⟨0, 0⟩ 0 0 1)).2.2 trivial 11 (by decide)⟩

/-! ## Mesh requests -/

section Requests
variable {F : Type} [LinearOrderedField F]

end Requests

section RequestsExample

end RequestsExample

/-! ## No flagged handle in the tree -/

section Flags
variable {F : Type} [LinearOrderedField F]

theorem mem_ptrs_node (d : PatchFields F) (c0 c1 c2 c3 : TerrainPatch F) (k : MeshPtr) :
    k ∈ (TerrainPatch.node d c0 c1 c2 c3).ptrs ↔
      k ∈ d.m_mesh.toList ∨ k ∈ c0.ptrs ∨ k ∈ c1.ptrs ∨ k ∈ c2.ptrs ∨ k ∈ c3.ptrs := by
  simp only [TerrainPatch.ptrs, List.mem_append]
  tauto

/-- In a tree that owns its meshes, no handle is held twice. -/
theorem owns_disjoint (w : World) (d : PatchFields F) (c0 c1 c2 c3 : TerrainPatch F)
    (ho : (TerrainPatch.node d c0 c1 c2 c3).Owns w) (k : MeshPtr) :
    (k ∈ d.m_mesh.toList → k ∉ c0.ptrs ∧ k ∉ c1.ptrs ∧ k ∉ c2.ptrs ∧ k ∉ c3.ptrs) ∧
      (k ∈ c0.ptrs → k ∉ c1.ptrs ∧ k ∉ c2.ptrs ∧ k ∉ c3.ptrs) ∧
      (k ∈ c1.ptrs → k ∉ c2.ptrs ∧ k ∉ c3.ptrs) ∧
      (k ∈ c2.ptrs → k ∉ c3.ptrs) := by
  have h := List.nodup_iff_count_le_one.mp ho.1 k
  rw [count_ptrs_node] at h
  simp only [← List.count_pos_iff]
  omega

theorem owns_child (w : World) (d : PatchFields F) (c0 c1 c2 c3 : TerrainPatch F)
    (ho : (TerrainPatch.node d c0 c1 c2 c3).Owns w) :
    c0.Owns w ∧ c1.Owns w ∧ c2.Owns w ∧ c3.Owns w := by
  have h := owns_nodes w _ ho
  have m : ∀ c ∈ [c0, c1, c2, c3], c ∈ (TerrainPatch.node d c0 c1 c2 c3).nodes := fun c hc =>
    mem_nodes_of_child _ c c hc (mem_nodes_self c)
  exact ⟨h c0 (m c0 (by simp)), h c1 (m c1 (by simp)), h c2 (m c2 (by simp)),
    h c3 (m c3 (by simp))⟩

/-- A tree that owns its meshes in a store owns them in every later store. -/
theorem owns_later (w w1 : World) (c : TerrainPatch F) (ho : c.Owns w) (hle : w.next ≤ w1.next) :
    c.Owns w1 :=
  ⟨ho.1, fun h hh => lt_of_lt_of_le (ho.2 h hh) hle⟩

/-- The four steps on the children of a patch, one after the other, make a step
on the patch. -/
theorem stepsTo_children (w1 : World) (d : PatchFields F) (c0 c1 c2 c3 : TerrainPatch F)
    (u0 u1 u2 u3 : World × TerrainPatch F)
    (h0 : w1.StepsTo c0 u0) (h1 : u0.1.StepsTo c1 u1) (h2 : u1.1.StepsTo c2 u2)
    (h3 : u2.1.StepsTo c3 u3) :
    w1.StepsTo (.node d c0 c1 c2 c3) (u3.1, .node d u0.2 u1.2 u2.2 u3.2) := by
  intro ho hu
  have dj := owns_disjoint w1 d c0 c1 c2 c3 ho
  obtain ⟨o0, o1, o2, o3⟩ := owns_child w1 d c0 c1 c2 c3 ho
  have hv : ∀ k, k ∈ d.m_mesh.toList ∨ k ∈ c0.ptrs ∨ k ∈ c1.ptrs ∨ k ∈ c2.ptrs ∨ k ∈ c3.ptrs →
      k < w1.next ∧ (w1.mesh k).m_shouldDelete = false := fun k hk =>
    ⟨ho.2 k ((mem_ptrs_node d c0 c1 c2 c3 k).mpr hk), hu k ((mem_ptrs_node d c0 c1 c2 c3 k).mpr hk)⟩
  -- the first child
  obtain ⟨p0, f0, l0, k0⟩ := h0 o0 (fun k hk => (hv k (by tauto)).2)
  -- the second child
  have s1 : ∀ k, k ∈ d.m_mesh.toList ∨ k ∈ c1.ptrs ∨ k ∈ c2.ptrs ∨ k ∈ c3.ptrs →
      k < u0.1.next ∧ (u0.1.mesh k).m_shouldDelete = false ∧ k ∉ u0.2.ptrs := by
    intro k hk
    have a := hv k (by tauto)
    have b := k0 k a.1 (by have := dj k; tauto)
    exact ⟨lt_of_lt_of_le a.1 l0, by rw [b.1]; exact a.2, b.2⟩
  obtain ⟨p1, f1, l1, k1⟩ := h1 (owns_later w1 u0.1 c1 o1 l0) (fun k hk => (s1 k (by tauto)).2.1)
  -- the third child
  have s2 : ∀ k, k ∈ d.m_mesh.toList ∨ k ∈ u0.2.ptrs ∨ k ∈ c2.ptrs ∨ k ∈ c3.ptrs →
      k < u1.1.next ∧ (u1.1.mesh k).m_shouldDelete = false ∧ k ∉ u1.2.ptrs := by
    intro k hk
    have a : k < u0.1.next ∧ (u0.1.mesh k).m_shouldDelete = false ∧ k ∉ c1.ptrs := by
      rcases hk with hk | hk | hk | hk
      · exact ⟨(s1 k (by tauto)).1, (s1 k (by tauto)).2.1, by have := dj k; tauto⟩
      · exact ⟨p0.2 k hk, f0 k hk, fun hc => (s1 k (by tauto)).2.2 hk⟩
      · exact ⟨(s1 k (by tauto)).1, (s1 k (by tauto)).2.1, by have := dj k; tauto⟩
      · exact ⟨(s1 k (by tauto)).1, (s1 k (by tauto)).2.1, by have := dj k; tauto⟩
    have b := k1 k a.1 a.2.2
    exact ⟨lt_of_lt_of_le a.1 l1, by rw [b.1]; exact a.2.1, b.2⟩
  obtain ⟨p2, f2, l2, k2⟩ := h2 (owns_later w1 u1.1 c2 o2 (le_trans l0 l1))
    (fun k hk => (s2 k (by tauto)).2.1)
  -- the fourth child
  have s3 : ∀ k, k ∈ d.m_mesh.toList ∨ k ∈ u0.2.ptrs ∨ k ∈ u1.2.ptrs ∨ k ∈ c3.ptrs →
      k < u2.1.next ∧ (u2.1.mesh k).m_shouldDelete = false ∧ k ∉ u2.2.ptrs := by
    intro k hk
    have a : k < u1.1.next ∧ (u1.1.mesh k).m_shouldDelete = false ∧ k ∉ c2.ptrs := by
      rcases hk with hk | hk | hk | hk
      · exact ⟨(s2 k (by tauto)).1, (s2 k (by tauto)).2.1, by have := dj k; tauto⟩
      · exact ⟨(s2 k (by tauto)).1, (s2 k (by tauto)).2.1,
          fun hc => (s1 k (by tauto)).2.2 hk⟩
      · exact ⟨p1.2 k hk, f1 k hk, fun hc => (s2 k (by tauto)).2.2 hk⟩
      · exact ⟨(s2 k (by tauto)).1, (s2 k (by tauto)).2.1, by have := dj k; tauto⟩
    have b := k2 k a.1 a.2.2
    exact ⟨lt_of_lt_of_le a.1 l2, by rw [b.1]; exact a.2.1, b.2⟩
  obtain ⟨p3, f3, l3, k3⟩ := h3 (owns_later w1 u2.1 c3 o3 (le_trans l0 (le_trans l1 l2)))
    (fun k hk => (s3 k (by tauto)).2.1)
  -- the patch afterwards
  have s4 : ∀ k, k ∈ d.m_mesh.toList ∨ k ∈ u0.2.ptrs ∨ k ∈ u1.2.ptrs ∨ k ∈ u2.2.ptrs →
      k < u3.1.next ∧ (u3.1.mesh k).m_shouldDelete = false ∧ k ∉ u3.2.ptrs := by
    intro k hk
    have a : k < u2.1.next ∧ (u2.1.mesh k).m_shouldDelete = false ∧ k ∉ c3.ptrs := by
      rcases hk with hk | hk | hk | hk
      · exact ⟨(s3 k (by tauto)).1, (s3 k (by tauto)).2.1, by have := dj k; tauto⟩
      · exact ⟨(s3 k (by tauto)).1, (s3 k (by tauto)).2.1,
          fun hc => (s1 k (by tauto)).2.2 hk⟩
      · exact ⟨(s3 k (by tauto)).1, (s3 k (by tauto)).2.1,
          fun hc => (s2 k (by tauto)).2.2 hk⟩
      · exact ⟨p2.2 k hk, f2 k hk, fun hc => (s3 k (by tauto)).2.2 hk⟩
    have b := k3 k a.1 a.2.2
    exact ⟨lt_of_lt_of_le a.1 l3, by rw [b.1]; exact a.2.1, b.2⟩
  refine ⟨⟨?_, ?_⟩, ?_, le_trans l0 (le_trans l1 (le_trans l2 l3)), ?_⟩
  · rw [List.nodup_iff_count_le_one]
    intro k
    rw [count_ptrs_node]
    have n0 := List.nodup_iff_count_le_one.mp p0.1 k
    have n1 := List.nodup_iff_count_le_one.mp p1.1 k
    have n2 := List.nodup_iff_count_le_one.mp p2.1 k
    have n3 := List.nodup_iff_count_le_one.mp p3.1 k
    have nd : d.m_mesh.toList.count k ≤ 1 := by
      rw [count_toList]
      split_ifs <;> omega
    have e1 := fun h => (s1 k h).2.2
    have e2 := fun h => (s2 k h).2.2
    have e3 := fun h => (s3 k h).2.2
    have e4 := fun h => (s4 k h).2.2
    simp only [← List.count_pos_iff] at e1 e2 e3 e4
    omega
  · intro k hk
    rw [mem_ptrs_node] at hk
    rcases hk with hk | hk | hk | hk | hk
    · exact (s4 k (by tauto)).1
    · exact (s4 k (by tauto)).1
    · exact (s4 k (by tauto)).1
    · exact (s4 k (by tauto)).1
    · exact p3.2 k hk
  · intro k hk
    rw [mem_ptrs_node] at hk
    rcases hk with hk | hk | hk | hk | hk
    · exact (s4 k (by tauto)).2.1
    · exact (s4 k (by tauto)).2.1
    · exact (s4 k (by tauto)).2.1
    · exact (s4 k (by tauto)).2.1
    · exact f3 k hk
  · intro k hk hn
    rw [mem_ptrs_node] at hn
    push_neg at hn
    obtain ⟨nd, n0, n1, n2, n3⟩ := hn
    have a0 := k0 k hk n0
    have a1 := k1 k (lt_of_lt_of_le hk l0) n1
    have a2 := k2 k (lt_of_lt_of_le hk (le_trans l0 l1)) n2
    have a3 := k3 k (lt_of_lt_of_le hk (le_trans l0 (le_trans l1 l2))) n3
    refine ⟨by rw [a3.1, a2.1, a1.1, a0.1], ?_⟩
    rw [mem_ptrs_node]
    push_neg
    exact ⟨nd, a0.2, a1.2, a2.2, a3.2⟩

theorem requestMesh_flag (env : Env F)
    (hd : ∀ s wd l f b, (env.dispatchedMesh s wd l f b).m_shouldDelete = false)
    (w : World) (d : PatchFields F) (k : MeshPtr)
    (hk : k ≠ w.next → (w.mesh k).m_shouldDelete = false) :
    ((requestMesh env w d).1.mesh k).m_shouldDelete = false := by
  by_cases h : k = w.next
  · subst h
    simp only [requestMesh, dispatchTerrainGen, Function.update_same]
    exact hd _ _ _ _ _
  · rw [requestMesh_mesh_of_ne env w d k h]
    exact hk h

theorem deleteChildren_mesh (w : World) (c0 c1 c2 c3 : TerrainPatch F) (k : MeshPtr)
    (h0 : k ∉ c0.ptrs) (h1 : k ∉ c1.ptrs) (h2 : k ∉ c2.ptrs) (h3 : k ∉ c3.ptrs) :
    (deleteChildren w c0 c1 c2 c3).mesh k = w.mesh k := by
  simp only [deleteChildren, destroy_mesh, if_neg h0, if_neg h1, if_neg h2, if_neg h3]

theorem setShouldDelete_mesh_of_ne (w : World) (h k : MeshPtr) (hne : k ≠ h) :
    (w.setShouldDelete h).mesh k = w.mesh k := by
  simp [World.setShouldDelete, Function.update_noteq hne]

/-- The body of `update` leaves no flagged handle in the tree, when the meshes
that the dispatcher returns are not flagged. -/
theorem unflagged_updateSelf (env : Env F)
    (hd : ∀ s wd l f b, (env.dispatchedMesh s wd l f b).m_shouldDelete = false)
    (cameraPos : V3 F) (w : World) (p : TerrainPatch F) (ho : p.Owns w) (hu : p.Unflagged w) :
    (updateSelf env cameraPos w p).2.Unflagged (updateSelf env cameraPos w p).1 := by
  cases p with
  | leaf d =>
    by_cases hcan : canSubdivide env (calculateClosestPointAndDist env cameraPos w d).2 = true
    · cases hvis : isOverHorizon env.math cameraPos
          (calculateClosestPointAndDist env cameraPos w d).1 env.getRadius with
      | false =>
        rw [updateSelf_leaf_subdivide env cameraPos w d hcan hvis]
        intro k hk
        rw [mem_ptrs_node] at hk
        simp only [newChild_ptrs, List.not_mem_nil, or_false, calc_mesh] at hk
        exact hu k hk
      | true =>
        rw [updateSelf_leaf_hidden env cameraPos w d hcan hvis]
        exact hu
    · rw [Bool.not_eq_true] at hcan
      by_cases hm : d.m_mesh = none
      · rw [updateSelf_leaf_request env cameraPos w d hcan hm]
        intro k hk
        simp only [TerrainPatch.ptrs, requestMesh_mesh, Option.toList, List.mem_singleton] at hk
        exact requestMesh_flag env hd w _ k (fun hne => absurd hk hne)
      · rw [updateSelf_leaf_keep env cameraPos w d hcan hm]
        exact hu
  | node d c0 c1 c2 c3 =>
    have dj := owns_disjoint w d c0 c1 c2 c3 ho
    have hv : ∀ k, k ∈ d.m_mesh.toList ∨ k ∈ c0.ptrs ∨ k ∈ c1.ptrs ∨ k ∈ c2.ptrs ∨ k ∈ c3.ptrs →
        k < w.next ∧ (w.mesh k).m_shouldDelete = false := fun k hk =>
      ⟨ho.2 k ((mem_ptrs_node d c0 c1 c2 c3 k).mpr hk),
        hu k ((mem_ptrs_node d c0 c1 c2 c3 k).mpr hk)⟩
    by_cases hfar : (calculateClosestPointAndDist env cameraPos w d).2.m_distance >
      (calculateClosestPointAndDist env cameraPos w d).2.m_width * DIST_MAX
    · rw [updateSelf_node_far env cameraPos w d c0 c1 c2 c3 hfar]
      by_cases hm : d.m_mesh = none
      · rw [requestIfNoMesh_none env w (calculateClosestPointAndDist env cameraPos w d).2 hm]
        have hnew : ∀ c ∈ [c0, c1, c2, c3], w.next ∉ c.ptrs := by
          intro c hc hmem
          have : w.next < w.next := (hv w.next (by
            simp only [List.mem_cons, List.mem_singleton, List.not_mem_nil, or_false] at hc
            rcases hc with rfl | rfl | rfl | rfl <;> tauto)).1
          exact lt_irrefl _ this
        split_ifs
        · intro k hk
          simp only [TerrainPatch.ptrs, requestMesh_mesh, Option.toList, List.mem_singleton] at hk
          subst hk
          rw [deleteChildren_mesh _ c0 c1 c2 c3 w.next (hnew c0 (by simp)) (hnew c1 (by simp))
            (hnew c2 (by simp)) (hnew c3 (by simp))]
          exact requestMesh_flag env hd w _ w.next (fun hne => absurd rfl hne)
        · intro k hk
          rw [mem_ptrs_node] at hk
          simp only [requestMesh_mesh, Option.toList, List.mem_singleton] at hk
          refine requestMesh_flag env hd w _ k (fun hne => ?_)
          rcases hk with hk | hk
          · exact absurd hk hne
          · exact (hv k (Or.inr hk)).2
      · obtain ⟨h, hm⟩ := Option.ne_none_iff_exists'.mp hm
        rw [requestIfNoMesh_some env w (calculateClosestPointAndDist env cameraPos w d).2 h hm]
        split_ifs
        · intro k hk
          simp only [TerrainPatch.ptrs, calc_mesh] at hk
          have a := dj k
          rw [deleteChildren_mesh w c0 c1 c2 c3 k (by tauto) (by tauto) (by tauto) (by tauto)]
          exact (hv k (Or.inl hk)).2
        · exact hu
    · by_cases hm : d.m_mesh = none
      · rw [updateSelf_node_near_none env cameraPos w d c0 c1 c2 c3 hfar hm]
        exact hu
      · obtain ⟨h, hm⟩ := Option.ne_none_iff_exists'.mp hm
        rw [updateSelf_node_near_some env cameraPos w d c0 c1 c2 c3 h hfar hm]
        split_ifs
        · intro k hk
          rw [mem_ptrs_node] at hk
          simp only [Option.toList, List.not_mem_nil, false_or] at hk
          have a := dj h
          have hh : h ∈ d.m_mesh.toList := by simp [hm]
          have hne : k ≠ h := by
            rintro rfl
            tauto
          rw [setShouldDelete_mesh_of_ne w h k hne]
          exact (hv k (Or.inr hk)).2
        · exact hu

theorem stepsTo_updateSelf (env : Env F)
    (hd : ∀ s wd l f b, (env.dispatchedMesh s wd l f b).m_shouldDelete = false)
    (cameraPos : V3 F) (w : World) (p : TerrainPatch F) :
    w.StepsTo p (updateSelf env cameraPos w p) := by
  intro ho hu
  have hh := handsOut_updateSelf env cameraPos w p ho.2
  have he := Extends.updateSelf env cameraPos w p
  have hn := List.nodup_iff_count_le_one.mp ho.1
  refine ⟨⟨?_, ?_⟩, unflagged_updateSelf env hd cameraPos w p ho hu, he.1, fun k hk hn => ?_⟩
  · rw [List.nodup_iff_count_le_one]
    intro k
    have a := hh k
    have b := hn k
    omega
  · rw [valid_iff_count]
    intro k hk
    exact (hh k).2.2 hk
  · refine ⟨(he.2 k hk).2.2 hn, ?_⟩
    have a := (hh k).1 hk
    rw [← List.count_eq_zero] at hn ⊢
    omega

theorem stepsTo_trans (w w1 : World) (p p1 : TerrainPatch F) (u : World × TerrainPatch F)
    (h1 : w.StepsTo p (w1, p1)) (h2 : w1.StepsTo p1 u) : w.StepsTo p u := by
  intro ho hu
  obtain ⟨o1, f1, l1, k1⟩ := h1 ho hu
  obtain ⟨o2, f2, l2, k2⟩ := h2 o1 f1
  refine ⟨o2, f2, le_trans l1 l2, fun k hk hn => ?_⟩
  have a := k1 k hk hn
  have b := k2 k (lt_of_lt_of_le hk l1) a.2
  exact ⟨by rw [b.1, a.1], b.2⟩

/-- An update keeps the handles in order: the tree owns its meshes and holds no
flagged handle afterwards if it does before and the meshes that the dispatcher
returns are not flagged. -/
theorem stepsTo_update (env : Env F)
    (hd : ∀ s wd l f b, (env.dispatchedMesh s wd l f b).m_shouldDelete = false)
    (cameraPos : V3 F) (w : World) (p : TerrainPatch F) :
    w.StepsTo p (SoA.update env cameraPos w p) := by
  induction w, p using update.induct env cameraPos with
  | case1 w p w1 d h =>
    have hs := stepsTo_updateSelf env hd cameraPos w p
    rw [update_eq, h]
    rw [h] at hs
    exact hs
  | case2 w p w1 d c0 c1 c2 c3 h r0 r1 r2 ih0 ih1 _ ih2 _ ih3 =>
    have hs := stepsTo_updateSelf env hd cameraPos w p
    rw [update_eq, h]
    rw [h] at hs
    exact stepsTo_trans w w1 p _ _ hs (stepsTo_children w1 d c0 c1 c2 c3 _ _ _ _ ih0 ih1 ih2 ih3)

theorem mem_ptrs_of_node (p q : TerrainPatch F) (h : MeshPtr) (hq : q ∈ p.nodes)
    (hm : q.fields.m_mesh = some h) : h ∈ p.ptrs := by
  induction p with
  | leaf d =>
    simp only [TerrainPatch.nodes, List.mem_singleton] at hq
    subst hq
    simp only [TerrainPatch.fields] at hm
    simp [TerrainPatch.ptrs, hm]
  | node d c0 c1 c2 c3 ih0 ih1 ih2 ih3 =>
    simp only [TerrainPatch.nodes, List.mem_cons, List.mem_append] at hq
    rw [mem_ptrs_node]
    rcases hq with rfl | ((hq | hq) | hq) | hq
    · simp only [TerrainPatch.fields] at hm
      simp [hm]
    · exact Or.inr (Or.inl (ih0 hq))
    · exact Or.inr (Or.inr (Or.inl (ih1 hq)))
    · exact Or.inr (Or.inr (Or.inr (Or.inl (ih2 hq))))
    · exact Or.inr (Or.inr (Or.inr (Or.inr (ih3 hq))))

/-- In every state of the lifetime of a tree, the tree owns its meshes and holds
no flagged handle. -/
theorem lifetime_unflagged (E : Env F → Prop) (A : World → World → Prop)
    (hE : ∀ env, E env → ∀ s wd l f b, (env.dispatchedMesh s wd l f b).m_shouldDelete = false)
    (hA : ∀ w w1, A w w1 → w.next ≤ w1.next ∧
      ∀ h, h < w.next → (w1.mesh h).m_shouldDelete = true → (w.mesh h).m_shouldDelete = true)
    (w : World) (p : TerrainPatch F) (hr : Lifetime E A w p) : p.Owns w ∧ p.Unflagged w := by
  induction hr with
  | init env w gridPosition cubeFace lod width _ =>
    exact ⟨⟨List.nodup_nil, fun h hh => absurd hh (List.not_mem_nil h)⟩,
      fun h hh => absurd hh (List.not_mem_nil h)⟩
  | update env cameraPos w p he _ ih =>
    obtain ⟨o, f, -, -⟩ := stepsTo_update env (hE env he) cameraPos w p ih.1 ih.2
    exact ⟨o, f⟩
  | destroy w p _ ih =>
    rw [destroy_snd]
    exact ⟨⟨List.nodup_nil, fun h hh => absurd hh (List.not_mem_nil h)⟩,
      fun h hh => absurd hh (List.not_mem_nil h)⟩
  | async w w1 p ha _ ih =>
    refine ⟨owns_later w w1 p ih.1 (hA w w1 ha).1, fun h hh => ?_⟩
    have a := (hA w w1 ha).2 h (ih.1.2 h hh)
    have b := ih.2 h hh
    cases hc : (w1.mesh h).m_shouldDelete with
    | false => rfl
    | true =>
      rw [a hc] at b
      cases b

/-- C15: assume that the dispatcher returns, for every request, a fresh handle
(the model hands out the next free address) to a mesh that is not flagged, and
that nothing but the tree sets the deletion flag of a mesh handed out. Then, in
every state reachable from a freshly initialised root patch by calls of `update`
and of `destroy`, the other threads changing the mesh store in between, no
patch of the tree holds a handle to a mesh whose deletion flag is set. -/
theorem no_flagged_handle (w : World) (p : TerrainPatch F)
    (hr : Lifetime Env.DispatchesUnflagged World.KeepsFlags w p) :
    ∀ q ∈ p.nodes, ∀ h, q.fields.m_mesh = some h → (w.mesh h).m_shouldDelete = false :=
  fun q hq h hm =>
    (lifetime_unflagged Env.DispatchesUnflagged World.KeepsFlags (fun _ he => he)
      (fun _ _ ha => ha) w p hr).2 h (mem_ptrs_of_node p q h hq hm)

end Flags

theorem no_flagged_handle_witness :
    Lifetime Env.DispatchesUnflagged World.KeepsFlags
        (update (demoEnv ⟨Real.sqrt, Real.arccos⟩ 0) ⟨0, 2, 0⟩
          (destroy
            (update (demoEnv ⟨Real.sqrt, Real.arccos⟩ 0) ⟨0, 2, 0⟩ (demoWorld 0 fun _ => false)
              ((TerrainPatch.fresh (demoEnv ⟨Real.sqrt, Real.arccos⟩ 0)).init
                (demoEnv ⟨Real.sqrt, Real.arccos⟩ 0) ⟨0, 0⟩ 0 0 1)).1
            (update (demoEnv ⟨Real.sqrt, Real.arccos⟩ 0) ⟨0, 2, 0⟩ (demoWorld 0 fun _ => false)
              ((TerrainPatch.fresh (demoEnv ⟨Real.sqrt, Real.arccos⟩ 0)).init
                (demoEnv ⟨Real.sqrt, Real.arccos⟩ 0) ⟨0, 0⟩ 0 0 1)).2).1
          (destroy
            (update (demoEnv ⟨Real.sqrt, Real.arccos⟩ 0) ⟨0, 2, 0⟩ (demoWorld 0 fun _ => false)
              ((TerrainPatch.fresh (demoEnv ⟨Real.sqrt, Real.arccos⟩ 0)).init
                (demoEnv ⟨Real.sqrt, Real.arccos⟩ 0) ⟨0, 0⟩ 0 0 1)).1
            (update (demoEnv ⟨Real.sqrt, Real.arccos⟩ 0) ⟨0, 2, 0⟩ (demoWorld 0 fun _ => false)
              ((TerrainPatch.fresh (demoEnv ⟨Real.sqrt, Real.arccos⟩ 0)).init
                (demoEnv ⟨Real.sqrt, Real.arccos⟩ 0) ⟨0, 0⟩ 0 0 1)).2).2).1
        (update (demoEnv ⟨Real.sqrt, Real.arccos⟩ 0) ⟨0, 2, 0⟩
          (destroy
            (update (demoEnv ⟨Real.sqrt, Real.arccos⟩ 0) ⟨0, 2, 0⟩ (demoWorld 0 fun _ => false)
              ((TerrainPatch.fresh (demoEnv ⟨Real.sqrt, Real.arccos⟩ 0)).init
                (demoEnv ⟨Real.sqrt, Real.arccos⟩ 0) ⟨0, 0⟩ 0 0 1)).1
            (update (demoEnv ⟨Real.sqrt, Real.arccos⟩ 0) ⟨0, 2, 0⟩ (demoWorld 0 fun _ => false)
              ((TerrainPatch.fresh (demoEnv ⟨Real.sqrt, Real.arccos⟩ 0)).init
                (demoEnv ⟨Real.sqrt, Real.arccos⟩ 0) ⟨0, 0⟩ 0 0 1)).2).1
          (destroy
            (update (demoEnv ⟨Real.sqrt, Real.arccos⟩ 0) ⟨0, 2, 0⟩ (demoWorld 0 fun _ => false)
              ((TerrainPatch.fresh (demoEnv ⟨Real.sqrt, Real.arccos⟩ 0)).init
                (demoEnv ⟨Real.sqrt, Real.arccos⟩ 0) ⟨0, 0⟩ 0 0 1)).1
            (update (demoEnv ⟨Real.sqrt, Real.arccos⟩ 0) ⟨0, 2, 0⟩ (demoWorld 0 fun _ => false)
              ((TerrainPatch.fresh (demoEnv ⟨Real.sqrt, Real.arccos⟩ 0)).init
                (demoEnv ⟨Real.sqrt, Real.arccos⟩ 0) ⟨0, 0⟩ 0 0 1)).2).2).2 ∧
      ∀ q ∈ (update (demoEnv ⟨Real.sqrt, Real.arccos⟩ 0) ⟨0, 2, 0⟩
          (destroy
            (update (demoEnv ⟨Real.sqrt, Real.arccos⟩ 0) ⟨0, 2, 0⟩ (demoWorld 0 fun _ => false)
              ((TerrainPatch.fresh (demoEnv ⟨Real.sqrt, Real.arccos⟩ 0)).init
                (demoEnv ⟨Real.sqrt, Real.arccos⟩ 0) ⟨0, 0⟩ 0 0 1)).1
            (update (demoEnv ⟨Real.sqrt, Real.arccos⟩ 0) ⟨0, 2, 0⟩ (demoWorld 0 fun _ => false)
              ((TerrainPatch.fresh (demoEnv ⟨Real.sqrt, Real.arccos⟩ 0)).init
                (demoEnv ⟨Real.sqrt, Real.arccos⟩ 0) ⟨0, 0⟩ 0 0 1)).2).1
          (destroy
            (update (demoEnv ⟨Real.sqrt, Real.arccos⟩ 0) ⟨0, 2, 0⟩ (demoWorld 0 fun _ => false)
              ((TerrainPatch.fresh (demoEnv ⟨Real.sqrt, Real.arccos⟩ 0)).init
                (demoEnv ⟨Real.sqrt, Real.arccos⟩ 0) ⟨0, 0⟩ 0 0 1)).1
            (update (demoEnv ⟨Real.sqrt, Real.arccos⟩ 0) ⟨0, 2, 0⟩ (demoWorld 0 fun _ => false)
              ((TerrainPatch.fresh (demoEnv ⟨Real.sqrt, Real.arccos⟩ 0)).init
                (demoEnv ⟨Real.sqrt, Real.arccos⟩ 0) ⟨0, 0⟩ 0 0 1)).2).2).2.nodes,
        ∀ h, q.fields.m_mesh = some h →
          ((update (demoEnv ⟨Real.sqrt, Real.arccos⟩ 0) ⟨0, 2, 0⟩
            (destroy
              (update (demoEnv ⟨Real.sqrt, Real.arccos⟩ 0) ⟨0, 2, 0⟩ (demoWorld 0 fun _ => false)
                ((TerrainPatch.fresh (demoEnv ⟨Real.sqrt, Real.arccos⟩ 0)).init
                  (demoEnv ⟨Real.sqrt, Real.arccos⟩ 0) ⟨0, 0⟩ 0 0 1)).1
              (update (demoEnv ⟨Real.sqrt, Real.arccos⟩ 0) ⟨0, 2, 0⟩ (demoWorld 0 fun _ => false)
                ((TerrainPatch.fresh (demoEnv ⟨Real.sqrt, Real.arccos⟩ 0)).init
                  (demoEnv ⟨Real.sqrt, Real.arccos⟩ 0) ⟨0, 0⟩ 0 0 1)).2).1
            (destroy
              (update (demoEnv ⟨Real.sqrt, Real.arccos⟩ 0) ⟨0, 2, 0⟩ (demoWorld 0 fun _ => false)
                ((TerrainPatch.fresh (demoEnv ⟨Real.sqrt, Real.arccos⟩ 0)).init
                  (demoEnv ⟨Real.sqrt, Real.arccos⟩ 0) ⟨0, 0⟩ 0 0 1)).1
              (update (demoEnv ⟨Real.sqrt, Real.arccos⟩ 0) ⟨0, 2, 0⟩ (demoWorld 0 fun _ => false)
                ((TerrainPatch.fresh (demoEnv ⟨Real.sqrt, Real.arccos⟩ 0)).init
                  (demoEnv ⟨Real.sqrt, Real.arccos⟩ 0) ⟨0, 0⟩ 0 0 1)).2).2).1.mesh
              h).m_shouldDelete = false := by
  have hr : Lifetime Env.DispatchesUnflagged World.KeepsFlags _ _ :=
    Lifetime.update (demoEnv ⟨Real.sqrt, Real.arccos⟩ 0) ⟨0, 2, 0⟩ _ _ (fun _ _ _ _ _ => rfl)
      (Lifetime.destroy _ _
        (Lifetime.update (demoEnv ⟨Real.sqrt, Real.arccos⟩ 0) ⟨0, 2, 0⟩ _ _
          (fun _ _ _ _ _ => rfl)
          (Lifetime.init (demoEnv ⟨Real.sqrt, Real.arccos⟩ 0) (demoWorld 0 fun _ => false)
            ⟨0, 0⟩ 0 0 1 (fun _ _ _ _ _ => rfl))))
  exact ⟨hr, no_flagged_handle _ _ hr⟩

end SoA
